import Mathlib

/-!
# Cooperative task scheduler: shallow embedding of `src/main.c` and `src/src/main.c`

Two C programs implement the same polling scheduler.

* `src/main.c` (namespace `SwitchImpl`): every step function is a `switch` over
  `task->status`, the file task keeps an explicit `step` field in its payload.
* `src/src/main.c` (namespace `ProtoImpl`): the step functions are written with the
  `TASK_START` / `TASK_PAUSE_WHILE` / `TASK_FINISH` preprocessor definitions, which
  expand to a `switch (task->step)` whose `case` labels are source line numbers.

Conventions of the embedding.

* Task objects live in a memory `Nat → Task`; a pointer is an `Option Nat`
  (`none` is `NULL`).  The `next` field of a task is such a pointer, and the
  registry is the chain reached from the global head pointer.
* A step function `void f(Task* task)` only touches `*task`, the console and the
  outside world, so it is embedded as a function from the world seen during the
  call (`Env`) and the task object before the call to the task object after the
  call and the lines printed.
* Loops over the linked list take a `fuel : Nat` argument and return `none` when
  it runs out (a list that loops back on itself is never left by the C code).
  The outer `while` loop of `main` is run for a bounded number of passes and
  reports whether it was left within them.
* A `double` is an IEEE 754 binary64 datum (`Double`: sign bit, exponent field,
  fraction field).  The conversion from `long`, `+`, `/` and `>=` are the binary64
  operations, each result rounded to nearest with ties to even and no excess
  precision kept between operations.
* `time_t` and `long` are 64 bits wide; a difference of two of them is reduced
  into the range of `long` (`wrap_long`), which is what two's-complement hardware
  yields where C leaves the overflow undefined.  The other integers are `Int`.
* The elapsed time of the specification, a real number of seconds, is
  `elapsed_exact`; `elapsed_sec` is the `double` the programs compute for it, and
  the theorems on the timer say how far the two can differ.
-/

/-- Value of a C `struct timespec`; both members have type `long`. -/
structure Timespec where
  tv_sec : Int
  tv_nsec : Int
deriving DecidableEq, Repr

/-- The representative in `[-2^63, 2^63)` of an integer modulo `2^64`: the value a
`long` holds after an arithmetic operation whose exact result is `x`. -/
def wrap_long (x : Int) : Int :=
  (x + 9223372036854775808) % 18446744073709551616 - 9223372036854775808

/-- Value of a C `double`: an IEEE 754 binary64 datum, given by its sign bit, its
11-bit biased exponent field and its 52-bit fraction field. -/
structure Double where
  sign : Bool
  expo : Fin 2048
  frac : Fin 4503599627370496
deriving DecidableEq, Repr

namespace Double

/-- Not-a-number: exponent field all ones, fraction field not zero. -/
def is_nan (x : Double) : Bool := decide (x.expo.val = 2047) && decide (x.frac.val ≠ 0)

/-- Infinity: exponent field all ones, fraction field zero. -/
def is_inf (x : Double) : Bool := decide (x.expo.val = 2047) && decide (x.frac.val = 0)

/-- Magnitude of a datum in units of `2^-1074` (the least positive binary64 value):
`frac` for a subnormal datum, `(2^52 + frac) * 2^(expo - 1)` otherwise.  On an
infinity this is `2^2098`, above the magnitude of every finite datum. -/
def mag (x : Double) : Nat :=
  if x.expo.val = 0 then x.frac.val
  else (4503599627370496 + x.frac.val) <<< (x.expo.val - 1)

/-- Signed magnitude in units of `2^-1074`. -/
def scaled (x : Double) : Int :=
  if x.sign then -(x.mag : Int) else (x.mag : Int)

/-- The rational number a finite datum stands for. -/
def to_rat (x : Double) : ℚ := (x.scaled : ℚ) / 2 ^ 1074

/-- Number of binary digits of `n`, computed by halving (`fuel` bounds the number of halvings). -/
def bit_length_aux : Nat → Nat → Nat
  | 0, _ => 0
  | fuel + 1, n => if n = 0 then 0 else bit_length_aux fuel (n / 2) + 1

/-- Number of binary digits of `n` (0 for 0). -/
def bit_length (n : Nat) : Nat := bit_length_aux n n

/-- The integer nearest to `n / d`, the even one of the two when `n / d` lies half-way. -/
def round_half_even (n d : Nat) : Nat :=
  let q := n / d
  let r := n % d
  if 2 * r < d then q
  else if d < 2 * r then q + 1
  else if q % 2 = 0 then q else q + 1

/-- The exponent field holding the low 11 bits of `n`. -/
def expo_field (n : Nat) : Fin 2048 := ⟨n % 2048, Nat.mod_lt _ (by decide)⟩

/-- The fraction field holding the low 52 bits of `n`. -/
def frac_field (n : Nat) : Fin 4503599627370496 :=
  ⟨n % 4503599627370496, Nat.mod_lt _ (by decide)⟩

/-- The datum of sign `neg` whose magnitude is `r` units of `2^-1074`, for an `r` that
has at most 53 significant binary digits; an infinity when `r` is beyond the finite range. -/
def of_mag (neg : Bool) (r : Nat) : Double :=
  let b := bit_length r
  if b ≤ 52 then ⟨neg, 0, frac_field r⟩
  else if 2047 ≤ b - 52 then ⟨neg, 2047, 0⟩
  else ⟨neg, expo_field (b - 52), frac_field (r >>> (b - 53))⟩

/-- Rounding to nearest, ties to even: the datum of sign `neg` nearest to the magnitude
`n / d` units of `2^-1074` (`d > 0`).  Neighbouring data around `n / d` are `2^j` units
apart, where `j` is 0 up to `2^53` units and grows by one with each further binary digit. -/
def round_ratio (neg : Bool) (n d : Nat) : Double :=
  let j := bit_length (n / d) - 53
  of_mag neg (round_half_even n (d <<< j) <<< j)

/-- The conversion to `double` of an integer value `x` of type `long` (or `int`):
`x` itself when it has at most 53 significant binary digits, else the nearest datum. -/
def of_long (x : Int) : Double :=
  round_ratio (decide (x < 0)) (x.natAbs <<< 1074) 1

/-- The quiet not-a-number an invalid operation delivers (which one is chosen is left
to the hardware; no operation of the two programs is invalid). -/
def nan : Double := ⟨false, 2047, 2251799813685248⟩

/-- The binary64 sum `a + b`. -/
def add (a b : Double) : Double :=
  if a.is_nan || b.is_nan then nan
  else if a.is_inf then (if b.is_inf && (a.sign != b.sign) then nan else a)
  else if b.is_inf then b
  else
    let s := a.scaled + b.scaled
    if s = 0 then ⟨a.sign && b.sign, 0, 0⟩
    else round_ratio (decide (s < 0)) s.natAbs 1

/-- The binary64 quotient `a / b`. -/
def div (a b : Double) : Double :=
  if a.is_nan || b.is_nan then nan
  else if a.is_inf then (if b.is_inf then nan else ⟨a.sign != b.sign, 2047, 0⟩)
  else if b.is_inf then ⟨a.sign != b.sign, 0, 0⟩
  else if b.mag = 0 then (if a.mag = 0 then nan else ⟨a.sign != b.sign, 2047, 0⟩)
  else round_ratio (a.sign != b.sign) (a.mag <<< 1074) b.mag

/-- The comparison `a <= b`: false when an operand is not a number. -/
def le (a b : Double) : Bool :=
  !a.is_nan && !b.is_nan && decide (a.scaled ≤ b.scaled)

/-- The comparison `a < b`: false when an operand is not a number. -/
def lt (a b : Double) : Bool :=
  !a.is_nan && !b.is_nan && decide (a.scaled < b.scaled)

instance : Add Double := ⟨add⟩

instance : Div Double := ⟨div⟩

instance : LE Double := ⟨fun a b => le a b = true⟩

instance : LT Double := ⟨fun a b => lt a b = true⟩

instance (a b : Double) : Decidable (a ≤ b) := inferInstanceAs (Decidable (le a b = true))

instance (a b : Double) : Decidable (a < b) := inferInstanceAs (Decidable (lt a b = true))

/-- The constant `1e9`. -/
def lit_1e9 : Double := ⟨false, 1052, 3885008372629504⟩

/-- The constant `2.0`. -/
def lit_2_0 : Double := ⟨false, 1024, 0⟩

/-- The constant `10.0`. -/
def lit_10_0 : Double := ⟨false, 1026, 1125899906842624⟩

/-- Positive zero, the datum whose bits are all 0 (what `memset` leaves). -/
def zero : Double := ⟨false, 0, 0⟩

end Double

/-- Outcome of one `stat(path, &st)` call: the returned `int` and the value
found in `st.st_size` after the call (arbitrary when the call failed). -/
structure StatResult where
  ret : Int
  st_size : Int
deriving DecidableEq, Repr

/-- The outside world as one step-function invocation sees it: what `stat`
answers for each path, and what `clock_gettime(CLOCK_MONOTONIC, _)` stores. -/
structure Env where
  stat : String → StatResult
  now : Timespec

/-- Console lines written by the step functions with `printf`.  Both programs
print the same five kinds of line (they differ only in the colon glyph after
the task name); the text arguments are kept as constructor arguments.

* `begin_wait_file p` : `"Task1: 开始等待文件 %s\n"` with `p`
* `hello_a`           : `"Task1: hello-a\n"`
* `hello_b`           : `"Task1: hello-b\n"`
* `begin_wait_sec d`  : `"Task2: 开始等待 %.1f 秒\n"` with `d`
* `hello`             : `"Task2: hello\n"` -/
inductive Line where
  | begin_wait_file (path : String)
  | hello_a
  | hello_b
  | begin_wait_sec (sec : Double)
  | hello
deriving DecidableEq, Repr

/-- A pointer chain: starting at `p` and following `next`, exactly the addresses
`l` are met, in that order, before `NULL` is reached. -/
def chain (next : Nat → Option Nat) : Option Nat → List Nat → Prop
  | p, [] => p = none
  | p, a :: l => p = some a ∧ chain next (next a) l

/-- The expression `(now.tv_sec - start.tv_sec) + (now.tv_nsec - start.tv_nsec) / 1e9`
that both timer step functions compute: two `long` differences, the second converted
to `double` and divided by `1e9`, the first converted to `double` and added. -/
def elapsed_sec (now start : Timespec) : Double :=
  Double.of_long (wrap_long (now.tv_sec - start.tv_sec)) +
    Double.of_long (wrap_long (now.tv_nsec - start.tv_nsec)) / Double.lit_1e9

/-- The expression `2.0 + (rand() % 40) / 10.0` with which both `main` functions draw
the wait duration, `r` being the (non-negative) value returned by `rand()`. -/
def main_wait_sec (r : Int) : Double :=
  Double.lit_2_0 + Double.of_long (r % 40) / Double.lit_10_0

/-- The value of `(now.tv_sec - start.tv_sec) + (now.tv_nsec - start.tv_nsec) / 10^9` in
exact arithmetic, the time in seconds between the two clock readings: what the
specification calls the elapsed time.  It is compared below with `elapsed_sec`, the
value the programs compute. -/
def elapsed_exact (now start : Timespec) : ℚ :=
  ((now.tv_sec - start.tv_sec : Int) : ℚ) + ((now.tv_nsec - start.tv_nsec : Int) : ℚ) / 1000000000

/-- The liveness test both programs make on the outcome of `stat` for `path`:
the call returned 0 and `st_size` is at least 1. -/
def probe_ready (env : Env) (path : String) : Prop :=
  (env.stat path).ret = 0 ∧ (env.stat path).st_size ≥ 1

/-! ## `src/main.c` -/

namespace SwitchImpl

/-- The C enum `TaskStatus` of `src/main.c`. -/
inductive TaskStatus where
  | TASK_STATUS_INIT
  | TASK_STATUS_RUNNING
  | TASK_STATUS_DONE
deriving DecidableEq, Repr

/-- Member `file_wait` of `TaskData`. -/
structure FileWait where
  file1 : String
  file2 : String
  step : Int
deriving DecidableEq, Repr

/-- Member `sleep_wait` of `TaskData`. -/
structure SleepWait where
  wait_sec : Double
  start : Timespec
deriving DecidableEq, Repr

/-- The C struct `TaskData` (a struct in this file: both members are present). -/
structure TaskData where
  file_wait : FileWait
  sleep_wait : SleepWait
deriving DecidableEq, Repr

/-- Values of the function pointer `TaskFunc`: the two step functions of the program. -/
inductive TaskFunc where
  | task1_func
  | task2_func
deriving DecidableEq, Repr

/-- The C struct `Task` (task control block). -/
structure Task where
  status : TaskStatus
  data : TaskData
  func : TaskFunc
  next : Option Nat
deriving DecidableEq, Repr

/-- Program memory: the task object at each address and the global `g_task_list`. -/
structure Mem where
  task : Nat → Task
  g_task_list : Option Nat

/-- The function `task_add` of the source: `if (!task) return; task->status = TASK_STATUS_INIT;
task->next = g_task_list; g_task_list = task;`. -/
def task_add (task : Option Nat) (m : Mem) : Mem :=
  match task with
  | none => m
  | some a =>
      { task := Function.update m.task a
          { m.task a with status := TaskStatus.TASK_STATUS_INIT, next := m.g_task_list },
        g_task_list := some a }

/-- The loop of `all_tasks_done`, started with `iter`. -/
def all_tasks_done_loop (m : Mem) : Nat → Option Nat → Option (Int × Mem)
  | 0, _ => none
  | _ + 1, none => some (1, m)
  | fuel + 1, some a =>
      if (m.task a).status ≠ TaskStatus.TASK_STATUS_DONE then some (0, m)
      else all_tasks_done_loop m fuel (m.task a).next

/-- The function `all_tasks_done` of the source; returns the `int` result and the memory after the call. -/
def all_tasks_done (fuel : Nat) (m : Mem) : Option (Int × Mem) :=
  all_tasks_done_loop m fuel m.g_task_list

/-- The function `task1_func` of the source. -/
def task1_func (env : Env) (task : Task) : Task × List Line :=
  match task.status with
  | TaskStatus.TASK_STATUS_INIT =>
      ({ task with
           data := { task.data with file_wait := { task.data.file_wait with step := 0 } },
           status := TaskStatus.TASK_STATUS_RUNNING },
       [Line.begin_wait_file task.data.file_wait.file1])
  | TaskStatus.TASK_STATUS_RUNNING =>
      if task.data.file_wait.step = 0 then
        let st := env.stat task.data.file_wait.file1
        if st.ret = 0 ∧ st.st_size ≥ 1 then
          ({ task with
               data := { task.data with file_wait := { task.data.file_wait with step := 1 } } },
           [Line.hello_a, Line.begin_wait_file task.data.file_wait.file2])
        else (task, [])
      else if task.data.file_wait.step = 1 then
        let st := env.stat task.data.file_wait.file2
        if st.ret = 0 ∧ st.st_size ≥ 1 then
          ({ task with status := TaskStatus.TASK_STATUS_DONE }, [Line.hello_b])
        else (task, [])
      else (task, [])
  | TaskStatus.TASK_STATUS_DONE => (task, [])

/-- The function `task2_func` of the source. -/
def task2_func (env : Env) (task : Task) : Task × List Line :=
  match task.status with
  | TaskStatus.TASK_STATUS_INIT =>
      ({ task with
           data := { task.data with sleep_wait := { task.data.sleep_wait with start := env.now } },
           status := TaskStatus.TASK_STATUS_RUNNING },
       [Line.begin_wait_sec task.data.sleep_wait.wait_sec])
  | TaskStatus.TASK_STATUS_RUNNING =>
      let now := env.now
      let elapsed := elapsed_sec now task.data.sleep_wait.start
      if elapsed ≥ task.data.sleep_wait.wait_sec then
        ({ task with status := TaskStatus.TASK_STATUS_DONE }, [Line.hello])
      else (task, [])
  | TaskStatus.TASK_STATUS_DONE => (task, [])

/-- The call `iter->func(iter)` through the function pointer. -/
def call_func (env : Env) (task : Task) : Task × List Line :=
  match task.func with
  | TaskFunc.task1_func => task1_func env task
  | TaskFunc.task2_func => task2_func env task

/-- Result of one scheduler pass: memory afterwards, lines printed, and the
addresses of the tasks whose step function was called, in call order
(the last component is bookkeeping of the embedding, not program state). -/
structure PassResult where
  mem : Mem
  out : List Line
  calls : List Nat

/-- The inner `while (iter)` loop of `main`, started with `iter`; `env k` is the
world during the `k`-th loop iteration from here. -/
def sched_pass_loop : Nat → (Nat → Env) → Mem → Option Nat → Option PassResult
  | 0, _, _, _ => none
  | _ + 1, _, m, none => some ⟨m, [], []⟩
  | fuel + 1, env, m, some a =>
      if (m.task a).status ≠ TaskStatus.TASK_STATUS_DONE then
        let r := call_func (env 0) (m.task a)
        let m1 : Mem := { m with task := Function.update m.task a r.1 }
        match sched_pass_loop fuel (fun k => env (k + 1)) m1 (m1.task a).next with
        | none => none
        | some res => some ⟨res.mem, r.2 ++ res.out, a :: res.calls⟩
      else
        sched_pass_loop fuel (fun k => env (k + 1)) m (m.task a).next

/-- One scheduler pass: `Task* iter = g_task_list; while (iter) ...`. -/
def sched_pass (fuel : Nat) (env : Nat → Env) (m : Mem) : Option PassResult :=
  sched_pass_loop fuel env m m.g_task_list

/-- The loop `while (!all_tasks_done()) { <one pass>; usleep(100000); }` of `main`, run
for at most `n` iterations; `w p k` is the world during the `k`-th inner-loop iteration
of pass `p`.  The result is `(true, m, out)` when the loop was left within these
iterations (the test found `all_tasks_done()` non-zero), and `(false, m, out)` when `n`
passes have been made and the loop has not been left; `m` is the memory reached and `out`
the lines printed by the passes. -/
def main_loop (fuel : Nat) : Nat → (Nat → Nat → Env) → Mem → Option (Bool × Mem × List Line)
  | 0, _, m => some (false, m, [])
  | n + 1, w, m =>
      match all_tasks_done fuel m with
      | none => none
      | some (r, m1) =>
          if r ≠ 0 then some (true, m1, [])
          else
            match sched_pass fuel (w 0) m1 with
            | none => none
            | some res =>
                match main_loop fuel n (fun p => w (p + 1)) res.mem with
                | none => none
                | some (b, m2, out) => some (b, m2, res.out ++ out)

/-- The chain of registered tasks of a memory. -/
def registry (m : Mem) (l : List Nat) : Prop :=
  chain (fun a => (m.task a).next) m.g_task_list l

end SwitchImpl

/-! ## `src/src/main.c` -/

namespace ProtoImpl

/-- The C enum `TaskStatus` of `src/src/main.c`. -/
inductive TaskStatus where
  | TASK_INIT
  | TASK_RUNNING
  | TASK_FINISHED
deriving DecidableEq, Repr

/-- The C union `private_data`: it holds one of its two members at a time. -/
inductive PrivateData where
  | file_wait_info (file_path_a file_path_b : String)
  | timer_info (total_wait_sec : Double) (start_ts : Timespec)
deriving DecidableEq, Repr

/-- Values of the function pointer `execute`: the two step functions of the program. -/
inductive TaskFunc where
  | file_wait_task
  | timer_wait_task
deriving DecidableEq, Repr

/-- The C struct `Task`. -/
structure Task where
  status : TaskStatus
  step : Int
  execute : TaskFunc
  private_data : PrivateData
  next : Option Nat
deriving DecidableEq, Repr

/-- Program memory: the task object at each address and the global `g_task_queue`. -/
structure Mem where
  task : Nat → Task
  g_task_queue : Option Nat

/-- First half of `TASK_START(task)`: `if (task->status == TASK_INIT) { task->step = 0;
task->status = TASK_RUNNING; }`.  The second half, `switch (task->step) { case 0:;`,
is the dispatch on `step` written out in each step function below. -/
def TASK_START (task : Task) : Task :=
  if task.status = TaskStatus.TASK_INIT then
    { task with step := 0, status := TaskStatus.TASK_RUNNING }
  else task

/-- The assignment of `TASK_FINISH`: `task->status = TASK_FINISHED;` (followed by the
closing braces of the `switch` and of the `do ... while (0)`). -/
def TASK_FINISH (task : Task) : Task :=
  { task with status := TaskStatus.TASK_FINISHED }

/-- Value of `__LINE__` in `TASK_PAUSE_WHILE` at its first use in `file_wait_task`. -/
def LINE_WAIT_A : Int := 123

/-- Value of `__LINE__` in `TASK_PAUSE_WHILE` at its second use in `file_wait_task`. -/
def LINE_WAIT_B : Int := 128

/-- Value of `__LINE__` in `TASK_PAUSE_WHILE` at its use in `timer_wait_task` (the line
on which the invocation starts; both occurrences in one expansion have the same value). -/
def LINE_WAIT_TIMER : Int := 147

/-- The function `is_file_valid` of the source. -/
def is_file_valid (env : Env) (path : String) : Int :=
  let file_info := env.stat path
  if file_info.ret ≠ 0 then 0
  else if file_info.st_size ≥ 1 then 1 else 0

/-- The function `file_wait_task` of the source, after expansion:
`TASK_START`; `case 0:` print, `step = 123; return;` `case 123:` `if (!valid(a)) return;`
print, print, `step = 128; return;` `case 128:` `if (!valid(b)) return;` print,
`status = TASK_FINISHED`.  A `step` matching no label leaves the `switch` at once.
Reading `file_wait_info` out of a union that holds `timer_info` is outside the
embedding (`none`). -/
def file_wait_task (env : Env) (task0 : Task) : Option (Task × List Line) :=
  match task0.private_data with
  | PrivateData.timer_info _ _ => none
  | PrivateData.file_wait_info file_path_a file_path_b =>
      let task := TASK_START task0
      if task.step = 0 then
        some ({ task with step := LINE_WAIT_A }, [Line.begin_wait_file file_path_a])
      else if task.step = LINE_WAIT_A then
        if is_file_valid env file_path_a = 0 then some (task, [])
        else some ({ task with step := LINE_WAIT_B },
                   [Line.hello_a, Line.begin_wait_file file_path_b])
      else if task.step = LINE_WAIT_B then
        if is_file_valid env file_path_b = 0 then some (task, [])
        else some (TASK_FINISH task, [Line.hello_b])
      else some (task, [])

/-- The function `timer_wait_task` of the source, after expansion:
`TASK_START`; `case 0:` `clock_gettime(.., &start_ts)`, print, `step = 147; return;`
`case 147:` `if (!(clock_gettime(.., &current_ts), elapsed_sec = .., elapsed_sec >= total_wait_sec)) return;`
print, `status = TASK_FINISHED`.  Reading `timer_info` out of a union that holds
`file_wait_info` is outside the embedding (`none`). -/
def timer_wait_task (env : Env) (task0 : Task) : Option (Task × List Line) :=
  match task0.private_data with
  | PrivateData.file_wait_info _ _ => none
  | PrivateData.timer_info total_wait_sec start_ts =>
      let task := TASK_START task0
      if task.step = 0 then
        some ({ task with
                  private_data := PrivateData.timer_info total_wait_sec env.now,
                  step := LINE_WAIT_TIMER },
              [Line.begin_wait_sec total_wait_sec])
      else if task.step = LINE_WAIT_TIMER then
        let current_ts := env.now
        let elapsed := elapsed_sec current_ts start_ts
        if ¬ (elapsed ≥ total_wait_sec) then some (task, [])
        else some (TASK_FINISH task, [Line.hello])
      else some (task, [])

/-- The function `task_append` of the source. -/
def task_append (task : Option Nat) (m : Mem) : Mem :=
  match task with
  | none => m
  | some a =>
      { task := Function.update m.task a
          { m.task a with status := TaskStatus.TASK_INIT, next := m.g_task_queue },
        g_task_queue := some a }

/-- The loop of `is_all_tasks_finished`, started with `current`. -/
def is_all_tasks_finished_loop (m : Mem) : Nat → Option Nat → Option (Int × Mem)
  | 0, _ => none
  | _ + 1, none => some (1, m)
  | fuel + 1, some a =>
      if (m.task a).status ≠ TaskStatus.TASK_FINISHED then some (0, m)
      else is_all_tasks_finished_loop m fuel (m.task a).next

/-- The function `is_all_tasks_finished` of the source; returns the `int` result and the
memory after the call. -/
def is_all_tasks_finished (fuel : Nat) (m : Mem) : Option (Int × Mem) :=
  is_all_tasks_finished_loop m fuel m.g_task_queue

/-- The call `current->execute(current)` through the function pointer. -/
def call_execute (env : Env) (task : Task) : Option (Task × List Line) :=
  match task.execute with
  | TaskFunc.file_wait_task => file_wait_task env task
  | TaskFunc.timer_wait_task => timer_wait_task env task

/-- Result of one scheduler pass: memory afterwards, lines printed, and the
addresses of the tasks whose step function was called, in call order
(the last component is bookkeeping of the embedding, not program state). -/
structure PassResult where
  mem : Mem
  out : List Line
  calls : List Nat

/-- The inner `while (current)` loop of `main`, started with `current`; `env k` is the
world during the `k`-th loop iteration from here. -/
def sched_pass_loop : Nat → (Nat → Env) → Mem → Option Nat → Option PassResult
  | 0, _, _, _ => none
  | _ + 1, _, m, none => some ⟨m, [], []⟩
  | fuel + 1, env, m, some a =>
      if (m.task a).status ≠ TaskStatus.TASK_FINISHED then
        match call_execute (env 0) (m.task a) with
        | none => none
        | some r =>
            let m1 : Mem := { m with task := Function.update m.task a r.1 }
            match sched_pass_loop fuel (fun k => env (k + 1)) m1 (m1.task a).next with
            | none => none
            | some res => some ⟨res.mem, r.2 ++ res.out, a :: res.calls⟩
      else
        sched_pass_loop fuel (fun k => env (k + 1)) m (m.task a).next

/-- One scheduler pass: `Task* current = g_task_queue; while (current) ...`. -/
def sched_pass (fuel : Nat) (env : Nat → Env) (m : Mem) : Option PassResult :=
  sched_pass_loop fuel env m m.g_task_queue

/-- The loop `while (!is_all_tasks_finished()) { <one pass>; usleep(100000); }` of `main`,
run for at most `n` iterations; `w p k` is the world during the `k`-th inner-loop
iteration of pass `p`.  The result is `(true, m, out)` when the loop was left within
these iterations, and `(false, m, out)` when `n` passes have been made and the loop has
not been left. -/
def main_loop (fuel : Nat) : Nat → (Nat → Nat → Env) → Mem → Option (Bool × Mem × List Line)
  | 0, _, m => some (false, m, [])
  | n + 1, w, m =>
      match is_all_tasks_finished fuel m with
      | none => none
      | some (r, m1) =>
          if r ≠ 0 then some (true, m1, [])
          else
            match sched_pass fuel (w 0) m1 with
            | none => none
            | some res =>
                match main_loop fuel n (fun p => w (p + 1)) res.mem with
                | none => none
                | some (b, m2, out) => some (b, m2, res.out ++ out)

/-- The chain of registered tasks of a memory. -/
def registry (m : Mem) (l : List Nat) : Prop :=
  chain (fun a => (m.task a).next) m.g_task_queue l

/-- The task's payload is the union member its step function reads. -/
def kind_ok (t : Task) : Prop :=
  match t.execute, t.private_data with
  | TaskFunc.file_wait_task, PrivateData.file_wait_info _ _ => True
  | TaskFunc.timer_wait_task, PrivateData.timer_info _ _ => True
  | _, _ => False

end ProtoImpl

/-! ## Running a step function over a sequence of worlds -/

/-- Invoke `f` once per world of the list, each time on the task object the previous
invocation left; the result lists, per invocation, the object afterwards and the
lines printed. -/
def run_steps {σ : Type} (f : Env → σ → σ × List Line) : List Env → σ → List (σ × List Line)
  | [], _ => []
  | e :: es, t => f e t :: run_steps f es (f e t).1

/-- The same for a step function that may be undefined; the run is undefined as soon as
one invocation is. -/
def run_steps_opt {σ : Type} (f : Env → σ → Option (σ × List Line)) :
    List Env → σ → Option (List (σ × List Line))
  | [], _ => some []
  | e :: es, t =>
      match f e t with
      | none => none
      | some r =>
          match run_steps_opt f es r.1 with
          | none => none
          | some tr => some (r :: tr)

/-- The task object after a run that started from `t`. -/
def last_state {σ : Type} : σ → List (σ × List Line) → σ
  | t, [] => t
  | _, r :: tr => last_state r.1 tr

/-- All lines printed during a run, in order. -/
def all_lines {σ : Type} (tr : List (σ × List Line)) : List Line :=
  (tr.map Prod.snd).flatten

/-! ## The scheduler's guard, registration sequences, status order -/

namespace SwitchImpl

/-- Body of the scheduler's inner loop for one task:
`if (iter->status != TASK_STATUS_DONE) { iter->func(iter); }`. -/
def sched_visit (f : Env → Task → Task × List Line) (env : Env) (task : Task) :
    Task × List Line :=
  if task.status ≠ TaskStatus.TASK_STATUS_DONE then f env task else (task, [])

/-- The calls `task_add(t1); task_add(t2); ...; task_add(tn);` for the addresses of `ts`. -/
def task_add_all (ts : List Nat) (m : Mem) : Mem :=
  ts.foldl (fun m a => task_add (some a) m) m

/-- Position of a status in the order Pending, Active, Complete. -/
def TaskStatus.rank : TaskStatus → Nat
  | TaskStatus.TASK_STATUS_INIT => 0
  | TaskStatus.TASK_STATUS_RUNNING => 1
  | TaskStatus.TASK_STATUS_DONE => 2

end SwitchImpl

namespace ProtoImpl

/-- Body of the scheduler's inner loop for one task:
`if (current->status != TASK_FINISHED) { current->execute(current); }`. -/
def sched_visit (f : Env → Task → Option (Task × List Line)) (env : Env) (task : Task) :
    Option (Task × List Line) :=
  if task.status ≠ TaskStatus.TASK_FINISHED then f env task else some (task, [])

/-- The calls `task_append(t1); task_append(t2); ...; task_append(tn);` for the addresses of `ts`. -/
def task_append_all (ts : List Nat) (m : Mem) : Mem :=
  ts.foldl (fun m a => task_append (some a) m) m

/-- Position of a status in the order Pending, Active, Complete. -/
def TaskStatus.rank : TaskStatus → Nat
  | TaskStatus.TASK_INIT => 0
  | TaskStatus.TASK_RUNNING => 1
  | TaskStatus.TASK_FINISHED => 2

end ProtoImpl

/-! ## Auxiliary functions for the proofs (not part of the programs) -/

namespace SwitchImpl

/-- The lines the file task has still to print from the state `t` on its way to
completion. -/
def lines_to_come (t : Task) : List Line :=
  match t.status with
  | TaskStatus.TASK_STATUS_INIT =>
      [Line.begin_wait_file t.data.file_wait.file1, Line.hello_a,
       Line.begin_wait_file t.data.file_wait.file2, Line.hello_b]
  | TaskStatus.TASK_STATUS_RUNNING =>
      if t.data.file_wait.step = 0 then
        [Line.hello_a, Line.begin_wait_file t.data.file_wait.file2, Line.hello_b]
      else [Line.hello_b]
  | TaskStatus.TASK_STATUS_DONE => []

/-- The lines printed when the tasks at the addresses `l` are visited one after the
other, each in the state it has in `m` (auxiliary; `env k` is the world of the `k`-th
visit). -/
def pass_lines (env : Nat → Env) (m : Mem) : List Nat → List Line
  | [] => []
  | a :: l =>
      (sched_visit call_func (env 0) (m.task a)).2 ++ pass_lines (fun k => env (k + 1)) m l

/-- Number of the stage a file task is at (auxiliary): 0 before the first invocation,
1 while waiting on file A, 2 while waiting on file B, 3 when Complete. -/
def file_stage (t : Task) : Nat :=
  match t.status with
  | TaskStatus.TASK_STATUS_INIT => 0
  | TaskStatus.TASK_STATUS_RUNNING => if t.data.file_wait.step = 0 then 1 else 2
  | TaskStatus.TASK_STATUS_DONE => 3

end SwitchImpl

namespace ProtoImpl

/-- The scheduler's visit of a file task as a total function: where `file_wait_task` is
undefined the task is left as it is.  On a file payload it agrees with
`sched_visit file_wait_task`. -/
def file_visit (env : Env) (t : Task) : Task × List Line :=
  (sched_visit file_wait_task env t).getD (t, [])

/-- The scheduler's visit of a timer task as a total function.  On a timer payload it
agrees with `sched_visit timer_wait_task`. -/
def timer_visit (env : Env) (t : Task) : Task × List Line :=
  (sched_visit timer_wait_task env t).getD (t, [])

/-- The lines a file task has still to print from the state `t` on its way to
completion. -/
def lines_to_come (t : Task) : List Line :=
  match t.private_data with
  | PrivateData.timer_info _ _ => []
  | PrivateData.file_wait_info a b =>
      match t.status with
      | TaskStatus.TASK_FINISHED => []
      | TaskStatus.TASK_INIT =>
          [Line.begin_wait_file a, Line.hello_a, Line.begin_wait_file b, Line.hello_b]
      | TaskStatus.TASK_RUNNING =>
          if t.step = 0 then
            [Line.begin_wait_file a, Line.hello_a, Line.begin_wait_file b, Line.hello_b]
          else if t.step = LINE_WAIT_A then
            [Line.hello_a, Line.begin_wait_file b, Line.hello_b]
          else [Line.hello_b]

/-- The lines printed when the tasks at the addresses `l` are visited one after the
other, each in the state it has in `m` (auxiliary; `env k` is the world of the `k`-th
visit; an undefined visit contributes no line). -/
def pass_lines (env : Nat → Env) (m : Mem) : List Nat → List Line
  | [] => []
  | a :: l =>
      ((sched_visit call_execute (env 0) (m.task a)).getD (m.task a, [])).2 ++
        pass_lines (fun k => env (k + 1)) m l

/-- Number of the stage a file task is at (auxiliary): 0 before the first waiting point
is reached, 1 while waiting on file A, 2 while waiting on file B, 3 when Complete. -/
def file_stage (t : Task) : Nat :=
  match t.status with
  | TaskStatus.TASK_INIT => 0
  | TaskStatus.TASK_RUNNING =>
      if t.step = 0 then 0 else if t.step = LINE_WAIT_A then 1 else 2
  | TaskStatus.TASK_FINISHED => 3

end ProtoImpl

/-- Correspondence between the states of the file task in the two programs (auxiliary):
same two paths, and the same point of progress. -/
def file_rel (t : SwitchImpl.Task) (u : ProtoImpl.Task) : Prop :=
  u.private_data =
    ProtoImpl.PrivateData.file_wait_info t.data.file_wait.file1 t.data.file_wait.file2 ∧
  ((t.status = SwitchImpl.TaskStatus.TASK_STATUS_INIT ∧
      u.status = ProtoImpl.TaskStatus.TASK_INIT) ∨
   (t.status = SwitchImpl.TaskStatus.TASK_STATUS_RUNNING ∧ t.data.file_wait.step = 0 ∧
      u.status = ProtoImpl.TaskStatus.TASK_RUNNING ∧ u.step = ProtoImpl.LINE_WAIT_A) ∨
   (t.status = SwitchImpl.TaskStatus.TASK_STATUS_RUNNING ∧ t.data.file_wait.step = 1 ∧
      u.status = ProtoImpl.TaskStatus.TASK_RUNNING ∧ u.step = ProtoImpl.LINE_WAIT_B) ∨
   (t.status = SwitchImpl.TaskStatus.TASK_STATUS_DONE ∧
      u.status = ProtoImpl.TaskStatus.TASK_FINISHED))

/-- Correspondence between the states of the timer task in the two programs (auxiliary):
same duration, and the same point of progress with the same recorded start. -/
def timer_rel (t : SwitchImpl.Task) (u : ProtoImpl.Task) : Prop :=
  ∃ s : Timespec,
    u.private_data = ProtoImpl.PrivateData.timer_info t.data.sleep_wait.wait_sec s ∧
    ((t.status = SwitchImpl.TaskStatus.TASK_STATUS_INIT ∧
        u.status = ProtoImpl.TaskStatus.TASK_INIT) ∨
     (t.status = SwitchImpl.TaskStatus.TASK_STATUS_RUNNING ∧
        u.status = ProtoImpl.TaskStatus.TASK_RUNNING ∧
        u.step = ProtoImpl.LINE_WAIT_TIMER ∧ s = t.data.sleep_wait.start) ∨
     (t.status = SwitchImpl.TaskStatus.TASK_STATUS_DONE ∧
        u.status = ProtoImpl.TaskStatus.TASK_FINISHED))

/-- The clock reading `ns` nanoseconds after the reading `t0`, as a normalised
`struct timespec` (`tv_nsec` below `10^9`). -/
def clock_after (t0 : Timespec) (ns : Nat) : Timespec :=
  { tv_sec := t0.tv_sec + (t0.tv_nsec + (ns : Int)) / 1000000000,
    tv_nsec := (t0.tv_nsec + (ns : Int)) % 1000000000 }

/-! ## Concrete inputs used in the examples below -/

/-- The `double` value `-1.0`. -/
def Double.minus_one : Double := ⟨true, 1023, 0⟩

/-- A world in which every file exists with one byte, at clock reading `sec`. -/
def env_ready (sec : Int) : Env :=
  { stat := fun _ => { ret := 0, st_size := 1 }, now := { tv_sec := sec, tv_nsec := 0 } }

/-- A world in which every `stat` call fails, at clock reading `sec`. -/
def env_absent (sec : Int) : Env :=
  { stat := fun _ => { ret := -1, st_size := 7 }, now := { tv_sec := sec, tv_nsec := 0 } }

/-- A world in which every file exists and is empty, at clock reading `sec`. -/
def env_empty (sec : Int) : Env :=
  { stat := fun _ => { ret := 0, st_size := 0 }, now := { tv_sec := sec, tv_nsec := 0 } }

/-- The idealised polling model with first reading `t0` and a tick of `T` nanoseconds:
invocation `k` reads the clock `k * T` nanoseconds after `t0` (and finds every file ready). -/
def tick_env (t0 : Timespec) (T : Nat) (k : Nat) : Env :=
  { stat := fun _ => { ret := 0, st_size := 1 }, now := clock_after t0 (k * T) }

namespace SwitchImpl

/-- The object `task1` of `main` after `memset` and the three assignments. -/
def task1_init : Task :=
  { status := TaskStatus.TASK_STATUS_INIT,
    data := { file_wait := { file1 := "/tmp/a.txt", file2 := "/tmp/b.txt", step := 0 },
              sleep_wait := { wait_sec := Double.zero, start := { tv_sec := 0, tv_nsec := 0 } } },
    func := TaskFunc.task1_func,
    next := none }

/-- The object `task2` of `main` after `memset` and its assignments, with wait duration
`d` (its two unused path pointers, `NULL` in the program, are empty strings here). -/
def task2_init (d : Double) : Task :=
  { status := TaskStatus.TASK_STATUS_INIT,
    data := { file_wait := { file1 := "", file2 := "", step := 0 },
              sleep_wait := { wait_sec := d, start := { tv_sec := 0, tv_nsec := 0 } } },
    func := TaskFunc.task2_func,
    next := none }

/-- The file task of `main` after its first invocation. -/
def task1_running : Task :=
  { task1_init with status := TaskStatus.TASK_STATUS_RUNNING }

/-- The file task of `main` once it has completed. -/
def task1_done : Task :=
  { task1_init with
    status := TaskStatus.TASK_STATUS_DONE,
    data := { task1_init.data with file_wait := { task1_init.data.file_wait with step := 1 } } }

/-- The timer task of `main` (duration `d`) after its first invocation at clock reading 0. -/
def task2_running (d : Double) : Task :=
  { task2_init d with status := TaskStatus.TASK_STATUS_RUNNING }

/-- A memory holding `task1_init` at address 1 and `task2_init Double.lit_2_0` everywhere else,
with an empty task list. -/
def mem_init : Mem :=
  { task := fun a => if a = 1 then task1_init else task2_init Double.lit_2_0, g_task_list := none }

/-- The memory after `task_add` on address 1 and then on address 2, as in `main`. -/
def mem_two : Mem := task_add (some 2) (task_add (some 1) mem_init)

/-- A memory in which the file task of `main`, at address 1, is the only registered task
and has been invoked once. -/
def mem_one_running : Mem :=
  { task := fun _ => task1_running, g_task_list := some 1 }

end SwitchImpl

namespace ProtoImpl

/-- The object `file_task` of `main` after `memset` and the three assignments. -/
def file_task_init : Task :=
  { status := TaskStatus.TASK_INIT,
    step := 0,
    execute := TaskFunc.file_wait_task,
    private_data := PrivateData.file_wait_info "/tmp/a.txt" "/tmp/b.txt",
    next := none }

/-- The object `timer_task` of `main` after `memset` and its assignments, with wait duration `d`. -/
def timer_task_init (d : Double) : Task :=
  { status := TaskStatus.TASK_INIT,
    step := 0,
    execute := TaskFunc.timer_wait_task,
    private_data := PrivateData.timer_info d { tv_sec := 0, tv_nsec := 0 },
    next := none }

/-- The file task of `main` after its first invocation. -/
def file_task_running : Task :=
  { file_task_init with status := TaskStatus.TASK_RUNNING, step := LINE_WAIT_A }

/-- The file task of `main` once it has completed: `step` still holds the last label. -/
def file_task_done : Task :=
  { file_task_init with status := TaskStatus.TASK_FINISHED, step := LINE_WAIT_B }

/-- The timer task of `main` (duration `d`) after its first invocation at clock reading 0. -/
def timer_task_running (d : Double) : Task :=
  { timer_task_init d with status := TaskStatus.TASK_RUNNING, step := LINE_WAIT_TIMER }

/-- The timer task of `main` (duration `d`, started at clock reading 0) once it has
completed: `step` still holds the label. -/
def timer_task_done (d : Double) : Task :=
  { timer_task_init d with status := TaskStatus.TASK_FINISHED, step := LINE_WAIT_TIMER }

/-- A memory holding `file_task_init` at address 1 and `timer_task_init Double.lit_2_0` everywhere
else, with an empty task queue. -/
def mem_init : Mem :=
  { task := fun a => if a = 1 then file_task_init else timer_task_init Double.lit_2_0, g_task_queue := none }

/-- The memory after `task_append` on address 1 and then on address 2, as in `main`. -/
def mem_two : Mem := task_append (some 2) (task_append (some 1) mem_init)

/-- A timer task object (duration 2, recorded start 0) whose status is Active while its
`step` is 0: a state that no task polled from registration has. -/
def timer_task_active_step0 : Task :=
  { timer_task_init Double.lit_2_0 with status := TaskStatus.TASK_RUNNING }

/-- A memory in which the file task of `main`, at address 1, is the only registered task
and has been invoked once. -/
def mem_one_running : Mem :=
  { task := fun _ => file_task_running, g_task_queue := some 1 }

end ProtoImpl

/-! # Theorems -/

/-! ## Binary64 arithmetic: rounding error of the operations -/

namespace Double

theorem bit_length_aux_zero (fuel : Nat) : bit_length_aux fuel 0 = 0 := by
  cases fuel <;> simp [bit_length_aux]

theorem bit_length_aux_spec : ∀ (fuel n : Nat), n < 2 ^ fuel →
    n < 2 ^ bit_length_aux fuel n ∧ (n ≠ 0 → 2 ^ (bit_length_aux fuel n - 1) ≤ n) := by
  intro fuel
  induction fuel with
  | zero =>
      intro n hn
      simp at hn
      subst hn
      simp [bit_length_aux]
  | succ f ih =>
      intro n hn
      by_cases h0 : n = 0
      · subst h0
        simp [bit_length_aux]
      · have hlt : n / 2 < 2 ^ f := by
          rw [pow_succ] at hn
          omega
        obtain ⟨h1, h2⟩ := ih (n / 2) hlt
        simp only [bit_length_aux, h0, if_false, Nat.add_sub_cancel]
        refine ⟨?_, fun _ => ?_⟩
        · rw [pow_succ]
          omega
        · by_cases h3 : n / 2 = 0
          · rw [h3, bit_length_aux_zero]
            simp
            omega
          · have h4 := h2 h3
            have h5 : bit_length_aux f (n / 2) ≠ 0 := by
              intro h6
              rw [h6] at h1
              simp at h1
              exact h3 h1
            have h7 : 2 ^ bit_length_aux f (n / 2) = 2 ^ (bit_length_aux f (n / 2) - 1) * 2 := by
              rw [← pow_succ]
              congr 1
              omega
            rw [h7]
            omega

theorem bit_length_lt (n : Nat) : n < 2 ^ bit_length n :=
  (bit_length_aux_spec n n (Nat.lt_two_pow n)).1

theorem bit_length_le (n : Nat) (h : n ≠ 0) : 2 ^ (bit_length n - 1) ≤ n :=
  (bit_length_aux_spec n n (Nat.lt_two_pow n)).2 h

theorem bit_length_le_of_lt (n k : Nat) (h : n < 2 ^ k) : bit_length n ≤ k := by
  by_cases h0 : n = 0
  · subst h0
    simp [bit_length, bit_length_aux_zero]
  · have h1 := bit_length_le n h0
    by_contra hc
    have h2 : k ≤ bit_length n - 1 := by omega
    have h3 : 2 ^ k ≤ 2 ^ (bit_length n - 1) := Nat.pow_le_pow_right (by norm_num) h2
    omega

theorem round_half_even_spec (n d : Nat) (hd : 0 < d) :
    2 * (round_half_even n d * d) ≤ 2 * n + d ∧ 2 * n ≤ 2 * (round_half_even n d * d) + d := by
  have h1 := Nat.div_add_mod n d
  have h2 := Nat.mod_lt n hd
  unfold round_half_even
  simp only
  split_ifs <;> simp only [Nat.add_mul, Nat.one_mul, Nat.mul_comm (n / d) d] <;> omega

theorem round_half_even_of_dvd (n d : Nat) (hd : 0 < d) (h : d ∣ n) :
    round_half_even n d = n / d := by
  have h1 : n % d = 0 := Nat.mod_eq_zero_of_dvd h
  unfold round_half_even
  simp [h1, hd]

theorem of_mag_spec (neg : Bool) (r : Nat)
    (hrep : r < 2 ^ 52 ∨ 2 ^ (bit_length r - 53) ∣ r) (hfin : r < 2 ^ 2098) :
    (of_mag neg r).mag = r ∧ (of_mag neg r).sign = neg ∧
    (of_mag neg r).is_nan = false ∧ (of_mag neg r).is_inf = false := by
  have hb1 := bit_length_lt r
  have hb2 := bit_length_le_of_lt r 2098 hfin
  have hb0 : r ≠ 0 → 2 ^ (bit_length r - 1) ≤ r := bit_length_le r
  have hbz : r = 0 → bit_length r = 0 := by
    intro h
    subst h
    simp [bit_length, bit_length_aux_zero]
  unfold of_mag
  simp only
  generalize bit_length r = b at *
  by_cases hb : b ≤ 52
  · have h52 : r < 2 ^ 52 :=
      lt_of_lt_of_le hb1 (Nat.pow_le_pow_right (by norm_num) hb)
    have hmod : r % 4503599627370496 = r := Nat.mod_eq_of_lt (by norm_num at h52 ⊢; exact h52)
    simp [hb, mag, is_nan, is_inf, hmod, frac_field]
  · have hr0 : r ≠ 0 := by
      intro h
      have := hbz h
      omega
    have hb3 := hb0 hr0
    have hge : 2 ^ 52 ≤ r :=
      le_trans (Nat.pow_le_pow_right (by norm_num) (by omega)) hb3
    have hdvd : 2 ^ (b - 53) ∣ r := by
      rcases hrep with h | h
      · omega
      · exact h
    have hnot : ¬ (2047 ≤ b - 52) := by omega
    have hexp : (b - 52) % 2048 = b - 52 := Nat.mod_eq_of_lt (by omega)
    obtain ⟨q, hq⟩ := hdvd
    have hpos : 0 < 2 ^ (b - 53) := Nat.pow_pos (by norm_num)
    have hshift : r >>> (b - 53) = q := by
      rw [Nat.shiftRight_eq_div_pow, hq, Nat.mul_div_cancel_left _ hpos]
    have hsplit : 2 ^ (b - 1) = 2 ^ (b - 53) * 2 ^ 52 := by
      rw [← pow_add]
      congr 1
      omega
    have hsplit2 : 2 ^ b = 2 ^ (b - 53) * 2 ^ 53 := by
      rw [← pow_add]
      congr 1
      omega
    have hq1 : 2 ^ 52 ≤ q := by
      rw [hsplit, hq] at hb3
      exact Nat.le_of_mul_le_mul_left hb3 hpos
    have hq2 : q < 2 ^ 53 := by
      rw [hsplit2, hq] at hb1
      exact Nat.lt_of_mul_lt_mul_left hb1
    have hq1n : 4503599627370496 ≤ q := by
      have : (2 : Nat) ^ 52 = 4503599627370496 := by norm_num
      omega
    have hq2n : q < 9007199254740992 := by
      have : (2 : Nat) ^ 53 = 9007199254740992 := by norm_num
      omega
    have hfrac : q % 4503599627370496 = q - 4503599627370496 := by
      omega
    have hne : b - 52 ≠ 0 := by omega
    have hmag : (4503599627370496 + (q - 4503599627370496)) <<< (b - 52 - 1) = r := by
      rw [Nat.shiftLeft_eq]
      have h1 : 4503599627370496 + (q - 4503599627370496) = q := by
        omega
      have h2 : b - 52 - 1 = b - 53 := by omega
      rw [h1, h2, hq, Nat.mul_comm]
    simp only [hb, hnot, if_false, mag, is_nan, is_inf, expo_field, frac_field, hexp, hshift, hfrac, hne]
    have h2047 : b - 52 ≠ 2047 := by omega
    refine ⟨hmag, ?_, ?_⟩ <;> simp [h2047]


theorem mul_pow_lt (m j a b c : Nat) (hm : m ≤ 2 ^ a) (hj : j ≤ b) (hc : a + b < c) :
    m * 2 ^ j < 2 ^ c := by
  have h1 : m * 2 ^ j ≤ 2 ^ a * 2 ^ b :=
    Nat.mul_le_mul hm (Nat.pow_le_pow_right (by norm_num) hj)
  have h2 : 2 ^ a * 2 ^ b < 2 ^ c := by
    rw [← pow_add]
    exact Nat.pow_lt_pow_right (by norm_num) hc
  exact lt_of_le_of_lt h1 h2

theorem rep_of_mul (m j : Nat) (hm : m ≤ 2 ^ 53) :
    m * 2 ^ j < 2 ^ 52 ∨ 2 ^ (bit_length (m * 2 ^ j) - 53) ∣ m * 2 ^ j := by
  right
  by_cases h : m = 2 ^ 53
  · subst h
    have h1 : (2 : Nat) ^ 53 * 2 ^ j = 2 ^ (53 + j) := by rw [pow_add]
    rw [h1]
    have h2 : bit_length (2 ^ (53 + j)) ≤ 54 + j :=
      bit_length_le_of_lt _ _ (Nat.pow_lt_pow_right (by norm_num) (by omega))
    exact pow_dvd_pow 2 (by omega)
  · have hlt : m < 2 ^ 53 := lt_of_le_of_ne hm h
    have h1 : m * 2 ^ j < 2 ^ (53 + j) := by
      rw [pow_add]
      exact Nat.mul_lt_mul_of_pos_right hlt (Nat.pow_pos (by norm_num))
    have h2 : bit_length (m * 2 ^ j) ≤ 53 + j := bit_length_le_of_lt _ _ h1
    exact Dvd.dvd.mul_left (pow_dvd_pow 2 (by omega)) m

theorem round_ratio_spec (neg : Bool) (n d : Nat) (hd : 0 < d) (hfin : n < d * 2 ^ 2097) :
    (round_ratio neg n d).sign = neg ∧
    (round_ratio neg n d).is_nan = false ∧
    (round_ratio neg n d).is_inf = false ∧
    (n < d * 2 ^ 53 →
      2 * ((round_ratio neg n d).mag * d) ≤ 2 * n + d ∧
      2 * n ≤ 2 * ((round_ratio neg n d).mag * d) + d) ∧
    (d * 2 ^ 52 ≤ n →
      2 ^ 53 * ((round_ratio neg n d).mag * d) ≤ 2 ^ 53 * n + n ∧
      2 ^ 53 * n ≤ 2 ^ 53 * ((round_ratio neg n d).mag * d) + n) := by
  have hb1 : n / d < 2 ^ bit_length (n / d) := bit_length_lt _
  have hb2 : n / d ≠ 0 → 2 ^ (bit_length (n / d) - 1) ≤ n / d := bit_length_le _
  have hb3 : bit_length (n / d) ≤ 2097 :=
    bit_length_le_of_lt _ _ ((Nat.div_lt_iff_lt_mul hd).2 (by rw [Nat.mul_comm]; exact hfin))
  have hb4 : n < d * 2 ^ 53 → bit_length (n / d) ≤ 53 := fun h =>
    bit_length_le_of_lt _ _ ((Nat.div_lt_iff_lt_mul hd).2 (by rw [Nat.mul_comm]; exact h))
  unfold round_ratio
  simp only [Nat.shiftLeft_eq]
  generalize bit_length (n / d) = b at *
  have hD : 0 < d * 2 ^ (b - 53) := Nat.mul_pos hd (Nat.pow_pos (by norm_num))
  obtain ⟨hr1, hr2⟩ := round_half_even_spec n (d * 2 ^ (b - 53)) hD
  generalize round_half_even n (d * 2 ^ (b - 53)) = m at *
  have hn1 : n < d * 2 ^ (b - 53) * 2 ^ 53 := by
    have h1 : n < 2 ^ b * d := (Nat.div_lt_iff_lt_mul hd).1 hb1
    have h2 : 2 ^ b ≤ 2 ^ (b - 53) * 2 ^ 53 := by
      rw [← pow_add]
      exact Nat.pow_le_pow_right (by norm_num) (by omega)
    calc n < 2 ^ b * d := h1
      _ ≤ 2 ^ (b - 53) * 2 ^ 53 * d := Nat.mul_le_mul_right d h2
      _ = d * 2 ^ (b - 53) * 2 ^ 53 := by ring
  have hm : m ≤ 2 ^ 53 := by
    by_contra hc
    have h1 : 2 ^ 53 + 1 ≤ m := by omega
    have h2 : (2 ^ 53 + 1) * (d * 2 ^ (b - 53)) ≤ m * (d * 2 ^ (b - 53)) :=
      Nat.mul_le_mul_right _ h1
    rw [Nat.add_mul, Nat.one_mul, Nat.mul_comm (2 ^ 53)] at h2
    omega
  have hj : b - 53 ≤ 2044 := by omega
  have hfinR : m * 2 ^ (b - 53) < 2 ^ 2098 :=
    mul_pow_lt m (b - 53) 53 2044 2098 hm hj (by norm_num)
  obtain ⟨hmag, hsign, hnan, hinf⟩ :=
    of_mag_spec neg (m * 2 ^ (b - 53)) (rep_of_mul m (b - 53) hm) hfinR
  have hmd : m * 2 ^ (b - 53) * d = m * (d * 2 ^ (b - 53)) := by ring
  refine ⟨hsign, hnan, hinf, ?_, ?_⟩
  · intro h
    have hb53 : b - 53 = 0 := by
      have := hb4 h
      omega
    rw [hmag, hmd]
    rw [hb53] at hr1 hr2 ⊢
    simp only [pow_zero, Nat.mul_one] at hr1 hr2 ⊢
    exact ⟨hr1, hr2⟩
  · intro h
    rw [hmag, hmd]
    have hD52 : d * 2 ^ (b - 53) * 2 ^ 52 ≤ n := by
      by_cases hb53 : b - 53 = 0
      · rw [hb53]
        simpa using h
      · have hnd : n / d ≠ 0 := by
          intro h0
          have h1 : d * 2 ^ 52 ≤ n := h
          have h2 : n < d := by
            by_contra hc
            have := Nat.div_pos (not_lt.1 hc) hd
            omega
          have h3 : d * 1 ≤ d * 2 ^ 52 := Nat.mul_le_mul_left d (Nat.one_le_two_pow)
          omega
        have h1 := hb2 hnd
        have h2 : 2 ^ (b - 1) * d ≤ n := (Nat.le_div_iff_mul_le hd).1 h1
        have h3 : 2 ^ (b - 1) = 2 ^ (b - 53) * 2 ^ 52 := by
          rw [← pow_add]
          congr 1
          omega
        rw [h3] at h2
        calc d * 2 ^ (b - 53) * 2 ^ 52 = 2 ^ (b - 53) * 2 ^ 52 * d := by ring
          _ ≤ n := h2
    generalize m * (d * 2 ^ (b - 53)) = p at *
    generalize d * 2 ^ (b - 53) = D at *
    norm_num at hD52 ⊢
    omega


theorem shl_eq (a s : Nat) : a <<< s = a * 2 ^ s := Nat.shiftLeft_eq a s

theorem round_ratio_exact (neg : Bool) (r : Nat)
    (hrep : r < 2 ^ 52 ∨ 2 ^ (bit_length r - 53) ∣ r) (hfin : r < 2 ^ 2098) :
    (round_ratio neg r 1).mag = r ∧ (round_ratio neg r 1).sign = neg ∧
    (round_ratio neg r 1).is_nan = false ∧ (round_ratio neg r 1).is_inf = false := by
  have hdvd : 2 ^ (bit_length r - 53) ∣ r := by
    rcases hrep with h | h
    · have h1 : bit_length r ≤ 52 := bit_length_le_of_lt _ _ h
      have h2 : bit_length r - 53 = 0 := by omega
      rw [h2]
      simp
    · exact h
  have hpos : 0 < 2 ^ (bit_length r - 53) := Nat.pow_pos (by norm_num)
  have h1 : round_ratio neg r 1 = of_mag neg r := by
    unfold round_ratio
    simp only [Nat.div_one, Nat.shiftLeft_eq, Nat.one_mul]
    rw [round_half_even_of_dvd _ _ hpos hdvd, Nat.div_mul_cancel hdvd]
  rw [h1]
  exact of_mag_spec neg r hrep hfin

theorem scaled_eq (x : Double) :
    x.scaled = if x.sign then -(x.mag : Int) else (x.mag : Int) := rfl

theorem of_long_spec (x : Int) (hx : x.natAbs ≤ 2 ^ 53) :
    (of_long x).scaled = x * 2 ^ 1074 ∧
    (of_long x).is_nan = false ∧ (of_long x).is_inf = false ∧
    (of_long x).mag = x.natAbs * 2 ^ 1074 ∧ (of_long x).sign = decide (x < 0) := by
  have hrep := rep_of_mul x.natAbs 1074 hx
  have hfin : x.natAbs * 2 ^ 1074 < 2 ^ 2098 :=
    mul_pow_lt x.natAbs 1074 53 1074 2098 hx (le_refl _) (by norm_num)
  obtain ⟨hmag, hsign, hnan, hinf⟩ := round_ratio_exact (decide (x < 0)) _ hrep hfin
  have he : of_long x = round_ratio (decide (x < 0)) (x.natAbs * 2 ^ 1074) 1 :=
    congrArg (fun n => round_ratio (decide (x < 0)) n 1) (shl_eq x.natAbs 1074)
  rw [he, scaled_eq, hmag, hsign, hnan, hinf]
  refine ⟨?_, rfl, rfl, rfl, rfl⟩
  rw [Nat.cast_mul, Nat.cast_pow, Int.natCast_natAbs, Nat.cast_ofNat]
  generalize (2 : Int) ^ 1074 = P
  by_cases h : x < 0
  · simp only [h, decide_True, if_true]
    rw [abs_of_neg h]
    ring
  · simp only [h, decide_False]
    rw [abs_of_nonneg (not_lt.1 h)]
    simp


theorem add_def (a b : Double) : a + b = Double.add a b := rfl

theorem div_def (a b : Double) : a / b = Double.div a b := rfl

theorem mag_eq_natAbs (x : Double) : x.mag = x.scaled.natAbs := by
  rw [scaled_eq]
  split_ifs <;> simp

theorem zero_spec (neg : Bool) :
    (⟨neg, 0, 0⟩ : Double).scaled = 0 ∧ (⟨neg, 0, 0⟩ : Double).is_nan = false ∧
    (⟨neg, 0, 0⟩ : Double).is_inf = false := by
  cases neg <;> simp [scaled, mag, is_nan, is_inf]

theorem add_spec (a b : Double) (ha : a.is_nan = false ∧ a.is_inf = false)
    (hb : b.is_nan = false ∧ b.is_inf = false)
    (hs : (a.scaled + b.scaled).natAbs < 2 ^ 2097) :
    (a + b).is_nan = false ∧ (a + b).is_inf = false ∧
    2 ^ 53 * (a + b).scaled ≤ 2 ^ 53 * (a.scaled + b.scaled) + (a.scaled + b.scaled).natAbs ∧
    2 ^ 53 * (a.scaled + b.scaled) ≤ 2 ^ 53 * (a + b).scaled + (a.scaled + b.scaled).natAbs := by
  rw [add_def]
  unfold Double.add
  simp only [ha.1, ha.2, hb.1, hb.2, Bool.or_self, Bool.false_eq_true, if_false]
  generalize a.scaled + b.scaled = s at *
  by_cases h0 : s = 0
  · subst h0
    obtain ⟨h1, h2, h3⟩ := zero_spec (a.sign && b.sign)
    simp only [if_true, h1, h2, h3]
    simp
  · simp only [h0, if_false]
    obtain ⟨hsign, hnan, hinf, hsmall, hbig⟩ :=
      round_ratio_spec (decide (s < 0)) s.natAbs 1 (by norm_num)
        (by rw [Nat.one_mul]; exact hs)
    refine ⟨hnan, hinf, ?_⟩
    have hbound : 2 ^ 53 * (round_ratio (decide (s < 0)) s.natAbs 1).mag ≤
          2 ^ 53 * s.natAbs + s.natAbs ∧
        2 ^ 53 * s.natAbs ≤
          2 ^ 53 * (round_ratio (decide (s < 0)) s.natAbs 1).mag + s.natAbs := by
      by_cases hc : s.natAbs < 1 * 2 ^ 53
      · have h := hsmall hc
        simp only [Nat.mul_one] at h
        have heq : (round_ratio (decide (s < 0)) s.natAbs 1).mag = s.natAbs := by omega
        rw [heq]
        omega
      · have hge : 1 * 2 ^ 52 ≤ s.natAbs := by
          norm_num at hc ⊢
          omega
        have h := hbig hge
        simp only [Nat.mul_one] at h
        exact h
    rw [scaled_eq, hsign]
    generalize (round_ratio (decide (s < 0)) s.natAbs 1).mag = m at *
    have e1 : (2 : Nat) ^ 53 = 9007199254740992 := by norm_num
    have e2 : (2 : Int) ^ 53 = 9007199254740992 := by norm_num
    rw [e1] at hbound
    rw [e2]
    by_cases hneg : s < 0
    · simp only [hneg, decide_True, if_true]
      omega
    · simp only [hneg, decide_False, Bool.false_eq_true, if_false]
      omega


theorem div_spec (a b : Double) (ha : a.is_nan = false ∧ a.is_inf = false)
    (hb : b.is_nan = false ∧ b.is_inf = false) (hb0 : b.mag ≠ 0)
    (hnorm : a.mag = 0 ∨ b.mag * 2 ^ 52 ≤ a.mag * 2 ^ 1074)
    (hfin : a.mag * 2 ^ 1074 < b.mag * 2 ^ 2097) :
    (a / b).sign = (a.sign != b.sign) ∧ (a / b).is_nan = false ∧ (a / b).is_inf = false ∧
    2 ^ 53 * ((a / b).mag * b.mag) ≤ 2 ^ 53 * (a.mag * 2 ^ 1074) + a.mag * 2 ^ 1074 ∧
    2 ^ 53 * (a.mag * 2 ^ 1074) ≤ 2 ^ 53 * ((a / b).mag * b.mag) + a.mag * 2 ^ 1074 := by
  have he : a / b = round_ratio (a.sign != b.sign) (a.mag * 2 ^ 1074) b.mag := by
    rw [div_def]
    unfold Double.div
    simp only [ha.1, ha.2, hb.1, hb.2, Bool.or_self, Bool.false_eq_true, if_false, hb0]
    exact congrArg (fun n => round_ratio (a.sign != b.sign) n b.mag) (shl_eq a.mag 1074)
  have hd : 0 < b.mag := Nat.pos_of_ne_zero hb0
  obtain ⟨hsign, hnan, hinf, hsmall, hbig⟩ :=
    round_ratio_spec (a.sign != b.sign) (a.mag * 2 ^ 1074) b.mag hd hfin
  rw [he]
  refine ⟨hsign, hnan, hinf, ?_⟩
  rcases hnorm with h0 | hn
  · have hz : a.mag * 2 ^ 1074 = 0 := by rw [h0, Nat.zero_mul]
    rw [hz] at hsmall ⊢
    have h1 := (hsmall (Nat.mul_pos hd (Nat.pow_pos (by norm_num)))).1
    have h2 : (round_ratio (a.sign != b.sign) 0 b.mag).mag = 0 := by
      by_contra hc
      have h3 : 1 ≤ (round_ratio (a.sign != b.sign) 0 b.mag).mag := Nat.one_le_iff_ne_zero.2 hc
      have h4 : 1 * b.mag ≤ (round_ratio (a.sign != b.sign) 0 b.mag).mag * b.mag :=
        Nat.mul_le_mul_right _ h3
      omega
    rw [h2]
    simp
  · exact hbig hn


set_option maxRecDepth 100000 in
theorem lit_1e9_eq : lit_1e9 = of_long 1000000000 := by decide

theorem lit_1e9_spec :
    lit_1e9.mag = 1000000000 * 2 ^ 1074 ∧ lit_1e9.sign = false ∧
    lit_1e9.is_nan = false ∧ lit_1e9.is_inf = false := by
  obtain ⟨-, h2, h3, h4, h5⟩ := of_long_spec 1000000000 (by norm_num)
  have h6 : (1000000000 : Int).natAbs = 1000000000 := by decide
  have h7 : decide ((1000000000 : Int) < 0) = false := by decide
  rw [h6] at h4
  rw [h7] at h5
  rw [lit_1e9_eq, h4, h5, h2, h3]
  exact ⟨rfl, rfl, rfl, rfl⟩

theorem two_pow_mul_le (a b c : Nat) (h : a + b ≤ c) : 2 ^ a * 2 ^ b ≤ 2 ^ c := by
  rw [← pow_add]
  exact Nat.pow_le_pow_right (by norm_num) h


theorem to_rat_eq (x : Double) :
    x.to_rat = (if x.sign then -(x.mag : ℚ) else (x.mag : ℚ)) / 2 ^ 1074 := by
  unfold to_rat
  rw [scaled_eq]
  split_ifs <;> push_cast <;> rfl

theorem ratio_bound (qm k p : ℚ) (hp : 0 < p)
    (hu : 9007199254740992 * (qm * 1000000000) ≤ 9007199254740992 * (k * p) + k * p)
    (hl : 9007199254740992 * (k * p) ≤ 9007199254740992 * (qm * 1000000000) + k * p) :
    |qm / p - k / 1000000000| ≤ k / 1000000000 / 9007199254740992 := by
  have h1 : qm / p - k / 1000000000 = (qm * 1000000000 - p * k) / (p * 1000000000) :=
    div_sub_div _ _ (ne_of_gt hp) (by norm_num)
  have h2 : k / 1000000000 / 9007199254740992 =
      (k * p) / (p * 1000000000 * 9007199254740992) := by
    field_simp
    ring
  have h3 : (qm * 1000000000 - p * k) / (p * 1000000000) =
      ((qm * 1000000000 - p * k) * 9007199254740992) / (p * 1000000000 * 9007199254740992) := by
    field_simp
    ring
  have hden : (0 : ℚ) < p * 1000000000 * 9007199254740992 := by positivity
  rw [h1, h2, h3, abs_le, ← neg_div, div_le_div_iff_of_pos_right hden,
    div_le_div_iff_of_pos_right hden]
  constructor <;> linarith

theorem div_1e9_spec (r : Int) (hr : r.natAbs < 1000000000) :
    (of_long r / lit_1e9).is_nan = false ∧ (of_long r / lit_1e9).is_inf = false ∧
    (of_long r / lit_1e9).mag ≤ 2 ^ 1074 ∧
    |(of_long r / lit_1e9).to_rat - (r : ℚ) / 1000000000| ≤
      |(r : ℚ)| / 1000000000 / 2 ^ 53 := by
  have hk30 : r.natAbs ≤ 2 ^ 30 := by
    have : (2 : Nat) ^ 30 = 1073741824 := by norm_num
    omega
  have hk53 : r.natAbs ≤ 2 ^ 53 := by
    have : (2 : Nat) ^ 53 = 9007199254740992 := by norm_num
    omega
  obtain ⟨-, hAnan, hAinf, hAmag, hAsign⟩ := of_long_spec r hk53
  obtain ⟨hBmag, hBsign, hBnan, hBinf⟩ := lit_1e9_spec
  have hp52 : 1000000000 * 2 ^ 52 ≤ 2 ^ 1074 :=
    le_trans (Nat.mul_le_mul_right _ (by norm_num : 1000000000 ≤ 2 ^ 30))
      (two_pow_mul_le 30 52 1074 (by norm_num))
  have hkp : r.natAbs * 2 ^ 1074 < 2 ^ 2097 :=
    mul_pow_lt r.natAbs 1074 30 1074 2097 hk30 (le_refl _) (by norm_num)
  have hq := to_rat_eq (of_long r / lit_1e9)
  have hd := div_spec (of_long r) lit_1e9 ⟨hAnan, hAinf⟩ ⟨hBnan, hBinf⟩
  rw [hAmag, hBmag, hAsign, hBsign] at hd
  rw [show (2 : ℚ) ^ 1074 = ((2 ^ 1074 : Nat) : ℚ) from by rw [Nat.cast_pow, Nat.cast_ofNat]] at hq
  have hrk : ((r.natAbs : Nat) : ℚ) = |(r : ℚ)| := by
    rw [Nat.cast_natAbs, Int.cast_abs]
  have hrneg : r < 0 → (r : ℚ) < 0 := fun h => by exact_mod_cast h
  have hrpos : ¬ r < 0 → (0 : ℚ) ≤ (r : ℚ) := fun h => by exact_mod_cast (not_lt.1 h)
  have hr0 : r.natAbs = 0 → r = 0 := by omega
  generalize (2 : Nat) ^ 2097 = M at *
  generalize (2 : Nat) ^ 1074 = p at *
  generalize r.natAbs = k at *
  have hppos : 0 < p := by
    have : 0 < 1000000000 * 2 ^ 52 := by norm_num
    omega
  have h1 : 1000000000 * p ≠ 0 := by omega
  have h2 : k * p = 0 ∨ 1000000000 * p * 2 ^ 52 ≤ k * p * p := by
    by_cases hk0 : k = 0
    · left
      rw [hk0, Nat.zero_mul]
    · right
      have hk1 : 1 ≤ k := Nat.one_le_iff_ne_zero.2 hk0
      calc 1000000000 * p * 2 ^ 52 = 1000000000 * 2 ^ 52 * p := by ring
        _ ≤ p * p := Nat.mul_le_mul_right p hp52
        _ = 1 * p * p := by ring
        _ ≤ k * p * p := Nat.mul_le_mul_right p (Nat.mul_le_mul_right p hk1)
  have h3 : k * p * p < 1000000000 * p * M := by
    calc k * p * p < M * p := Nat.mul_lt_mul_of_pos_right hkp hppos
      _ = 1 * (p * M) := by ring
      _ ≤ 1000000000 * (p * M) := Nat.mul_le_mul_right _ (by norm_num)
      _ = 1000000000 * p * M := by ring
  obtain ⟨hsign, hnan, hinf, hu, hl⟩ := hd h1 h2 h3
  generalize (of_long r / lit_1e9).mag = qm at *
  have e53 : (2 : Nat) ^ 53 = 9007199254740992 := by norm_num
  rw [e53] at hu hl
  have hu1 : (9007199254740992 * (qm * 1000000000)) * p ≤
      (9007199254740992 * (k * p) + k * p) * p := by
    calc (9007199254740992 * (qm * 1000000000)) * p
        = 9007199254740992 * (qm * (1000000000 * p)) := by ring
      _ ≤ 9007199254740992 * (k * p * p) + k * p * p := hu
      _ = (9007199254740992 * (k * p) + k * p) * p := by ring
  have hl1 : (9007199254740992 * (k * p)) * p ≤
      (9007199254740992 * (qm * 1000000000) + k * p) * p := by
    calc (9007199254740992 * (k * p)) * p
        = 9007199254740992 * (k * p * p) := by ring
      _ ≤ 9007199254740992 * (qm * (1000000000 * p)) + k * p * p := hl
      _ = (9007199254740992 * (qm * 1000000000) + k * p) * p := by ring
  have hu2 := Nat.le_of_mul_le_mul_right hu1 hppos
  have hl2 := Nat.le_of_mul_le_mul_right hl1 hppos
  have hkp2 : k * p ≤ 999999999 * p := Nat.mul_le_mul_right p (by omega)
  have hmagle : qm ≤ p := by
    generalize k * p = kp at *
    omega
  have hpq : (0 : ℚ) < (p : ℚ) := by exact_mod_cast hppos
  have huq : (9007199254740992 : ℚ) * ((qm : ℚ) * 1000000000) ≤
      9007199254740992 * ((k : ℚ) * p) + (k : ℚ) * p := by exact_mod_cast hu2
  have hlq : (9007199254740992 : ℚ) * ((k : ℚ) * p) ≤
      9007199254740992 * ((qm : ℚ) * 1000000000) + (k : ℚ) * p := by exact_mod_cast hl2
  have e53q : (2 : ℚ) ^ 53 = 9007199254740992 := by norm_num
  refine ⟨hnan, hinf, hmagle, ?_⟩
  rw [hq, hsign, ← hrk, e53q]
  have hX := ratio_bound (qm : ℚ) (k : ℚ) (p : ℚ) hpq huq hlq
  rw [abs_le] at hX
  obtain ⟨hX2, hX1⟩ := hX
  by_cases hneg : r < 0
  · have hrq : (r : ℚ) = -(k : ℚ) := by
      rw [hrk, abs_of_neg (hrneg hneg)]
      ring
    simp only [hneg, decide_True, bne_self_eq_false, Bool.true_bne, Bool.not_false, if_true]
    rw [hrq, abs_le]
    constructor <;> linarith [neg_div (p : ℚ) (qm : ℚ), neg_div (1000000000 : ℚ) (k : ℚ)]
  · have hrq : (r : ℚ) = (k : ℚ) := by
      rw [hrk, abs_of_nonneg (hrpos hneg)]
    simp only [hneg, decide_False, bne_self_eq_false, Bool.false_eq_true, if_false]
    rw [hrq, abs_le]
    constructor <;> linarith

end Double

theorem wrap_long_of_small (x : Int) (h : x.natAbs ≤ 2 ^ 53) : wrap_long x = x := by
  have e : (2 : Nat) ^ 53 = 9007199254740992 := by norm_num
  rw [e] at h
  unfold wrap_long
  omega

namespace Double

theorem add_spec_rat (a b : Double) (ha : a.is_nan = false ∧ a.is_inf = false)
    (hb : b.is_nan = false ∧ b.is_inf = false)
    (hs : (a.scaled + b.scaled).natAbs < 2 ^ 2097) :
    (a + b).is_nan = false ∧ (a + b).is_inf = false ∧
    |(a + b).to_rat - (a.to_rat + b.to_rat)| ≤ |a.to_rat + b.to_rat| / 2 ^ 53 := by
  obtain ⟨hnan, hinf, hu, hl⟩ := add_spec a b ha hb hs
  refine ⟨hnan, hinf, ?_⟩
  unfold to_rat
  have hpos : (0 : ℚ) < 2 ^ 1074 := by positivity
  generalize (2 : ℚ) ^ 1074 = P at *
  generalize (a + b).scaled = e at *
  generalize a.scaled = x at *
  generalize b.scaled = y at *
  have e53 : (2 : Int) ^ 53 = 9007199254740992 := by norm_num
  have e53q : (2 : ℚ) ^ 53 = 9007199254740992 := by norm_num
  rw [e53] at hu hl
  rw [e53q]
  have hcast : (((x + y).natAbs : Int) : ℚ) = |((x : ℚ) + (y : ℚ))| := by
    rw [Int.natCast_natAbs]
    push_cast
    rfl
  have huq : (9007199254740992 : ℚ) * (e : ℚ) ≤
      9007199254740992 * ((x : ℚ) + (y : ℚ)) + |((x : ℚ) + (y : ℚ))| := by
    rw [← hcast]
    exact_mod_cast hu
  have hlq : (9007199254740992 : ℚ) * ((x : ℚ) + (y : ℚ)) ≤
      9007199254740992 * (e : ℚ) + |((x : ℚ) + (y : ℚ))| := by
    rw [← hcast]
    exact_mod_cast hl
  have h1 : (e : ℚ) / P - ((x : ℚ) / P + (y : ℚ) / P) = ((e : ℚ) - ((x : ℚ) + (y : ℚ))) / P := by
    field_simp
  have h2 : (x : ℚ) / P + (y : ℚ) / P = ((x : ℚ) + (y : ℚ)) / P := by
    field_simp
  rw [h1, h2, abs_div, abs_div, abs_of_pos hpos, div_div, mul_comm P, ← div_div,
    div_le_div_iff_of_pos_right hpos, abs_le]
  constructor <;> linarith

end Double

theorem elapsed_sec_spec (now start : Timespec)
    (hs : (now.tv_sec - start.tv_sec).natAbs ≤ 2 ^ 53)
    (hn : (now.tv_nsec - start.tv_nsec).natAbs < 1000000000) :
    (elapsed_sec now start).is_nan = false ∧ (elapsed_sec now start).is_inf = false ∧
    |(elapsed_sec now start).to_rat - elapsed_exact now start| ≤
      (|elapsed_exact now start| + 1) / 2 ^ 53 := by
  have hn53 : (now.tv_nsec - start.tv_nsec).natAbs ≤ 2 ^ 53 := by
    have : (2 : Nat) ^ 53 = 9007199254740992 := by norm_num
    omega
  unfold elapsed_sec elapsed_exact
  rw [wrap_long_of_small _ hs, wrap_long_of_small _ hn53]
  generalize now.tv_sec - start.tv_sec = ds at *
  generalize now.tv_nsec - start.tv_nsec = dn at *
  obtain ⟨hSsc, hSnan, hSinf, hSmag, -⟩ := Double.of_long_spec ds hs
  obtain ⟨hQnan, hQinf, hQmag, hQerr⟩ := Double.div_1e9_spec dn hn
  have hsum : ((Double.of_long ds).scaled +
      (Double.of_long dn / Double.lit_1e9).scaled).natAbs < 2 ^ 2097 := by
    have h1 := Int.natAbs_add_le (Double.of_long ds).scaled
      (Double.of_long dn / Double.lit_1e9).scaled
    rw [← Double.mag_eq_natAbs, ← Double.mag_eq_natAbs, hSmag] at h1
    have h2 : ds.natAbs * 2 ^ 1074 + (Double.of_long dn / Double.lit_1e9).mag ≤
        (2 ^ 53 + 1) * 2 ^ 1074 := by
      rw [Nat.add_mul, Nat.one_mul]
      exact Nat.add_le_add (Nat.mul_le_mul_right _ hs) hQmag
    have h3 : (2 ^ 53 + 1) * 2 ^ 1074 < 2 ^ 2097 :=
      Double.mul_pow_lt (2 ^ 53 + 1) 1074 54 1074 2097 (by norm_num) (le_refl _) (by norm_num)
    exact lt_of_le_of_lt h1 (lt_of_le_of_lt h2 h3)
  obtain ⟨hEnan, hEinf, hEerr⟩ :=
    Double.add_spec_rat (Double.of_long ds) (Double.of_long dn / Double.lit_1e9)
      ⟨hSnan, hSinf⟩ ⟨hQnan, hQinf⟩ hsum
  refine ⟨hEnan, hEinf, ?_⟩
  have hS : (Double.of_long ds).to_rat = (ds : ℚ) := by
    unfold Double.to_rat
    rw [hSsc, Int.cast_mul, Int.cast_pow, Int.cast_ofNat]
    have hpos : (0 : ℚ) < 2 ^ 1074 := by positivity
    generalize (2 : ℚ) ^ 1074 = P at *
    field_simp
  rw [hS] at hEerr
  have e53q : (2 : ℚ) ^ 53 = 9007199254740992 := by norm_num
  rw [e53q] at hEerr hQerr ⊢
  have hdn : |(dn : ℚ)| ≤ 999999999 := by
    have h1 : ((dn.natAbs : Nat) : ℚ) = |(dn : ℚ)| := by
      rw [Nat.cast_natAbs, Int.cast_abs]
    rw [← h1]
    have h2 : dn.natAbs ≤ 999999999 := by omega
    exact_mod_cast h2
  generalize (Double.of_long ds + Double.of_long dn / Double.lit_1e9).to_rat = e at *
  generalize (Double.of_long dn / Double.lit_1e9).to_rat = q at *
  have hy : |(ds : ℚ) + q| ≤ |(ds : ℚ) + (dn : ℚ) / 1000000000| + |q - (dn : ℚ) / 1000000000| := by
    have := abs_add ((ds : ℚ) + (dn : ℚ) / 1000000000) (q - (dn : ℚ) / 1000000000)
    have h2 : (ds : ℚ) + (dn : ℚ) / 1000000000 + (q - (dn : ℚ) / 1000000000) = (ds : ℚ) + q := by
      ring
    rw [h2] at this
    exact this
  have he : |e - ((ds : ℚ) + (dn : ℚ) / 1000000000)| ≤
      |e - ((ds : ℚ) + q)| + |q - (dn : ℚ) / 1000000000| := by
    have := abs_add (e - ((ds : ℚ) + q)) (q - (dn : ℚ) / 1000000000)
    have h2 : e - ((ds : ℚ) + q) + (q - (dn : ℚ) / 1000000000) =
        e - ((ds : ℚ) + (dn : ℚ) / 1000000000) := by
      ring
    rw [h2] at this
    exact this
  have hx0 := abs_nonneg ((ds : ℚ) + (dn : ℚ) / 1000000000)
  generalize |e - ((ds : ℚ) + (dn : ℚ) / 1000000000)| = g at *
  generalize |(ds : ℚ) + (dn : ℚ) / 1000000000| = ax at *
  generalize |(ds : ℚ) + q| = ay at *
  generalize |e - ((ds : ℚ) + q)| = u at *
  generalize |q - (dn : ℚ) / 1000000000| = v at *
  generalize |(dn : ℚ)| = an at *
  have h5 : v ≤ 999999999 / 1000000000 / 9007199254740992 := by
    have : an / 1000000000 / 9007199254740992 ≤
        999999999 / 1000000000 / 9007199254740992 := by
      apply div_le_div_of_nonneg_right _ (by norm_num)
      exact div_le_div_of_nonneg_right hdn (by norm_num)
    linarith
  have h6 : u ≤ ay / 9007199254740992 := hEerr
  have h7 : ay / 9007199254740992 ≤ (ax + v) / 9007199254740992 :=
    div_le_div_of_nonneg_right hy (by norm_num)
  have h8 : (ax + v) / 9007199254740992 + v ≤ (ax + 1) / 9007199254740992 := by
    rw [div_add' _ _ _ (by norm_num), div_le_div_iff_of_pos_right (by norm_num)]
    norm_num at h5 ⊢
    linarith
  linarith

/-! ## Binary64 comparisons -/

theorem Double.not_le_of_lt (a b : Double) (h : a < b) : ¬ (b ≤ a) := by
  have h1 : Double.lt a b = true := h
  intro h2
  have h3 : Double.le b a = true := h2
  simp only [Double.lt, Double.le, Bool.and_eq_true, decide_eq_true_eq] at h1 h3
  omega

set_option maxRecDepth 100000 in
theorem elapsed_sec_two : elapsed_sec ⟨2, 0⟩ ⟨0, 0⟩ = Double.lit_2_0 := by decide

set_option maxRecDepth 100000 in
theorem two_le_elapsed_sec_three : Double.lit_2_0 ≤ elapsed_sec ⟨3, 0⟩ ⟨0, 0⟩ := by decide

set_option maxRecDepth 100000 in
theorem two_not_le_elapsed_sec_one : ¬ (Double.lit_2_0 ≤ elapsed_sec ⟨1, 0⟩ ⟨0, 0⟩) := by decide

theorem two_le_two : Double.lit_2_0 ≤ Double.lit_2_0 := by decide

/-! ## The clock read at a fixed tick -/

theorem Double.le_iff (a b : Double) :
    a ≤ b ↔ a.is_nan = false ∧ b.is_nan = false ∧ a.to_rat ≤ b.to_rat := by
  have hpos : (0 : ℚ) < 2 ^ 1074 := by positivity
  have h1 : a.to_rat ≤ b.to_rat ↔ a.scaled ≤ b.scaled := by
    unfold Double.to_rat
    rw [div_le_div_iff_of_pos_right hpos]
    exact Int.cast_le
  rw [h1]
  show Double.le a b = true ↔ _
  simp only [Double.le, Bool.and_eq_true, Bool.not_eq_true', decide_eq_true_eq, and_assoc]

theorem Double.to_rat_zero : Double.zero.to_rat = 0 := by
  simp [Double.to_rat, Double.scaled, Double.mag, Double.zero]

theorem clock_after_zero (t0 : Timespec)
    (h : 0 ≤ t0.tv_nsec ∧ t0.tv_nsec < 1000000000) : clock_after t0 0 = t0 := by
  rcases t0 with ⟨s, n⟩
  simp only at h
  have h1 : (n + ((0 : Nat) : Int)) / 1000000000 = 0 := by omega
  have h2 : (n + ((0 : Nat) : Int)) % 1000000000 = n := by omega
  simp only [clock_after, h1, h2, add_zero]

theorem clock_after_exact (t0 : Timespec) (ns : Nat) :
    elapsed_exact (clock_after t0 ns) t0 = (ns : ℚ) / 1000000000 := by
  have h := Int.ediv_add_emod (t0.tv_nsec + (ns : Int)) 1000000000
  have hq : ((1000000000 * ((t0.tv_nsec + (ns : Int)) / 1000000000) +
      (t0.tv_nsec + (ns : Int)) % 1000000000 : Int) : ℚ) = ((t0.tv_nsec + (ns : Int) : Int) : ℚ) := by
    rw [h]
  push_cast at hq
  simp only [elapsed_exact, clock_after]
  push_cast
  field_simp
  linarith

theorem clock_after_bounds (t0 : Timespec) (ns : Nat)
    (h : 0 ≤ t0.tv_nsec ∧ t0.tv_nsec < 1000000000)
    (hns : ns ≤ 1000000000 * 9007199254740991) :
    ((clock_after t0 ns).tv_sec - t0.tv_sec).natAbs ≤ 2 ^ 53 ∧
    ((clock_after t0 ns).tv_nsec - t0.tv_nsec).natAbs < 1000000000 := by
  have e : (2 : Nat) ^ 53 = 9007199254740992 := by norm_num
  rw [e]
  simp only [clock_after]
  constructor <;> omega

/-- The computed elapsed time at a clock reading `ns` nanoseconds after `t0` is a finite
datum within `(e + 1) / 2^53` of the exact elapsed time `e = ns / 10^9`. -/
theorem elapsed_sec_clock_after (t0 : Timespec) (ns : Nat)
    (h : 0 ≤ t0.tv_nsec ∧ t0.tv_nsec < 1000000000)
    (hns : ns ≤ 1000000000 * 9007199254740991) :
    (elapsed_sec (clock_after t0 ns) t0).is_nan = false ∧
    (elapsed_sec (clock_after t0 ns) t0).is_inf = false ∧
    (ns : ℚ) / 1000000000 - ((ns : ℚ) / 1000000000 + 1) / 2 ^ 53 ≤
      (elapsed_sec (clock_after t0 ns) t0).to_rat ∧
    (elapsed_sec (clock_after t0 ns) t0).to_rat ≤
      (ns : ℚ) / 1000000000 + ((ns : ℚ) / 1000000000 + 1) / 2 ^ 53 := by
  obtain ⟨hs, hn⟩ := clock_after_bounds t0 ns h hns
  obtain ⟨h1, h2, h3⟩ := elapsed_sec_spec (clock_after t0 ns) t0 hs hn
  rw [clock_after_exact] at h3
  have hpos : (0 : ℚ) ≤ (ns : ℚ) / 1000000000 := by positivity
  rw [abs_of_nonneg hpos, abs_le] at h3
  exact ⟨h1, h2, by linarith [h3.1], by linarith [h3.2]⟩

/-- Polling a clock every `T` nanoseconds from the reading `t0`: there is a first tick
`k ≥ 1` at which the computed elapsed time reaches the duration `D`; its exact elapsed
time `e = k * T / 10^9` satisfies `D - (e + 1) / 2^53 ≤ e < D + T / 10^9 + (e + 1) / 2^53`
when `D > 0`, and `k = 1` when `D ≤ 0`. -/
theorem tick_completion (t0 : Timespec) (T : Nat) (D : Double)
    (ht0 : 0 ≤ t0.tv_nsec ∧ t0.tv_nsec < 1000000000)
    (hT : 0 < T) (hTmax : T ≤ 1000000000 * 2 ^ 50)
    (hD : D.is_nan = false) (hDmax : D.to_rat ≤ 2 ^ 50) :
    ∃ k : Nat, 1 ≤ k ∧
      D ≤ elapsed_sec (clock_after t0 (k * T)) t0 ∧
      (∀ j : Nat, 1 ≤ j → j < k → ¬ D ≤ elapsed_sec (clock_after t0 (j * T)) t0) ∧
      (0 < D.to_rat →
        D.to_rat - (((k * T : Nat) : ℚ) / 1000000000 + 1) / 2 ^ 53 ≤
          ((k * T : Nat) : ℚ) / 1000000000 ∧
        ((k * T : Nat) : ℚ) / 1000000000 <
          D.to_rat + (T : ℚ) / 1000000000 + (((k * T : Nat) : ℚ) / 1000000000 + 1) / 2 ^ 53) ∧
      (D.to_rat ≤ 0 → k = 1) := by
  have e50 : (2 : ℚ) ^ 50 = 1125899906842624 := by norm_num
  have e53 : (2 : ℚ) ^ 53 = 9007199254740992 := by norm_num
  have e50n : (2 : Nat) ^ 50 = 1125899906842624 := by norm_num
  rw [e50] at hDmax
  rw [e50n] at hTmax
  simp only [e53]
  have hTq : (0 : ℚ) < (T : ℚ) := by exact_mod_cast hT
  have hTmaxq : (T : ℚ) ≤ 1000000000 * 1125899906842624 := by exact_mod_cast hTmax
  -- error bounds at every tick within range
  have herr : ∀ j : Nat, j * T ≤ 1000000000 * 9007199254740991 →
      (elapsed_sec (clock_after t0 (j * T)) t0).is_nan = false ∧
      ((j * T : Nat) : ℚ) / 1000000000 - (((j * T : Nat) : ℚ) / 1000000000 + 1) / 9007199254740992 ≤
        (elapsed_sec (clock_after t0 (j * T)) t0).to_rat ∧
      (elapsed_sec (clock_after t0 (j * T)) t0).to_rat ≤
        ((j * T : Nat) : ℚ) / 1000000000 + (((j * T : Nat) : ℚ) / 1000000000 + 1) / 9007199254740992 := by
    intro j hj
    obtain ⟨h1, -, h3, h4⟩ := elapsed_sec_clock_after t0 (j * T) ht0 hj
    rw [e53] at h3 h4
    exact ⟨h1, h3, h4⟩
  -- a tick at which the duration has certainly been reached
  obtain ⟨k0, hk0r, hk0P⟩ : ∃ k0 : Nat, k0 * T ≤ 1000000000 * 9007199254740991 ∧
      (1 ≤ k0 ∧ D ≤ elapsed_sec (clock_after t0 (k0 * T)) t0) := by
    have hm0 : (0 : ℚ) ≤ max D.to_rat 0 := le_max_right _ _
    have hmD : D.to_rat ≤ max D.to_rat 0 := le_max_left _ _
    have hmmax : max D.to_rat 0 ≤ 1125899906842624 := max_le hDmax (by norm_num)
    generalize max D.to_rat 0 = m at *
    have hc1 : (2 * m + 1) * 1000000000 / (T : ℚ) ≤
        (⌈(2 * m + 1) * 1000000000 / (T : ℚ)⌉₊ : ℚ) := Nat.le_ceil _
    have hpos : (0 : ℚ) < (2 * m + 1) * 1000000000 / (T : ℚ) := by positivity
    have hc2 : (⌈(2 * m + 1) * 1000000000 / (T : ℚ)⌉₊ : ℚ) <
        (2 * m + 1) * 1000000000 / (T : ℚ) + 1 := Nat.ceil_lt_add_one (le_of_lt hpos)
    generalize ⌈(2 * m + 1) * 1000000000 / (T : ℚ)⌉₊ = k0 at *
    have hk0T1 : (2 * m + 1) * 1000000000 ≤ (k0 : ℚ) * T := (div_le_iff₀ hTq).1 hc1
    have hk0T2 : (k0 : ℚ) * T < (2 * m + 1) * 1000000000 + T := by
      have h3 : (k0 : ℚ) * T < ((2 * m + 1) * 1000000000 / (T : ℚ) + 1) * T :=
        mul_lt_mul_of_pos_right hc2 hTq
      have h4 : ((2 * m + 1) * 1000000000 / (T : ℚ) + 1) * T = (2 * m + 1) * 1000000000 + T := by
        field_simp
      linarith
    have hrange : k0 * T ≤ 1000000000 * 9007199254740991 := by
      have : ((k0 * T : Nat) : ℚ) ≤ ((1000000000 * 9007199254740991 : Nat) : ℚ) := by
        push_cast
        linarith
      exact_mod_cast this
    have hk01 : 1 ≤ k0 := by
      rcases Nat.eq_zero_or_pos k0 with h | h
      · rw [h] at hk0T1
        simp at hk0T1
        linarith
      · exact h
    refine ⟨k0, hrange, hk01, ?_⟩
    obtain ⟨hn, hlo, -⟩ := herr k0 hrange
    rw [Double.le_iff]
    refine ⟨hD, hn, ?_⟩
    have hx : (2 * m + 1) ≤ ((k0 * T : Nat) : ℚ) / 1000000000 := by
      rw [le_div_iff₀ (by norm_num)]
      push_cast
      exact hk0T1
    generalize ((k0 * T : Nat) : ℚ) / 1000000000 = x at *
    linarith
  have hex : ∃ k : Nat, 1 ≤ k ∧ D ≤ elapsed_sec (clock_after t0 (k * T)) t0 := ⟨k0, hk0P⟩
  have hspec := Nat.find_spec hex
  have hmin : ∀ j : Nat, j < Nat.find hex →
      ¬ (1 ≤ j ∧ D ≤ elapsed_sec (clock_after t0 (j * T)) t0) := fun j hj => Nat.find_min hex hj
  have hle : Nat.find hex ≤ k0 := Nat.find_min' hex hk0P
  generalize Nat.find hex = k at *
  have hkr : ∀ j : Nat, j ≤ k → j * T ≤ 1000000000 * 9007199254740991 := fun j hj =>
    le_trans (Nat.mul_le_mul_right T (le_trans hj hle)) hk0r
  refine ⟨k, hspec.1, hspec.2, fun j hj1 hjk hP => hmin j hjk ⟨hj1, hP⟩, ?_, ?_⟩
  · intro hDpos
    obtain ⟨hn, -, hhi⟩ := herr k (hkr k (le_refl _))
    have hDk := ((Double.le_iff _ _).1 hspec.2).2.2
    refine ⟨by linarith, ?_⟩
    by_cases hk1 : k = 1
    · subst hk1
      have hx0 : (0 : ℚ) ≤ ((1 * T : Nat) : ℚ) / 1000000000 := by positivity
      have hx1 : ((1 * T : Nat) : ℚ) / 1000000000 = (T : ℚ) / 1000000000 := by
        rw [Nat.one_mul]
      rw [hx1] at hx0 ⊢
      generalize (T : ℚ) / 1000000000 = x at *
      linarith
    · have hj1 : 1 ≤ k - 1 := by have := hspec.1; omega
      have hjk : k - 1 < k := by omega
      obtain ⟨hnj, hloj, -⟩ := herr (k - 1) (hkr (k - 1) (by omega))
      have hnot : ¬ D ≤ elapsed_sec (clock_after t0 ((k - 1) * T)) t0 :=
        fun hP => hmin (k - 1) hjk ⟨hj1, hP⟩
      rw [Double.le_iff] at hnot
      have hlt : (elapsed_sec (clock_after t0 ((k - 1) * T)) t0).to_rat < D.to_rat := by
        by_contra hc
        exact hnot ⟨hD, hnj, not_lt.1 hc⟩
      have hsplit : ((k * T : Nat) : ℚ) / 1000000000 =
          (((k - 1) * T : Nat) : ℚ) / 1000000000 + (T : ℚ) / 1000000000 := by
        have h1 : k * T = (k - 1) * T + T := by
          have : k = (k - 1) + 1 := by omega
          nth_rewrite 1 [this]
          rw [Nat.add_mul, Nat.one_mul]
        rw [h1]
        push_cast
        ring
      have hxj : (0 : ℚ) ≤ (((k - 1) * T : Nat) : ℚ) / 1000000000 := by positivity
      have hxT : (0 : ℚ) ≤ (T : ℚ) / 1000000000 := by positivity
      rw [hsplit]
      generalize (((k - 1) * T : Nat) : ℚ) / 1000000000 = xj at *
      generalize (T : ℚ) / 1000000000 = xT at *
      generalize (elapsed_sec (clock_after t0 ((k - 1) * T)) t0).to_rat = ej at *
      linarith
  · intro hDneg
    have hP1 : 1 ≤ 1 ∧ D ≤ elapsed_sec (clock_after t0 (1 * T)) t0 := by
      refine ⟨le_refl _, ?_⟩
      have hr1 : 1 * T ≤ 1000000000 * 9007199254740991 := by omega
      obtain ⟨hn, hlo, -⟩ := herr 1 hr1
      rw [Double.le_iff]
      refine ⟨hD, hn, ?_⟩
      have hx : (1 : ℚ) / 1000000000 ≤ ((1 * T : Nat) : ℚ) / 1000000000 := by
        apply div_le_div_of_nonneg_right _ (by norm_num)
        have : 1 ≤ 1 * T := by omega
        exact_mod_cast this
      generalize ((1 * T : Nat) : ℚ) / 1000000000 = x at *
      linarith
    have h1 := hspec.1
    by_contra hne
    exact hmin 1 (by omega) hP1

/-! ## Registry traversal -/

theorem SwitchImpl.all_tasks_done_loop_chain (m : SwitchImpl.Mem) :
    ∀ (l : List Nat) (p : Option Nat) (fuel : Nat),
      chain (fun a => (m.task a).next) p l → l.length < fuel →
      SwitchImpl.all_tasks_done_loop m fuel p =
        some (if ∀ a ∈ l, (m.task a).status = SwitchImpl.TaskStatus.TASK_STATUS_DONE then 1 else 0, m) := by
  intro l
  induction l with
  | nil =>
      intro p fuel hc hf
      cases fuel with
      | zero => exact absurd hf (by simp)
      | succ n =>
          simp only [chain] at hc
          subst hc
          simp [SwitchImpl.all_tasks_done_loop]
  | cons a l ih =>
      intro p fuel hc hf
      cases fuel with
      | zero => exact absurd hf (by simp)
      | succ n =>
          simp only [chain] at hc
          obtain ⟨hp, hc⟩ := hc
          subst hp
          have hf2 : l.length < n := by simpa using hf
          by_cases hs : (m.task a).status = SwitchImpl.TaskStatus.TASK_STATUS_DONE
          · simp [SwitchImpl.all_tasks_done_loop, hs, ih _ _ hc hf2]
          · simp [SwitchImpl.all_tasks_done_loop, hs]

theorem ProtoImpl.is_all_tasks_finished_loop_chain (m : ProtoImpl.Mem) :
    ∀ (l : List Nat) (p : Option Nat) (fuel : Nat),
      chain (fun a => (m.task a).next) p l → l.length < fuel →
      ProtoImpl.is_all_tasks_finished_loop m fuel p =
        some (if ∀ a ∈ l, (m.task a).status = ProtoImpl.TaskStatus.TASK_FINISHED then 1 else 0, m) := by
  intro l
  induction l with
  | nil =>
      intro p fuel hc hf
      cases fuel with
      | zero => exact absurd hf (by simp)
      | succ n =>
          simp only [chain] at hc
          subst hc
          simp [ProtoImpl.is_all_tasks_finished_loop]
  | cons a l ih =>
      intro p fuel hc hf
      cases fuel with
      | zero => exact absurd hf (by simp)
      | succ n =>
          simp only [chain] at hc
          obtain ⟨hp, hc⟩ := hc
          subst hp
          have hf2 : l.length < n := by simpa using hf
          by_cases hs : (m.task a).status = ProtoImpl.TaskStatus.TASK_FINISHED
          · simp [ProtoImpl.is_all_tasks_finished_loop, hs, ih _ _ hc hf2]
          · simp [ProtoImpl.is_all_tasks_finished_loop, hs]

theorem SwitchImpl.status_not_done_iff (s : SwitchImpl.TaskStatus) :
    s ≠ SwitchImpl.TaskStatus.TASK_STATUS_DONE ↔
      (s = SwitchImpl.TaskStatus.TASK_STATUS_INIT ∨ s = SwitchImpl.TaskStatus.TASK_STATUS_RUNNING) := by
  cases s <;> simp

theorem ProtoImpl.status_not_finished_iff (s : ProtoImpl.TaskStatus) :
    s ≠ ProtoImpl.TaskStatus.TASK_FINISHED ↔
      (s = ProtoImpl.TaskStatus.TASK_INIT ∨ s = ProtoImpl.TaskStatus.TASK_RUNNING) := by
  cases s <;> simp

/-- C1: on a registry that is a NULL-terminated list of tasks (the empty one included),
`all_tasks_done` and `is_all_tasks_finished` return (with fuel beyond the list length),
leave the memory as it was, and return 1 exactly when every registered task has status
Complete, 0 exactly when some registered task is Pending or Active. -/
theorem C1_all_done_iff_every_task_complete
    (mA : SwitchImpl.Mem) (lA : List Nat) (fuelA : Nat)
    (mB : ProtoImpl.Mem) (lB : List Nat) (fuelB : Nat)
    (hA : SwitchImpl.registry mA lA) (hfA : lA.length < fuelA)
    (hB : ProtoImpl.registry mB lB) (hfB : lB.length < fuelB) :
    (∃ r : Int, SwitchImpl.all_tasks_done fuelA mA = some (r, mA) ∧
        (r = 1 ↔ ∀ a ∈ lA, (mA.task a).status = SwitchImpl.TaskStatus.TASK_STATUS_DONE) ∧
        (r = 0 ↔ ∃ a ∈ lA, (mA.task a).status = SwitchImpl.TaskStatus.TASK_STATUS_INIT ∨
                            (mA.task a).status = SwitchImpl.TaskStatus.TASK_STATUS_RUNNING)) ∧
    (∃ r : Int, ProtoImpl.is_all_tasks_finished fuelB mB = some (r, mB) ∧
        (r = 1 ↔ ∀ a ∈ lB, (mB.task a).status = ProtoImpl.TaskStatus.TASK_FINISHED) ∧
        (r = 0 ↔ ∃ a ∈ lB, (mB.task a).status = ProtoImpl.TaskStatus.TASK_INIT ∨
                            (mB.task a).status = ProtoImpl.TaskStatus.TASK_RUNNING)) := by
  constructor
  · refine ⟨_, SwitchImpl.all_tasks_done_loop_chain mA lA _ fuelA hA hfA, ?_, ?_⟩
    · by_cases h : ∀ a ∈ lA, (mA.task a).status = SwitchImpl.TaskStatus.TASK_STATUS_DONE
      · simp [h]
      · simp [h]
    · by_cases h : ∀ a ∈ lA, (mA.task a).status = SwitchImpl.TaskStatus.TASK_STATUS_DONE
      · rw [if_pos h]
        constructor
        · intro h1; exact absurd h1 (by decide)
        · rintro ⟨a, ha, hs⟩
          rw [h a ha] at hs
          simp at hs
      · rw [if_neg h]
        simp only [true_iff]
        push_neg at h
        obtain ⟨a, ha, hs⟩ := h
        exact ⟨a, ha, (SwitchImpl.status_not_done_iff _).1 hs⟩
  · refine ⟨_, ProtoImpl.is_all_tasks_finished_loop_chain mB lB _ fuelB hB hfB, ?_, ?_⟩
    · by_cases h : ∀ a ∈ lB, (mB.task a).status = ProtoImpl.TaskStatus.TASK_FINISHED
      · simp [h]
      · simp [h]
    · by_cases h : ∀ a ∈ lB, (mB.task a).status = ProtoImpl.TaskStatus.TASK_FINISHED
      · rw [if_pos h]
        constructor
        · intro h1; exact absurd h1 (by decide)
        · rintro ⟨a, ha, hs⟩
          rw [h a ha] at hs
          simp at hs
      · rw [if_neg h]
        simp only [true_iff]
        push_neg at h
        obtain ⟨a, ha, hs⟩ := h
        exact ⟨a, ha, (ProtoImpl.status_not_finished_iff _).1 hs⟩

theorem C1_all_done_iff_every_task_complete_witness :
    SwitchImpl.registry SwitchImpl.mem_two [2, 1] ∧
    ProtoImpl.registry ProtoImpl.mem_two [2, 1] ∧
    SwitchImpl.all_tasks_done 3 SwitchImpl.mem_two = some (0, SwitchImpl.mem_two) ∧
    ProtoImpl.is_all_tasks_finished 3 ProtoImpl.mem_two = some (0, ProtoImpl.mem_two) := by
  have hA : SwitchImpl.registry SwitchImpl.mem_two [2, 1] := ⟨rfl, rfl, rfl⟩
  have hB : ProtoImpl.registry ProtoImpl.mem_two [2, 1] := ⟨rfl, rfl, rfl⟩
  obtain ⟨⟨rA, hrA, -, hA0⟩, ⟨rB, hrB, -, hB0⟩⟩ :=
    C1_all_done_iff_every_task_complete SwitchImpl.mem_two [2, 1] 3 ProtoImpl.mem_two [2, 1] 3
      hA (by decide) hB (by decide)
  have h1 : rA = 0 := hA0.2 ⟨2, by simp, Or.inl rfl⟩
  have h2 : rB = 0 := hB0.2 ⟨2, by simp, Or.inl rfl⟩
  subst h1
  subst h2
  exact ⟨hA, hB, hrA, hrB⟩

/-! ## Invocation of a completed task -/

/-- C2 (the code at the failing input): the file task of `src/src/main.c`, polled three
times with both files ready, is `TASK_FINISHED` with `step` at the last label; one more
call of `file_wait_task` in a world where file B is ready prints `hello-b` a second
time.  Likewise the timer task (duration 2) polled at clock readings 0 and 2 is
`TASK_FINISHED`, and one more call of `timer_wait_task` at reading 3 prints `hello`
a second time.  Status, step and payload stay as they were. -/
theorem C2_proto_finished_task_prints_again :
    (run_steps_opt (ProtoImpl.sched_visit ProtoImpl.file_wait_task)
        [env_ready 0, env_ready 0, env_ready 0] ProtoImpl.file_task_init).map
        (last_state ProtoImpl.file_task_init) = some ProtoImpl.file_task_done ∧
    ProtoImpl.file_task_done.status = ProtoImpl.TaskStatus.TASK_FINISHED ∧
    ProtoImpl.file_wait_task (env_ready 0) ProtoImpl.file_task_done =
      some (ProtoImpl.file_task_done, [Line.hello_b]) ∧
    (run_steps_opt (ProtoImpl.sched_visit ProtoImpl.timer_wait_task)
        [env_ready 0, env_ready 2] (ProtoImpl.timer_task_init Double.lit_2_0)).map
        (last_state (ProtoImpl.timer_task_init Double.lit_2_0)) = some (ProtoImpl.timer_task_done Double.lit_2_0) ∧
    (ProtoImpl.timer_task_done Double.lit_2_0).status = ProtoImpl.TaskStatus.TASK_FINISHED ∧
    ProtoImpl.timer_wait_task (env_ready 3) (ProtoImpl.timer_task_done Double.lit_2_0) =
      some (ProtoImpl.timer_task_done Double.lit_2_0, [Line.hello]) := by
  refine ⟨by decide, rfl, by decide, ?_, rfl, ?_⟩
  · simp [run_steps_opt, ProtoImpl.sched_visit, ProtoImpl.timer_wait_task, ProtoImpl.TASK_START,
      ProtoImpl.TASK_FINISH, ProtoImpl.timer_task_init, ProtoImpl.timer_task_done, env_ready,
      elapsed_sec_two, two_le_two, last_state, ProtoImpl.LINE_WAIT_TIMER]
  · simp [ProtoImpl.timer_wait_task, ProtoImpl.TASK_START,
      ProtoImpl.TASK_FINISH, ProtoImpl.timer_task_init, ProtoImpl.timer_task_done, env_ready,
      two_le_elapsed_sec_three, ProtoImpl.LINE_WAIT_TIMER]

/-- C3: in `src/main.c`, `task1_func` and `task2_func` called on a task whose status is
`TASK_STATUS_DONE` return the task object unchanged (status, step, payload and all
other fields) and print nothing, whatever `stat` and the clock answer. -/
theorem C3_switch_done_task_is_noop (env : Env) (task : SwitchImpl.Task)
    (h : task.status = SwitchImpl.TaskStatus.TASK_STATUS_DONE) :
    SwitchImpl.task1_func env task = (task, []) ∧
    SwitchImpl.task2_func env task = (task, []) := by
  simp [SwitchImpl.task1_func, SwitchImpl.task2_func, h]

theorem C3_switch_done_task_is_noop_witness :
    SwitchImpl.task1_done.status = SwitchImpl.TaskStatus.TASK_STATUS_DONE ∧
    SwitchImpl.task1_func (env_ready 5) SwitchImpl.task1_done = (SwitchImpl.task1_done, []) ∧
    SwitchImpl.task2_func (env_ready 5) SwitchImpl.task1_done = (SwitchImpl.task1_done, []) :=
  ⟨rfl, C3_switch_done_task_is_noop (env_ready 5) SwitchImpl.task1_done rfl⟩

/-! ## Pointer chains -/

theorem chain_congr {next next' : Nat → Option Nat} :
    ∀ (l : List Nat) (p : Option Nat), (∀ b ∈ l, next b = next' b) →
      chain next p l → chain next' p l := by
  intro l
  induction l with
  | nil => intro p _ h; exact h
  | cons a l ih =>
      intro p hn h
      simp only [chain] at h ⊢
      refine ⟨h.1, ?_⟩
      rw [← hn a (by simp)]
      exact ih _ (fun b hb => hn b (by simp [hb])) h.2

theorem chain_unique {next : Nat → Option Nat} :
    ∀ (l l' : List Nat) (p : Option Nat), chain next p l → chain next p l' → l = l' := by
  intro l
  induction l with
  | nil =>
      intro l' p h h'
      cases l' with
      | nil => rfl
      | cons b l' =>
          simp only [chain] at h h'
          rw [h] at h'
          exact absurd h'.1 (by simp)
  | cons a l ih =>
      intro l' p h h'
      cases l' with
      | nil =>
          simp only [chain] at h h'
          rw [h'] at h
          exact absurd h.1 (by simp)
      | cons b l' =>
          simp only [chain] at h h'
          have hab : a = b := by
            have := h.1.symm.trans h'.1
            simpa using this
          subst hab
          rw [ih l' _ h.2 h'.2]

theorem chain_mem_tail {next : Nat → Option Nat} :
    ∀ (l : List Nat) (p : Option Nat) (a : Nat), chain next p l → a ∈ l →
      ∃ l2 : List Nat, chain next (next a) l2 ∧ l2.length < l.length := by
  intro l
  induction l with
  | nil => intro p a _ ha; exact absurd ha (by simp)
  | cons b l ih =>
      intro p a h ha
      simp only [chain] at h
      rcases List.mem_cons.1 ha with hab | hal
      · subst hab
        exact ⟨l, h.2, by simp⟩
      · obtain ⟨l2, h2, hlen⟩ := ih _ a h.2 hal
        exact ⟨l2, h2, by simp; omega⟩

theorem chain_nodup {next : Nat → Option Nat} :
    ∀ (l : List Nat) (p : Option Nat), chain next p l → l.Nodup := by
  intro l
  induction l with
  | nil => intro _ _; exact List.nodup_nil
  | cons a l ih =>
      intro p h
      simp only [chain] at h
      refine List.nodup_cons.2 ⟨?_, ih _ h.2⟩
      intro ha
      obtain ⟨l2, h2, hlen⟩ := chain_mem_tail l _ a h.2 ha
      have := chain_unique _ _ _ h.2 h2
      rw [this] at hlen
      exact absurd hlen (lt_irrefl _)

/-! ## Fields the step functions leave alone -/

theorem SwitchImpl.task1_func_next (env : Env) (t : SwitchImpl.Task) :
    (SwitchImpl.task1_func env t).1.next = t.next := by
  rcases t with ⟨status, data, func, next⟩
  cases status <;> simp only [SwitchImpl.task1_func]
  all_goals try split_ifs
  all_goals rfl

theorem SwitchImpl.task2_func_next (env : Env) (t : SwitchImpl.Task) :
    (SwitchImpl.task2_func env t).1.next = t.next := by
  rcases t with ⟨status, data, func, next⟩
  cases status <;> simp only [SwitchImpl.task2_func]
  all_goals try split_ifs
  all_goals rfl

theorem SwitchImpl.call_func_next (env : Env) (t : SwitchImpl.Task) :
    (SwitchImpl.call_func env t).1.next = t.next := by
  unfold SwitchImpl.call_func
  split
  · exact SwitchImpl.task1_func_next env t
  · exact SwitchImpl.task2_func_next env t

/-- On a file payload `file_wait_task` is defined, and keeps `next`, `execute` and the payload. -/
theorem ProtoImpl.file_wait_task_frame (env : Env) (t : ProtoImpl.Task) (a b : String)
    (h : t.private_data = ProtoImpl.PrivateData.file_wait_info a b) :
    ∃ r, ProtoImpl.file_wait_task env t = some r ∧ r.1.next = t.next ∧
      r.1.execute = t.execute ∧ r.1.private_data = t.private_data := by
  unfold ProtoImpl.file_wait_task
  rw [h]
  simp only [ProtoImpl.TASK_START, ProtoImpl.TASK_FINISH]
  split_ifs <;> exact ⟨_, rfl, rfl, rfl, by first | rfl | exact h⟩

/-- On a timer payload `timer_wait_task` is defined, keeps `next` and `execute`, and the
payload stays a timer payload with the same duration. -/
theorem ProtoImpl.timer_wait_task_frame (env : Env) (t : ProtoImpl.Task) (d : Double) (s : Timespec)
    (h : t.private_data = ProtoImpl.PrivateData.timer_info d s) :
    ∃ r, ProtoImpl.timer_wait_task env t = some r ∧ r.1.next = t.next ∧
      r.1.execute = t.execute ∧ ∃ s', r.1.private_data = ProtoImpl.PrivateData.timer_info d s' := by
  unfold ProtoImpl.timer_wait_task
  rw [h]
  simp only [ProtoImpl.TASK_START, ProtoImpl.TASK_FINISH]
  split_ifs <;> exact ⟨_, rfl, rfl, rfl, _, by first | rfl | exact h⟩

theorem ProtoImpl.call_execute_frame (env : Env) (t : ProtoImpl.Task) (h : ProtoImpl.kind_ok t) :
    ∃ r, ProtoImpl.call_execute env t = some r ∧ r.1.next = t.next ∧ ProtoImpl.kind_ok r.1 := by
  unfold ProtoImpl.kind_ok at h
  unfold ProtoImpl.call_execute
  split at h
  · rename_i he hp
    obtain ⟨r, hr, hn, hex, hpd⟩ := ProtoImpl.file_wait_task_frame env t _ _ hp
    refine ⟨r, by rw [he]; exact hr, hn, ?_⟩
    unfold ProtoImpl.kind_ok
    rw [hex, hpd, he, hp]
    trivial
  · rename_i he hp
    obtain ⟨r, hr, hn, hex, s', hpd⟩ := ProtoImpl.timer_wait_task_frame env t _ _ hp
    refine ⟨r, by rw [he]; exact hr, hn, ?_⟩
    unfold ProtoImpl.kind_ok
    rw [hex, hpd, he]
    trivial
  · exact absurd h (by simp)

/-! ## Registration builds the list head first -/

theorem SwitchImpl.task_add_registry (m : SwitchImpl.Mem) (l : List Nat) (a : Nat)
    (h : SwitchImpl.registry m l) (ha : a ∉ l) :
    SwitchImpl.registry (SwitchImpl.task_add (some a) m) (a :: l) := by
  unfold SwitchImpl.registry at h ⊢
  simp only [SwitchImpl.task_add, chain, Function.update_same, true_and]
  refine chain_congr l _ ?_ h
  intro b hb
  have hba : b ≠ a := fun e => ha (e ▸ hb)
  simp [Function.update_noteq hba]

theorem SwitchImpl.task_add_all_registry :
    ∀ (ts : List Nat) (m : SwitchImpl.Mem) (l : List Nat),
      SwitchImpl.registry m l → (ts ++ l).Nodup →
      SwitchImpl.registry (SwitchImpl.task_add_all ts m) (ts.reverse ++ l) := by
  intro ts
  induction ts with
  | nil => intro m l h _; simpa [SwitchImpl.task_add_all] using h
  | cons a ts ih =>
      intro m l h hnd
      have hnd2 : (a :: (ts ++ l)).Nodup := by simpa using hnd
      have ha : a ∉ l := fun hal => (List.nodup_cons.1 hnd2).1 (by simp [hal])
      have h1 := SwitchImpl.task_add_registry m l a h ha
      have hnd3 : (ts ++ a :: l).Nodup :=
        (List.perm_middle.symm.nodup_iff).1 hnd2
      have := ih (SwitchImpl.task_add (some a) m) (a :: l) h1 hnd3
      simpa [SwitchImpl.task_add_all, List.reverse_cons, List.append_assoc] using this

theorem ProtoImpl.task_append_registry (m : ProtoImpl.Mem) (l : List Nat) (a : Nat)
    (h : ProtoImpl.registry m l) (ha : a ∉ l) :
    ProtoImpl.registry (ProtoImpl.task_append (some a) m) (a :: l) := by
  unfold ProtoImpl.registry at h ⊢
  simp only [ProtoImpl.task_append, chain, Function.update_same, true_and]
  refine chain_congr l _ ?_ h
  intro b hb
  have hba : b ≠ a := fun e => ha (e ▸ hb)
  simp [Function.update_noteq hba]

theorem ProtoImpl.task_append_all_registry :
    ∀ (ts : List Nat) (m : ProtoImpl.Mem) (l : List Nat),
      ProtoImpl.registry m l → (ts ++ l).Nodup →
      ProtoImpl.registry (ProtoImpl.task_append_all ts m) (ts.reverse ++ l) := by
  intro ts
  induction ts with
  | nil => intro m l h _; simpa [ProtoImpl.task_append_all] using h
  | cons a ts ih =>
      intro m l h hnd
      have hnd2 : (a :: (ts ++ l)).Nodup := by simpa using hnd
      have ha : a ∉ l := fun hal => (List.nodup_cons.1 hnd2).1 (by simp [hal])
      have h1 := ProtoImpl.task_append_registry m l a h ha
      have hnd3 : (ts ++ a :: l).Nodup :=
        (List.perm_middle.symm.nodup_iff).1 hnd2
      have := ih (ProtoImpl.task_append (some a) m) (a :: l) h1 hnd3
      simpa [ProtoImpl.task_append_all, List.reverse_cons, List.append_assoc] using this

/-! ## One scheduler pass follows the chain -/

theorem SwitchImpl.sched_pass_loop_chain :
    ∀ (l : List Nat) (fuel : Nat) (env : Nat → Env) (m : SwitchImpl.Mem) (p : Option Nat),
      chain (fun a => (m.task a).next) p l → l.length < fuel →
      ∃ res, SwitchImpl.sched_pass_loop fuel env m p = some res ∧
        res.calls = l.filter
          (fun a => decide ((m.task a).status ≠ SwitchImpl.TaskStatus.TASK_STATUS_DONE)) ∧
        chain (fun a => (res.mem.task a).next) p l ∧
        res.mem.g_task_list = m.g_task_list ∧
        (∀ b, b ∉ l → res.mem.task b = m.task b) := by
  intro l
  induction l with
  | nil =>
      intro fuel env m p hc hf
      cases fuel with
      | zero => exact absurd hf (by simp)
      | succ n =>
          simp only [chain] at hc
          subst hc
          exact ⟨⟨m, [], []⟩, rfl, rfl, rfl, rfl, fun _ _ => rfl⟩
  | cons a l ih =>
      intro fuel env m p hc hf
      have hnd : (a :: l).Nodup := chain_nodup _ _ hc
      have hal : a ∉ l := (List.nodup_cons.1 hnd).1
      cases fuel with
      | zero => exact absurd hf (by simp)
      | succ n =>
          simp only [chain] at hc
          obtain ⟨hp, hc⟩ := hc
          subst hp
          have hf2 : l.length < n := by simpa using hf
          by_cases hs : (m.task a).status = SwitchImpl.TaskStatus.TASK_STATUS_DONE
          · obtain ⟨res, hres, hcalls, hch, hg, hfr⟩ :=
              ih n (fun k => env (k + 1)) m _ hc hf2
            refine ⟨res, ?_, ?_, ?_, hg, ?_⟩
            · simp [SwitchImpl.sched_pass_loop, hs, hres]
            · simp [List.filter_cons, hs, hcalls]
            · simp only [chain, true_and]
              rw [hfr a hal]
              exact hch
            · intro b hb
              exact hfr b (fun h => hb (by simp [h]))
          · have hc1 : chain
                (fun b => ((Function.update m.task a
                  (SwitchImpl.call_func (env 0) (m.task a)).1) b).next)
                (m.task a).next l := by
              refine chain_congr l _ ?_ hc
              intro b hb
              have hba : b ≠ a := fun e => hal (e ▸ hb)
              simp [Function.update_noteq hba]
            obtain ⟨res, hres, hcalls, hch, hg, hfr⟩ :=
              ih n (fun k => env (k + 1))
                { m with task := (Function.update m.task a
                    (SwitchImpl.call_func (env 0) (m.task a)).1) }
                (m.task a).next hc1 hf2
            refine ⟨⟨res.mem, (SwitchImpl.call_func (env 0) (m.task a)).2 ++ res.out,
              a :: res.calls⟩, ?_, ?_, ?_, hg, ?_⟩
            · simp [SwitchImpl.sched_pass_loop, hs, SwitchImpl.call_func_next, hres]
            · simp only [List.filter_cons, hs, ne_eq, not_false_eq_true, decide_True, if_true,
                List.cons.injEq, true_and]
              rw [hcalls]
              apply List.filter_congr
              intro b hb
              have hba : b ≠ a := fun e => hal (e ▸ hb)
              simp [Function.update_noteq hba]
            · simp only [chain, true_and]
              rw [hfr a hal]
              simpa [SwitchImpl.call_func_next] using hch
            · intro b hb
              have hba : b ≠ a := fun e => hb (by simp [e])
              rw [hfr b (fun h => hb (by simp [h]))]
              simp [Function.update_noteq hba]

theorem ProtoImpl.proto_sched_pass_loop_chain :
    ∀ (l : List Nat) (fuel : Nat) (env : Nat → Env) (m : ProtoImpl.Mem) (p : Option Nat),
      chain (fun a => (m.task a).next) p l → l.length < fuel →
      (∀ a ∈ l, ProtoImpl.kind_ok (m.task a)) →
      ∃ res, ProtoImpl.sched_pass_loop fuel env m p = some res ∧
        res.calls = l.filter
          (fun a => decide ((m.task a).status ≠ ProtoImpl.TaskStatus.TASK_FINISHED)) ∧
        chain (fun a => (res.mem.task a).next) p l ∧
        res.mem.g_task_queue = m.g_task_queue ∧
        (∀ b, b ∉ l → res.mem.task b = m.task b) ∧
        (∀ a ∈ l, ProtoImpl.kind_ok (res.mem.task a)) := by
  intro l
  induction l with
  | nil =>
      intro fuel env m p hc hf _
      cases fuel with
      | zero => exact absurd hf (by simp)
      | succ n =>
          simp only [chain] at hc
          subst hc
          exact ⟨⟨m, [], []⟩, rfl, rfl, rfl, rfl, fun _ _ => rfl, fun _ h => absurd h (by simp)⟩
  | cons a l ih =>
      intro fuel env m p hc hf hk
      have hnd : (a :: l).Nodup := chain_nodup _ _ hc
      have hal : a ∉ l := (List.nodup_cons.1 hnd).1
      cases fuel with
      | zero => exact absurd hf (by simp)
      | succ n =>
          simp only [chain] at hc
          obtain ⟨hp, hc⟩ := hc
          subst hp
          have hf2 : l.length < n := by simpa using hf
          by_cases hs : (m.task a).status = ProtoImpl.TaskStatus.TASK_FINISHED
          · obtain ⟨res, hres, hcalls, hch, hg, hfr, hk2⟩ :=
              ih n (fun k => env (k + 1)) m _ hc hf2 (fun b hb => hk b (by simp [hb]))
            refine ⟨res, ?_, ?_, ?_, hg, ?_, ?_⟩
            · simp [ProtoImpl.sched_pass_loop, hs, hres]
            · simp [List.filter_cons, hs, hcalls]
            · simp only [chain, true_and]
              rw [hfr a hal]
              exact hch
            · intro b hb
              exact hfr b (fun h => hb (by simp [h]))
            · intro b hb
              rcases List.mem_cons.1 hb with hba | hbl
              · subst hba
                rw [hfr b hal]
                exact hk b (by simp)
              · exact hk2 b hbl
          · obtain ⟨r, hr, hrn, hrk⟩ :=
              ProtoImpl.call_execute_frame (env 0) (m.task a) (hk a (by simp))
            have hc1 : chain (fun b => ((Function.update m.task a r.1) b).next) r.1.next l := by
              rw [hrn]
              refine chain_congr l _ ?_ hc
              intro b hb
              have hba : b ≠ a := fun e => hal (e ▸ hb)
              simp [Function.update_noteq hba]
            have hk1 : ∀ b ∈ l, ProtoImpl.kind_ok ((Function.update m.task a r.1) b) := by
              intro b hb
              have hba : b ≠ a := fun e => hal (e ▸ hb)
              rw [Function.update_noteq hba]
              exact hk b (by simp [hb])
            obtain ⟨res, hres, hcalls, hch, hg, hfr, hk2⟩ :=
              ih n (fun k => env (k + 1))
                { m with task := (Function.update m.task a r.1) } r.1.next hc1 hf2 hk1
            refine ⟨⟨res.mem, r.2 ++ res.out, a :: res.calls⟩, ?_, ?_, ?_, hg, ?_, ?_⟩
            · simp [ProtoImpl.sched_pass_loop, hs, hr, hres]
            · simp only [List.filter_cons, hs, ne_eq, not_false_eq_true, decide_True, if_true,
                List.cons.injEq, true_and]
              rw [hcalls]
              apply List.filter_congr
              intro b hb
              have hba : b ≠ a := fun e => hal (e ▸ hb)
              simp [Function.update_noteq hba]
            · simp only [chain, true_and]
              rw [hfr a hal]
              simpa using hch
            · intro b hb
              have hba : b ≠ a := fun e => hb (by simp [e])
              rw [hfr b (fun h => hb (by simp [h]))]
              simp [Function.update_noteq hba]
            · intro b hb
              rcases List.mem_cons.1 hb with hba | hbl
              · subst hba
                rw [hfr b hal]
                simpa using hrk
              · exact hk2 b hbl

theorem SwitchImpl.task_add_all_other :
    ∀ (ts : List Nat) (m : SwitchImpl.Mem) (a : Nat), a ∉ ts →
      (SwitchImpl.task_add_all ts m).task a = m.task a := by
  intro ts
  induction ts with
  | nil => intro m a _; rfl
  | cons b ts ih =>
      intro m a ha
      have hab : a ≠ b := fun e => ha (by simp [e])
      have hats : a ∉ ts := fun h => ha (by simp [h])
      have := ih (SwitchImpl.task_add (some b) m) a hats
      simp only [SwitchImpl.task_add_all, List.foldl_cons] at this ⊢
      rw [this]
      simp [SwitchImpl.task_add, Function.update_noteq hab]

theorem SwitchImpl.task_add_all_status :
    ∀ (ts : List Nat) (m : SwitchImpl.Mem) (a : Nat), a ∈ ts →
      ((SwitchImpl.task_add_all ts m).task a).status = SwitchImpl.TaskStatus.TASK_STATUS_INIT := by
  intro ts
  induction ts with
  | nil => intro m a ha; exact absurd ha (by simp)
  | cons b ts ih =>
      intro m a ha
      by_cases hats : a ∈ ts
      · have := ih (SwitchImpl.task_add (some b) m) a hats
        simpa [SwitchImpl.task_add_all] using this
      · have hab : a = b := by
          rcases List.mem_cons.1 ha with h | h
          · exact h
          · exact absurd h hats
        subst hab
        have := SwitchImpl.task_add_all_other ts (SwitchImpl.task_add (some a) m) a hats
        simp only [SwitchImpl.task_add_all, List.foldl_cons] at this ⊢
        rw [this]
        simp [SwitchImpl.task_add]

theorem ProtoImpl.task_append_all_other :
    ∀ (ts : List Nat) (m : ProtoImpl.Mem) (a : Nat), a ∉ ts →
      (ProtoImpl.task_append_all ts m).task a = m.task a := by
  intro ts
  induction ts with
  | nil => intro m a _; rfl
  | cons b ts ih =>
      intro m a ha
      have hab : a ≠ b := fun e => ha (by simp [e])
      have hats : a ∉ ts := fun h => ha (by simp [h])
      have := ih (ProtoImpl.task_append (some b) m) a hats
      simp only [ProtoImpl.task_append_all, List.foldl_cons] at this ⊢
      rw [this]
      simp [ProtoImpl.task_append, Function.update_noteq hab]

theorem ProtoImpl.task_append_kind (m : ProtoImpl.Mem) (b a : Nat) :
    ProtoImpl.kind_ok ((ProtoImpl.task_append (some b) m).task a) ↔ ProtoImpl.kind_ok (m.task a) := by
  by_cases hab : a = b
  · subst hab
    simp [ProtoImpl.task_append, ProtoImpl.kind_ok]
  · simp [ProtoImpl.task_append, Function.update_noteq hab]

theorem ProtoImpl.task_append_all_kind :
    ∀ (ts : List Nat) (m : ProtoImpl.Mem) (a : Nat),
      ProtoImpl.kind_ok ((ProtoImpl.task_append_all ts m).task a) ↔ ProtoImpl.kind_ok (m.task a) := by
  intro ts
  induction ts with
  | nil => intro m a; rfl
  | cons b ts ih =>
      intro m a
      have := ih (ProtoImpl.task_append (some b) m) a
      simp only [ProtoImpl.task_append_all, List.foldl_cons] at this ⊢
      rw [this]
      exact ProtoImpl.task_append_kind m b a

theorem ProtoImpl.task_append_all_status :
    ∀ (ts : List Nat) (m : ProtoImpl.Mem) (a : Nat), a ∈ ts →
      ((ProtoImpl.task_append_all ts m).task a).status = ProtoImpl.TaskStatus.TASK_INIT := by
  intro ts
  induction ts with
  | nil => intro m a ha; exact absurd ha (by simp)
  | cons b ts ih =>
      intro m a ha
      by_cases hats : a ∈ ts
      · have := ih (ProtoImpl.task_append (some b) m) a hats
        simpa [ProtoImpl.task_append_all] using this
      · have hab : a = b := by
          rcases List.mem_cons.1 ha with h | h
          · exact h
          · exact absurd h hats
        subst hab
        have := ProtoImpl.task_append_all_other ts (ProtoImpl.task_append (some a) m) a hats
        simp only [ProtoImpl.task_append_all, List.foldl_cons] at this ⊢
        rw [this]
        simp [ProtoImpl.task_append]

/-- C4 (the claim at a concrete input): in both programs, after registering the task at
address 1 and then the task at address 2 (as `main` does), one scheduler pass calls the
step function of task 2 first and of task 1 second, not in registration order. -/
theorem C4_registration_order_counterexample :
    (SwitchImpl.sched_pass 3 (fun _ => env_absent 0)
        (SwitchImpl.task_add_all [1, 2] SwitchImpl.mem_init)).map (fun r => r.calls)
      = some [2, 1] ∧
    (ProtoImpl.sched_pass 3 (fun _ => env_absent 0)
        (ProtoImpl.task_append_all [1, 2] ProtoImpl.mem_init)).map (fun r => r.calls)
      = some [2, 1] ∧
    ¬ ((SwitchImpl.sched_pass 3 (fun _ => env_absent 0)
        (SwitchImpl.task_add_all [1, 2] SwitchImpl.mem_init)).map (fun r => r.calls)
      = some [1, 2]) ∧
    ¬ ((ProtoImpl.sched_pass 3 (fun _ => env_absent 0)
        (ProtoImpl.task_append_all [1, 2] ProtoImpl.mem_init)).map (fun r => r.calls)
      = some [1, 2]) := by
  have hA : (SwitchImpl.sched_pass 3 (fun _ => env_absent 0)
        (SwitchImpl.task_add_all [1, 2] SwitchImpl.mem_init)).map (fun r => r.calls)
      = some [2, 1] := by decide
  have hB : (ProtoImpl.sched_pass 3 (fun _ => env_absent 0)
        (ProtoImpl.task_append_all [1, 2] ProtoImpl.mem_init)).map (fun r => r.calls)
      = some [2, 1] := by decide
  refine ⟨hA, hB, ?_, ?_⟩
  · rw [hA]; decide
  · rw [hB]; decide

/-- C4 (amended): registration puts a task at the head of the list, so a scheduler pass
visits the tasks in reverse registration order.  For pairwise distinct addresses
`t1, ..., tn` registered in that order on an empty registry, in both programs:
the registry is the chain `tn, ..., t1`; the pass made right after registration calls
the step functions in the order `tn, ..., t1` (last registered is polled first); and on
every later memory with that registry a pass (with fuel beyond the list length) calls
the step functions of exactly the tasks that are not Complete, in the order
`tn, ..., t1`, and leaves the registry as it is. -/
theorem C4_pass_visits_in_reverse_registration_order
    (ts : List Nat) (hnd : ts.Nodup)
    (mA : SwitchImpl.Mem) (hA : mA.g_task_list = none)
    (mB : ProtoImpl.Mem) (hB : mB.g_task_queue = none)
    (hkB : ∀ a ∈ ts, ProtoImpl.kind_ok (mB.task a)) :
    (SwitchImpl.registry (SwitchImpl.task_add_all ts mA) ts.reverse ∧
     (∀ env fuel, ts.length < fuel →
        ∃ res, SwitchImpl.sched_pass fuel env (SwitchImpl.task_add_all ts mA) = some res ∧
          res.calls = ts.reverse) ∧
     (∀ m : SwitchImpl.Mem, SwitchImpl.registry m ts.reverse → ∀ env fuel, ts.length < fuel →
        ∃ res, SwitchImpl.sched_pass fuel env m = some res ∧
          res.calls = ts.reverse.filter
            (fun a => decide ((m.task a).status ≠ SwitchImpl.TaskStatus.TASK_STATUS_DONE)) ∧
          SwitchImpl.registry res.mem ts.reverse)) ∧
    (ProtoImpl.registry (ProtoImpl.task_append_all ts mB) ts.reverse ∧
     (∀ env fuel, ts.length < fuel →
        ∃ res, ProtoImpl.sched_pass fuel env (ProtoImpl.task_append_all ts mB) = some res ∧
          res.calls = ts.reverse) ∧
     (∀ m : ProtoImpl.Mem, ProtoImpl.registry m ts.reverse →
        (∀ a ∈ ts, ProtoImpl.kind_ok (m.task a)) → ∀ env fuel, ts.length < fuel →
        ∃ res, ProtoImpl.sched_pass fuel env m = some res ∧
          res.calls = ts.reverse.filter
            (fun a => decide ((m.task a).status ≠ ProtoImpl.TaskStatus.TASK_FINISHED)) ∧
          ProtoImpl.registry res.mem ts.reverse ∧
          (∀ a ∈ ts, ProtoImpl.kind_ok (res.mem.task a)))) := by
  have hregA : SwitchImpl.registry (SwitchImpl.task_add_all ts mA) ts.reverse := by
    have h0 : SwitchImpl.registry mA [] := hA
    simpa using SwitchImpl.task_add_all_registry ts mA [] h0 (by simpa using hnd)
  have hregB : ProtoImpl.registry (ProtoImpl.task_append_all ts mB) ts.reverse := by
    have h0 : ProtoImpl.registry mB [] := hB
    simpa using ProtoImpl.task_append_all_registry ts mB [] h0 (by simpa using hnd)
  have hpassA : ∀ m : SwitchImpl.Mem, SwitchImpl.registry m ts.reverse →
      ∀ env fuel, ts.length < fuel →
        ∃ res, SwitchImpl.sched_pass fuel env m = some res ∧
          res.calls = ts.reverse.filter
            (fun a => decide ((m.task a).status ≠ SwitchImpl.TaskStatus.TASK_STATUS_DONE)) ∧
          SwitchImpl.registry res.mem ts.reverse := by
    intro m hm env fuel hf
    obtain ⟨res, hres, hcalls, hch, hg, -⟩ :=
      SwitchImpl.sched_pass_loop_chain ts.reverse fuel env m _ hm (by simpa using hf)
    refine ⟨res, hres, hcalls, ?_⟩
    unfold SwitchImpl.registry
    rw [hg]
    exact hch
  have hpassB : ∀ m : ProtoImpl.Mem, ProtoImpl.registry m ts.reverse →
      (∀ a ∈ ts, ProtoImpl.kind_ok (m.task a)) → ∀ env fuel, ts.length < fuel →
        ∃ res, ProtoImpl.sched_pass fuel env m = some res ∧
          res.calls = ts.reverse.filter
            (fun a => decide ((m.task a).status ≠ ProtoImpl.TaskStatus.TASK_FINISHED)) ∧
          ProtoImpl.registry res.mem ts.reverse ∧
          (∀ a ∈ ts, ProtoImpl.kind_ok (res.mem.task a)) := by
    intro m hm hk env fuel hf
    obtain ⟨res, hres, hcalls, hch, hg, -, hk2⟩ :=
      ProtoImpl.proto_sched_pass_loop_chain ts.reverse fuel env m _ hm (by simpa using hf)
        (fun a ha => hk a (List.mem_reverse.1 ha))
    refine ⟨res, hres, hcalls, ?_, fun a ha => hk2 a (List.mem_reverse.2 ha)⟩
    unfold ProtoImpl.registry
    rw [hg]
    exact hch
  refine ⟨⟨hregA, ?_, hpassA⟩, ⟨hregB, ?_, hpassB⟩⟩
  · intro env fuel hf
    obtain ⟨res, hres, hcalls, -⟩ := hpassA _ hregA env fuel hf
    refine ⟨res, hres, ?_⟩
    rw [hcalls, List.filter_eq_self]
    intro a ha
    simp [SwitchImpl.task_add_all_status ts mA a (List.mem_reverse.1 ha)]
  · intro env fuel hf
    obtain ⟨res, hres, hcalls, -⟩ := hpassB _ hregB
      (fun a ha => (ProtoImpl.task_append_all_kind ts mB a).2 (hkB a ha)) env fuel hf
    refine ⟨res, hres, ?_⟩
    rw [hcalls, List.filter_eq_self]
    intro a ha
    simp [ProtoImpl.task_append_all_status ts mB a (List.mem_reverse.1 ha)]

theorem C4_pass_visits_in_reverse_registration_order_witness :
    [1, 2].Nodup ∧ SwitchImpl.mem_init.g_task_list = none ∧
    ProtoImpl.mem_init.g_task_queue = none ∧
    (∀ a ∈ [1, 2], ProtoImpl.kind_ok (ProtoImpl.mem_init.task a)) ∧
    (∃ res, SwitchImpl.sched_pass 3 (fun _ => env_ready 0)
        (SwitchImpl.task_add_all [1, 2] SwitchImpl.mem_init) = some res ∧ res.calls = [2, 1]) ∧
    (∃ res, ProtoImpl.sched_pass 3 (fun _ => env_ready 0)
        (ProtoImpl.task_append_all [1, 2] ProtoImpl.mem_init) = some res ∧ res.calls = [2, 1]) := by
  have hk : ∀ a ∈ [1, 2], ProtoImpl.kind_ok (ProtoImpl.mem_init.task a) := by
    intro a ha
    simp only [List.mem_cons, List.mem_singleton, List.not_mem_nil, or_false] at ha
    rcases ha with h | h <;> subst h <;> simp [ProtoImpl.kind_ok, ProtoImpl.mem_init,
      ProtoImpl.file_task_init, ProtoImpl.timer_task_init]
  have h := C4_pass_visits_in_reverse_registration_order [1, 2] (by decide)
    SwitchImpl.mem_init rfl ProtoImpl.mem_init rfl hk
  exact ⟨by decide, rfl, rfl, hk, h.1.2.1 (fun _ => env_ready 0) 3 (by decide),
    h.2.2.1 (fun _ => env_ready 0) 3 (by decide)⟩

/-! ## Runs -/

theorem run_steps_opt_eq_some {σ : Type} (f : Env → σ → Option (σ × List Line))
    (g : Env → σ → σ × List Line) (inv : σ → Prop)
    (h : ∀ e t, inv t → f e t = some (g e t) ∧ inv (g e t).1) :
    ∀ (envs : List Env) (t : σ), inv t → run_steps_opt f envs t = some (run_steps g envs t) := by
  intro envs
  induction envs with
  | nil => intro t _; rfl
  | cons e es ih =>
      intro t ht
      obtain ⟨h1, h2⟩ := h e t ht
      simp [run_steps_opt, run_steps, h1, ih _ h2]

theorem run_steps_last_inv {σ : Type} (g : Env → σ → σ × List Line) (inv : σ → Prop)
    (h : ∀ e t, inv t → inv (g e t).1) :
    ∀ (envs : List Env) (t : σ), inv t → inv (last_state t (run_steps g envs t)) := by
  intro envs
  induction envs with
  | nil => intro t ht; exact ht
  | cons e es ih =>
      intro t ht
      simp only [run_steps, last_state]
      exact ih _ (h e t ht)

theorem run_steps_lines_to_come {σ : Type} (f : Env → σ → σ × List Line) (rest : σ → List Line)
    (h1 : ∀ e t, (f e t).2 ++ rest (f e t).1 = rest t) :
    ∀ (envs : List Env) (t : σ),
      all_lines (run_steps f envs t) ++ rest (last_state t (run_steps f envs t)) = rest t := by
  intro envs
  induction envs with
  | nil => intro t; simp [run_steps, all_lines, last_state]
  | cons e es ih =>
      intro t
      have := ih (f e t).1
      simp only [all_lines] at this
      simp only [run_steps, all_lines, last_state, List.map_cons, List.flatten_cons,
        List.append_assoc]
      rw [this, h1]

theorem run_steps_b_after_a {σ : Type} (f : Env → σ → σ × List Line) (rest : σ → List Line)
    (h1 : ∀ e t, (f e t).2 ++ rest (f e t).1 = rest t)
    (h2 : ∀ e t, Line.hello_b ∈ (f e t).2 → Line.hello_a ∉ rest t) :
    ∀ (envs : List Env) (t : σ), Line.hello_a ∈ rest t →
      ∀ (j : Nat) (r : σ × List Line), (run_steps f envs t)[j]? = some r → Line.hello_b ∈ r.2 →
        ∃ (i : Nat) (r' : σ × List Line),
          i < j ∧ (run_steps f envs t)[i]? = some r' ∧ Line.hello_a ∈ r'.2 := by
  intro envs
  induction envs with
  | nil => intro t _ j r hj; simp [run_steps] at hj
  | cons e es ih =>
      intro t ht j r hj hb
      cases j with
      | zero =>
          simp only [run_steps, List.getElem?_cons_zero, Option.some.injEq] at hj
          subst hj
          exact absurd ht (h2 e t hb)
      | succ j =>
          simp only [run_steps, List.getElem?_cons_succ] at hj
          by_cases ha : Line.hello_a ∈ rest (f e t).1
          · obtain ⟨i, r', hi, hr', har'⟩ := ih _ ha j r hj hb
            exact ⟨i + 1, r', by omega, by simpa [run_steps] using hr', har'⟩
          · refine ⟨0, f e t, by omega, by simp [run_steps], ?_⟩
            have := h1 e t
            rw [← this] at ht
            rcases List.mem_append.1 ht with h | h
            · exact h
            · exact absurd h ha

/-- Trace of a four-line task: if each invocation prints the next lines still to come,
and `hello_b` is never printed by an invocation that still has `hello_a` to come, then
the run prints a prefix of the four lines, `hello_b` only in an invocation after the one
that printed `hello_a`, and nothing is left to come exactly when `hello_b` has been printed. -/
theorem run_steps_file_pair {σ : Type} (f : Env → σ → σ × List Line) (rest : σ → List Line)
    (a b : String)
    (h1 : ∀ e t, (f e t).2 ++ rest (f e t).1 = rest t)
    (h2 : ∀ e t, Line.hello_b ∈ (f e t).2 → Line.hello_a ∉ rest t)
    (envs : List Env) (t : σ)
    (ht : rest t = [Line.begin_wait_file a, Line.hello_a, Line.begin_wait_file b, Line.hello_b]) :
    (∀ (j : Nat) (r : σ × List Line), (run_steps f envs t)[j]? = some r → Line.hello_b ∈ r.2 →
        ∃ (i : Nat) (r' : σ × List Line),
          i < j ∧ (run_steps f envs t)[i]? = some r' ∧ Line.hello_a ∈ r'.2) ∧
    all_lines (run_steps f envs t) <+:
      [Line.begin_wait_file a, Line.hello_a, Line.begin_wait_file b, Line.hello_b] ∧
    (rest (last_state t (run_steps f envs t)) = [] ↔
      Line.hello_b ∈ all_lines (run_steps f envs t)) := by
  have hsum := run_steps_lines_to_come f rest h1 envs t
  rw [ht] at hsum
  refine ⟨run_steps_b_after_a f rest h1 h2 envs t (by rw [ht]; simp), ⟨_, hsum⟩, ?_⟩
  constructor
  · intro h0
    rw [h0, List.append_nil] at hsum
    rw [hsum]
    simp
  · intro hb
    by_contra hne
    have hlast : Line.hello_b ∈ rest (last_state t (run_steps f envs t)) := by
      have h3 := List.getLast?_append_of_ne_nil (all_lines (run_steps f envs t)) hne
      rw [hsum] at h3
      have h4 : (rest (last_state t (run_steps f envs t))).getLast? = some Line.hello_b := by
        rw [← h3]; rfl
      exact List.mem_of_getLast?_eq_some h4
    have hc := congrArg (List.count Line.hello_b) hsum
    rw [List.count_append] at hc
    have c1 : 0 < List.count Line.hello_b (all_lines (run_steps f envs t)) :=
      List.count_pos_iff.2 hb
    have c2 : 0 < List.count Line.hello_b (rest (last_state t (run_steps f envs t))) :=
      List.count_pos_iff.2 hlast
    have c3 : List.count Line.hello_b
        [Line.begin_wait_file a, Line.hello_a, Line.begin_wait_file b, Line.hello_b] = 1 := by
      simp [List.count_cons]
    omega

/-! ## The file-pair task -/

theorem SwitchImpl.visit_task1_lines (e : Env) (t : SwitchImpl.Task) :
    (SwitchImpl.sched_visit SwitchImpl.task1_func e t).2 ++
      SwitchImpl.lines_to_come (SwitchImpl.sched_visit SwitchImpl.task1_func e t).1 =
    SwitchImpl.lines_to_come t := by
  rcases t with ⟨status, ⟨⟨f1, f2, step⟩, sw⟩, func, next⟩
  cases status <;>
    simp only [SwitchImpl.sched_visit, SwitchImpl.task1_func, SwitchImpl.lines_to_come] <;>
    split_ifs <;> simp_all

theorem SwitchImpl.visit_task1_hello_b (e : Env) (t : SwitchImpl.Task)
    (h : Line.hello_b ∈ (SwitchImpl.sched_visit SwitchImpl.task1_func e t).2) :
    Line.hello_a ∉ SwitchImpl.lines_to_come t := by
  rcases t with ⟨status, ⟨⟨f1, f2, step⟩, sw⟩, func, next⟩
  revert h
  cases status <;>
    simp only [SwitchImpl.sched_visit, SwitchImpl.task1_func, SwitchImpl.lines_to_come] <;>
    split_ifs <;> simp_all

theorem SwitchImpl.lines_to_come_nil (t : SwitchImpl.Task) :
    SwitchImpl.lines_to_come t = [] ↔ t.status = SwitchImpl.TaskStatus.TASK_STATUS_DONE := by
  rcases t with ⟨status, ⟨⟨f1, f2, step⟩, sw⟩, func, next⟩
  cases status <;> simp only [SwitchImpl.lines_to_come] <;> (try split_ifs) <;> simp

theorem ProtoImpl.file_wait_task_init (e : Env) (t : ProtoImpl.Task) (a b : String)
    (h : t.private_data = ProtoImpl.PrivateData.file_wait_info a b)
    (hs : t.status = ProtoImpl.TaskStatus.TASK_INIT) :
    ProtoImpl.file_wait_task e t =
      some ({ t with step := ProtoImpl.LINE_WAIT_A, status := ProtoImpl.TaskStatus.TASK_RUNNING },
            [Line.begin_wait_file a]) := by
  rcases t with ⟨status, step, ex, pd, next⟩
  simp only at h hs
  subst h hs
  simp [ProtoImpl.file_wait_task, ProtoImpl.TASK_START]

theorem ProtoImpl.file_wait_task_step0 (e : Env) (t : ProtoImpl.Task) (a b : String)
    (h : t.private_data = ProtoImpl.PrivateData.file_wait_info a b)
    (hs : t.status ≠ ProtoImpl.TaskStatus.TASK_INIT) (h0 : t.step = 0) :
    ProtoImpl.file_wait_task e t =
      some ({ t with step := ProtoImpl.LINE_WAIT_A }, [Line.begin_wait_file a]) := by
  rcases t with ⟨status, step, ex, pd, next⟩
  simp only at h hs h0
  subst h h0
  simp [ProtoImpl.file_wait_task, ProtoImpl.TASK_START, hs]

theorem ProtoImpl.file_wait_task_wait_a (e : Env) (t : ProtoImpl.Task) (a b : String)
    (h : t.private_data = ProtoImpl.PrivateData.file_wait_info a b)
    (hs : t.status ≠ ProtoImpl.TaskStatus.TASK_INIT) (h1 : t.step = ProtoImpl.LINE_WAIT_A) :
    ProtoImpl.file_wait_task e t =
      some (if ProtoImpl.is_file_valid e a = 0 then (t, [])
            else ({ t with step := ProtoImpl.LINE_WAIT_B },
                  [Line.hello_a, Line.begin_wait_file b])) := by
  rcases t with ⟨status, step, ex, pd, next⟩
  simp only at h hs h1
  subst h h1
  simp only [ProtoImpl.file_wait_task, ProtoImpl.TASK_START, hs, if_false,
    ProtoImpl.LINE_WAIT_A, ProtoImpl.LINE_WAIT_B]
  split_ifs <;> simp_all

theorem ProtoImpl.file_wait_task_wait_b (e : Env) (t : ProtoImpl.Task) (a b : String)
    (h : t.private_data = ProtoImpl.PrivateData.file_wait_info a b)
    (hs : t.status ≠ ProtoImpl.TaskStatus.TASK_INIT) (h2 : t.step = ProtoImpl.LINE_WAIT_B) :
    ProtoImpl.file_wait_task e t =
      some (if ProtoImpl.is_file_valid e b = 0 then (t, [])
            else ({ t with status := ProtoImpl.TaskStatus.TASK_FINISHED }, [Line.hello_b])) := by
  rcases t with ⟨status, step, ex, pd, next⟩
  simp only at h hs h2
  subst h h2
  simp only [ProtoImpl.file_wait_task, ProtoImpl.TASK_START, ProtoImpl.TASK_FINISH, hs, if_false,
    ProtoImpl.LINE_WAIT_A, ProtoImpl.LINE_WAIT_B]
  split_ifs <;> simp_all

theorem ProtoImpl.file_wait_task_other (e : Env) (t : ProtoImpl.Task) (a b : String)
    (h : t.private_data = ProtoImpl.PrivateData.file_wait_info a b)
    (hs : t.status ≠ ProtoImpl.TaskStatus.TASK_INIT) (h0 : t.step ≠ 0)
    (h1 : t.step ≠ ProtoImpl.LINE_WAIT_A) (h2 : t.step ≠ ProtoImpl.LINE_WAIT_B) :
    ProtoImpl.file_wait_task e t = some (t, []) := by
  rcases t with ⟨status, step, ex, pd, next⟩
  simp only at h hs h0 h1 h2
  subst h
  simp [ProtoImpl.file_wait_task, ProtoImpl.TASK_START, hs, h0, h1, h2]

theorem ProtoImpl.file_visit_eq (e : Env) (t : ProtoImpl.Task) (a b : String)
    (h : t.private_data = ProtoImpl.PrivateData.file_wait_info a b) :
    ProtoImpl.sched_visit ProtoImpl.file_wait_task e t = some (ProtoImpl.file_visit e t) ∧
    (ProtoImpl.file_visit e t).1.private_data = ProtoImpl.PrivateData.file_wait_info a b := by
  obtain ⟨r, hr, -, -, hpd⟩ := ProtoImpl.file_wait_task_frame e t a b h
  unfold ProtoImpl.file_visit ProtoImpl.sched_visit
  split_ifs
  · rw [hr]
    exact ⟨rfl, hpd.trans h⟩
  · exact ⟨rfl, h⟩

theorem ProtoImpl.file_visit_timer (e : Env) (t : ProtoImpl.Task) (d : Double) (s : Timespec)
    (h : t.private_data = ProtoImpl.PrivateData.timer_info d s) :
    ProtoImpl.file_visit e t = (t, []) := by
  unfold ProtoImpl.file_visit ProtoImpl.sched_visit ProtoImpl.file_wait_task
  rw [h]
  split_ifs <;> rfl

theorem ProtoImpl.file_visit_finished (e : Env) (t : ProtoImpl.Task)
    (h : t.status = ProtoImpl.TaskStatus.TASK_FINISHED) :
    ProtoImpl.file_visit e t = (t, []) := by
  simp [ProtoImpl.file_visit, ProtoImpl.sched_visit, h]

theorem ProtoImpl.file_visit_unfinished (e : Env) (t : ProtoImpl.Task)
    (h : t.status ≠ ProtoImpl.TaskStatus.TASK_FINISHED) :
    ProtoImpl.file_visit e t = (ProtoImpl.file_wait_task e t).getD (t, []) := by
  simp [ProtoImpl.file_visit, ProtoImpl.sched_visit, h]

theorem ProtoImpl.file_visit_lines (e : Env) (t : ProtoImpl.Task) :
    (ProtoImpl.file_visit e t).2 ++ ProtoImpl.lines_to_come (ProtoImpl.file_visit e t).1 =
    ProtoImpl.lines_to_come t := by
  cases hpd : t.private_data with
  | timer_info d s => rw [ProtoImpl.file_visit_timer e t d s hpd]; rfl
  | file_wait_info a b =>
      by_cases hf : t.status = ProtoImpl.TaskStatus.TASK_FINISHED
      · rw [ProtoImpl.file_visit_finished e t hf]; rfl
      · rw [ProtoImpl.file_visit_unfinished e t hf]
        by_cases hs : t.status = ProtoImpl.TaskStatus.TASK_INIT
        · rw [ProtoImpl.file_wait_task_init e t a b hpd hs]
          simp [ProtoImpl.lines_to_come, hpd, hs, ProtoImpl.LINE_WAIT_A]
        · have hr : t.status = ProtoImpl.TaskStatus.TASK_RUNNING := by
            cases h : t.status <;> simp_all
          by_cases h0 : t.step = 0
          · rw [ProtoImpl.file_wait_task_step0 e t a b hpd hs h0]
            simp [ProtoImpl.lines_to_come, hpd, hr, h0, ProtoImpl.LINE_WAIT_A]
          · by_cases h1 : t.step = ProtoImpl.LINE_WAIT_A
            · rw [ProtoImpl.file_wait_task_wait_a e t a b hpd hs h1]
              by_cases hv : ProtoImpl.is_file_valid e a = 0
              · simp [hv]
              · simp [hv, ProtoImpl.lines_to_come, hpd, hr, h1, ProtoImpl.LINE_WAIT_A,
                  ProtoImpl.LINE_WAIT_B]
            · by_cases h2 : t.step = ProtoImpl.LINE_WAIT_B
              · rw [ProtoImpl.file_wait_task_wait_b e t a b hpd hs h2]
                by_cases hv : ProtoImpl.is_file_valid e b = 0
                · simp [hv]
                · simp [hv, ProtoImpl.lines_to_come, hpd, hr, h0, h1]
              · rw [ProtoImpl.file_wait_task_other e t a b hpd hs h0 h1 h2]
                simp

theorem ProtoImpl.file_visit_hello_b (e : Env) (t : ProtoImpl.Task)
    (h : Line.hello_b ∈ (ProtoImpl.file_visit e t).2) :
    Line.hello_a ∉ ProtoImpl.lines_to_come t := by
  revert h
  cases hpd : t.private_data with
  | timer_info d s => rw [ProtoImpl.file_visit_timer e t d s hpd]; simp
  | file_wait_info a b =>
      by_cases hf : t.status = ProtoImpl.TaskStatus.TASK_FINISHED
      · rw [ProtoImpl.file_visit_finished e t hf]; simp
      · rw [ProtoImpl.file_visit_unfinished e t hf]
        by_cases hs : t.status = ProtoImpl.TaskStatus.TASK_INIT
        · rw [ProtoImpl.file_wait_task_init e t a b hpd hs]
          simp
        · have hr : t.status = ProtoImpl.TaskStatus.TASK_RUNNING := by
            cases h : t.status <;> simp_all
          by_cases h0 : t.step = 0
          · rw [ProtoImpl.file_wait_task_step0 e t a b hpd hs h0]
            simp
          · by_cases h1 : t.step = ProtoImpl.LINE_WAIT_A
            · rw [ProtoImpl.file_wait_task_wait_a e t a b hpd hs h1]
              by_cases hv : ProtoImpl.is_file_valid e a = 0
              · simp [hv]
              · simp [hv]
            · by_cases h2 : t.step = ProtoImpl.LINE_WAIT_B
              · rw [ProtoImpl.file_wait_task_wait_b e t a b hpd hs h2]
                intro _
                simp [ProtoImpl.lines_to_come, hpd, hr, h0, h1]
              · rw [ProtoImpl.file_wait_task_other e t a b hpd hs h0 h1 h2]
                simp

theorem ProtoImpl.proto_lines_to_come_nil (t : ProtoImpl.Task) (a b : String)
    (h : t.private_data = ProtoImpl.PrivateData.file_wait_info a b) :
    ProtoImpl.lines_to_come t = [] ↔ t.status = ProtoImpl.TaskStatus.TASK_FINISHED := by
  rcases t with ⟨status, step, ex, pd, next⟩
  simp only at h
  subst h
  cases status <;> simp only [ProtoImpl.lines_to_come] <;> (try split_ifs) <;> simp

/-- C5: the file-pair task of either program, started from a newly registered task
(status Pending) and polled as the scheduler does (skipped once Complete), for every
sequence of worlds: `hello-b` is printed only in an invocation that comes strictly after
one that printed `hello-a`; all lines printed form a prefix of
[begin waiting A, hello-a, begin waiting B, hello-b]; and the task is Complete exactly
when `hello-b` has been printed.  In `src/src/main.c` the run is defined at every
invocation. -/
theorem C5_file_pair_b_only_after_a
    (envsA : List Env) (tA : SwitchImpl.Task)
    (hA : tA.status = SwitchImpl.TaskStatus.TASK_STATUS_INIT)
    (envsB : List Env) (tB : ProtoImpl.Task) (a b : String)
    (hB : tB.status = ProtoImpl.TaskStatus.TASK_INIT)
    (hpd : tB.private_data = ProtoImpl.PrivateData.file_wait_info a b) :
    (∃ tr, run_steps (SwitchImpl.sched_visit SwitchImpl.task1_func) envsA tA = tr ∧
      (∀ (j : Nat) (r : SwitchImpl.Task × List Line), tr[j]? = some r → Line.hello_b ∈ r.2 →
        ∃ (i : Nat) (r' : SwitchImpl.Task × List Line),
          i < j ∧ tr[i]? = some r' ∧ Line.hello_a ∈ r'.2) ∧
      all_lines tr <+:
        [Line.begin_wait_file tA.data.file_wait.file1, Line.hello_a,
         Line.begin_wait_file tA.data.file_wait.file2, Line.hello_b] ∧
      ((last_state tA tr).status = SwitchImpl.TaskStatus.TASK_STATUS_DONE ↔
        Line.hello_b ∈ all_lines tr)) ∧
    (∃ tr, run_steps_opt (ProtoImpl.sched_visit ProtoImpl.file_wait_task) envsB tB = some tr ∧
      (∀ (j : Nat) (r : ProtoImpl.Task × List Line), tr[j]? = some r → Line.hello_b ∈ r.2 →
        ∃ (i : Nat) (r' : ProtoImpl.Task × List Line),
          i < j ∧ tr[i]? = some r' ∧ Line.hello_a ∈ r'.2) ∧
      all_lines tr <+:
        [Line.begin_wait_file a, Line.hello_a, Line.begin_wait_file b, Line.hello_b] ∧
      ((last_state tB tr).status = ProtoImpl.TaskStatus.TASK_FINISHED ↔
        Line.hello_b ∈ all_lines tr)) := by
  constructor
  · have hrest : SwitchImpl.lines_to_come tA =
        [Line.begin_wait_file tA.data.file_wait.file1, Line.hello_a,
         Line.begin_wait_file tA.data.file_wait.file2, Line.hello_b] := by
      simp [SwitchImpl.lines_to_come, hA]
    obtain ⟨h1, h2, h3⟩ := run_steps_file_pair
      (SwitchImpl.sched_visit SwitchImpl.task1_func) SwitchImpl.lines_to_come _ _
      SwitchImpl.visit_task1_lines SwitchImpl.visit_task1_hello_b envsA tA hrest
    exact ⟨_, rfl, h1, h2, by rw [← h3, SwitchImpl.lines_to_come_nil]⟩
  · have hrun := run_steps_opt_eq_some (ProtoImpl.sched_visit ProtoImpl.file_wait_task)
      ProtoImpl.file_visit
      (fun t => t.private_data = ProtoImpl.PrivateData.file_wait_info a b)
      (fun e t ht => ProtoImpl.file_visit_eq e t a b ht) envsB tB hpd
    have hrest : ProtoImpl.lines_to_come tB =
        [Line.begin_wait_file a, Line.hello_a, Line.begin_wait_file b, Line.hello_b] := by
      simp [ProtoImpl.lines_to_come, hB, hpd]
    obtain ⟨h1, h2, h3⟩ := run_steps_file_pair ProtoImpl.file_visit ProtoImpl.lines_to_come _ _
      ProtoImpl.file_visit_lines ProtoImpl.file_visit_hello_b envsB tB hrest
    have hlast : (last_state tB (run_steps ProtoImpl.file_visit envsB tB)).private_data =
        ProtoImpl.PrivateData.file_wait_info a b :=
      run_steps_last_inv ProtoImpl.file_visit
        (fun t => t.private_data = ProtoImpl.PrivateData.file_wait_info a b)
        (fun e t ht => (ProtoImpl.file_visit_eq e t a b ht).2) envsB tB hpd
    exact ⟨_, hrun, h1, h2, by rw [← h3, ProtoImpl.proto_lines_to_come_nil _ a b hlast]⟩

theorem C5_file_pair_b_only_after_a_witness :
    SwitchImpl.task1_init.status = SwitchImpl.TaskStatus.TASK_STATUS_INIT ∧
    ProtoImpl.file_task_init.status = ProtoImpl.TaskStatus.TASK_INIT ∧
    ProtoImpl.file_task_init.private_data =
      ProtoImpl.PrivateData.file_wait_info "/tmp/a.txt" "/tmp/b.txt" ∧
    all_lines (run_steps (SwitchImpl.sched_visit SwitchImpl.task1_func)
        [env_absent 0, env_ready 1, env_absent 2, env_ready 3] SwitchImpl.task1_init) <+:
      [Line.begin_wait_file "/tmp/a.txt", Line.hello_a,
       Line.begin_wait_file "/tmp/b.txt", Line.hello_b] ∧
    (∃ tr, run_steps_opt (ProtoImpl.sched_visit ProtoImpl.file_wait_task)
        [env_absent 0, env_ready 1, env_absent 2, env_ready 3] ProtoImpl.file_task_init
          = some tr ∧
      all_lines tr <+:
        [Line.begin_wait_file "/tmp/a.txt", Line.hello_a,
         Line.begin_wait_file "/tmp/b.txt", Line.hello_b]) := by
  obtain ⟨⟨trA, hA, -, hpA, -⟩, ⟨trB, hB, -, hpB, -⟩⟩ :=
    C5_file_pair_b_only_after_a
      [env_absent 0, env_ready 1, env_absent 2, env_ready 3] SwitchImpl.task1_init rfl
      [env_absent 0, env_ready 1, env_absent 2, env_ready 3] ProtoImpl.file_task_init
      "/tmp/a.txt" "/tmp/b.txt" rfl rfl
  subst hA
  exact ⟨rfl, rfl, rfl, hpA, trB, hB, hpB⟩

/-! ## The timer task -/

theorem ProtoImpl.timer_wait_task_init (e : Env) (t : ProtoImpl.Task) (d : Double) (s : Timespec)
    (h : t.private_data = ProtoImpl.PrivateData.timer_info d s)
    (hs : t.status = ProtoImpl.TaskStatus.TASK_INIT) :
    ProtoImpl.timer_wait_task e t =
      some ({ t with private_data := ProtoImpl.PrivateData.timer_info d e.now,
                     step := ProtoImpl.LINE_WAIT_TIMER,
                     status := ProtoImpl.TaskStatus.TASK_RUNNING },
            [Line.begin_wait_sec d]) := by
  rcases t with ⟨status, step, ex, pd, next⟩
  simp only at h hs
  subst h hs
  simp [ProtoImpl.timer_wait_task, ProtoImpl.TASK_START]

theorem ProtoImpl.timer_wait_task_step0 (e : Env) (t : ProtoImpl.Task) (d : Double) (s : Timespec)
    (h : t.private_data = ProtoImpl.PrivateData.timer_info d s)
    (hs : t.status ≠ ProtoImpl.TaskStatus.TASK_INIT) (h0 : t.step = 0) :
    ProtoImpl.timer_wait_task e t =
      some ({ t with private_data := ProtoImpl.PrivateData.timer_info d e.now,
                     step := ProtoImpl.LINE_WAIT_TIMER },
            [Line.begin_wait_sec d]) := by
  rcases t with ⟨status, step, ex, pd, next⟩
  simp only at h hs h0
  subst h h0
  simp [ProtoImpl.timer_wait_task, ProtoImpl.TASK_START, hs]

theorem ProtoImpl.timer_wait_task_wait (e : Env) (t : ProtoImpl.Task) (d : Double) (s : Timespec)
    (h : t.private_data = ProtoImpl.PrivateData.timer_info d s)
    (hs : t.status ≠ ProtoImpl.TaskStatus.TASK_INIT) (h1 : t.step = ProtoImpl.LINE_WAIT_TIMER) :
    ProtoImpl.timer_wait_task e t =
      some (if d ≤ elapsed_sec e.now s then
              ({ t with status := ProtoImpl.TaskStatus.TASK_FINISHED }, [Line.hello])
            else (t, [])) := by
  rcases t with ⟨status, step, ex, pd, next⟩
  simp only at h hs h1
  subst h h1
  simp only [ProtoImpl.timer_wait_task, ProtoImpl.TASK_START, ProtoImpl.TASK_FINISH, hs, if_false,
    ProtoImpl.LINE_WAIT_TIMER]
  split_ifs <;> simp_all

theorem ProtoImpl.timer_wait_task_other (e : Env) (t : ProtoImpl.Task) (d : Double) (s : Timespec)
    (h : t.private_data = ProtoImpl.PrivateData.timer_info d s)
    (hs : t.status ≠ ProtoImpl.TaskStatus.TASK_INIT) (h0 : t.step ≠ 0)
    (h1 : t.step ≠ ProtoImpl.LINE_WAIT_TIMER) :
    ProtoImpl.timer_wait_task e t = some (t, []) := by
  rcases t with ⟨status, step, ex, pd, next⟩
  simp only at h hs h0 h1
  subst h
  simp [ProtoImpl.timer_wait_task, ProtoImpl.TASK_START, hs, h0, h1]

theorem SwitchImpl.task2_func_running (e : Env) (t : SwitchImpl.Task)
    (hs : t.status = SwitchImpl.TaskStatus.TASK_STATUS_RUNNING) :
    SwitchImpl.task2_func e t =
      (if t.data.sleep_wait.wait_sec ≤ elapsed_sec e.now t.data.sleep_wait.start then
         ({ t with status := SwitchImpl.TaskStatus.TASK_STATUS_DONE }, [Line.hello])
       else (t, [])) := by
  simp [SwitchImpl.task2_func, hs]

theorem SwitchImpl.task2_func_init (e : Env) (t : SwitchImpl.Task)
    (hs : t.status = SwitchImpl.TaskStatus.TASK_STATUS_INIT) :
    SwitchImpl.task2_func e t =
      ({ t with
           data := { t.data with sleep_wait := { t.data.sleep_wait with start := e.now } },
           status := SwitchImpl.TaskStatus.TASK_STATUS_RUNNING },
       [Line.begin_wait_sec t.data.sleep_wait.wait_sec]) := by
  simp [SwitchImpl.task2_func, hs]

theorem SwitchImpl.task2_func_started (e0 : Timespec) (D : Double) (e : Env) (t : SwitchImpl.Task)
    (h : t.status ≠ SwitchImpl.TaskStatus.TASK_STATUS_INIT ∧
      t.data.sleep_wait.start = e0 ∧ t.data.sleep_wait.wait_sec = D) :
    (SwitchImpl.task2_func e t).1.status ≠ SwitchImpl.TaskStatus.TASK_STATUS_INIT ∧
    (SwitchImpl.task2_func e t).1.data.sleep_wait.start = e0 ∧
    (SwitchImpl.task2_func e t).1.data.sleep_wait.wait_sec = D := by
  rcases t with ⟨status, ⟨fw, ⟨ws, st⟩⟩, func, next⟩
  cases status <;> simp only [SwitchImpl.task2_func] <;> (try split_ifs) <;> simp_all

theorem ProtoImpl.timer_wait_task_started (e0 : Timespec) (D : Double) (e : Env) (t : ProtoImpl.Task)
    (h : t.status ≠ ProtoImpl.TaskStatus.TASK_INIT ∧ t.step = ProtoImpl.LINE_WAIT_TIMER ∧
      t.private_data = ProtoImpl.PrivateData.timer_info D e0) :
    ProtoImpl.timer_wait_task e t = some ((ProtoImpl.timer_wait_task e t).getD (t, [])) ∧
    (((ProtoImpl.timer_wait_task e t).getD (t, [])).1.status ≠ ProtoImpl.TaskStatus.TASK_INIT ∧
     ((ProtoImpl.timer_wait_task e t).getD (t, [])).1.step = ProtoImpl.LINE_WAIT_TIMER ∧
     ((ProtoImpl.timer_wait_task e t).getD (t, [])).1.private_data =
        ProtoImpl.PrivateData.timer_info D e0) := by
  rw [ProtoImpl.timer_wait_task_wait e t D e0 h.2.2 h.1 h.2.1]
  split_ifs
  · exact ⟨rfl, by simp, h.2.1, h.2.2⟩
  · exact ⟨rfl, h.1, h.2.1, h.2.2⟩

/-- The comparison the timer makes, against the exact elapsed time: for clock readings
whose seconds differ by at most `2^53` and whose nanoseconds differ by less than `10^9`,
the computed comparison `d <= elapsed` can only succeed when the exact elapsed time `e`
is at least `d - (|e| + 1) / 2^53`, and it does succeed when `e` is at least
`d + (|e| + 1) / 2^53`. -/
theorem timer_condition_vs_exact (now start : Timespec) (d : Double)
    (hs : (now.tv_sec - start.tv_sec).natAbs ≤ 2 ^ 53)
    (hn : (now.tv_nsec - start.tv_nsec).natAbs < 1000000000) :
    (d ≤ elapsed_sec now start →
      d.to_rat - (|elapsed_exact now start| + 1) / 2 ^ 53 ≤ elapsed_exact now start) ∧
    (d.is_nan = false →
      d.to_rat + (|elapsed_exact now start| + 1) / 2 ^ 53 ≤ elapsed_exact now start →
      d ≤ elapsed_sec now start) := by
  obtain ⟨h1, -, h3⟩ := elapsed_sec_spec now start hs hn
  rw [abs_le] at h3
  constructor
  · intro h
    have := ((Double.le_iff _ _).1 h).2.2
    linarith [h3.2]
  · intro hd h
    rw [Double.le_iff]
    exact ⟨hd, h1, by linarith [h3.1]⟩

/-- C6 (amended): the timer task of either program.  Start from a Pending task and call
the step function in arbitrary worlds, the first being `env0`: the task is then no longer
Pending, its duration is the configured one and its `start` is the clock reading of the
first invocation (in `src/src/main.c` the run is defined and `step` is at the label the
first invocation set).  An invocation on an Active task in such a state prints `hello`
if and only if the comparison `elapsed >= wait_sec` of the program succeeds, where
`elapsed` is `elapsed_sec`, the value of
`(now.tv_sec - start.tv_sec) + (now.tv_nsec - start.tv_nsec) / 1e9` computed in `long`
and `double` arithmetic; it sets status Complete if and only if this holds; if it does
not hold, the task is returned unchanged and nothing is printed.  Against the exact
elapsed time `e` (`elapsed_exact`), for clock readings whose seconds differ by at most
`2^53` and whose nanoseconds differ by less than `10^9`: `hello` is printed only if
`e ≥ D - (|e| + 1) / 2^53`, and it is printed whenever `e ≥ D + (|e| + 1) / 2^53`
(`D` the value of the duration, which is not a NaN). -/
theorem C6_timer_completes_iff_elapsed_ge_duration
    (env0 env : Env) (envs : List Env)
    (pA tA : SwitchImpl.Task)
    (hpA : pA.status = SwitchImpl.TaskStatus.TASK_STATUS_INIT)
    (htA : tA.status = SwitchImpl.TaskStatus.TASK_STATUS_RUNNING)
    (pB tB : ProtoImpl.Task) (d0 d : Double) (s0 s : Timespec)
    (hpB : pB.status = ProtoImpl.TaskStatus.TASK_INIT)
    (hpdB : pB.private_data = ProtoImpl.PrivateData.timer_info d0 s0)
    (htB : tB.status = ProtoImpl.TaskStatus.TASK_RUNNING)
    (hstep : tB.step = ProtoImpl.LINE_WAIT_TIMER)
    (htdB : tB.private_data = ProtoImpl.PrivateData.timer_info d s) :
    (((last_state pA (run_steps SwitchImpl.task2_func (env0 :: envs) pA)).status ≠
        SwitchImpl.TaskStatus.TASK_STATUS_INIT ∧
      (last_state pA (run_steps SwitchImpl.task2_func (env0 :: envs) pA)).data.sleep_wait.start
        = env0.now ∧
      (last_state pA (run_steps SwitchImpl.task2_func (env0 :: envs) pA)).data.sleep_wait.wait_sec
        = pA.data.sleep_wait.wait_sec) ∧
     (Line.hello ∈ (SwitchImpl.task2_func env tA).2 ↔
        elapsed_sec env.now tA.data.sleep_wait.start ≥ tA.data.sleep_wait.wait_sec) ∧
     ((SwitchImpl.task2_func env tA).1.status = SwitchImpl.TaskStatus.TASK_STATUS_DONE ↔
        elapsed_sec env.now tA.data.sleep_wait.start ≥ tA.data.sleep_wait.wait_sec) ∧
     (¬ (elapsed_sec env.now tA.data.sleep_wait.start ≥ tA.data.sleep_wait.wait_sec) →
        SwitchImpl.task2_func env tA = (tA, [])) ∧
     ((env.now.tv_sec - tA.data.sleep_wait.start.tv_sec).natAbs ≤ 2 ^ 53 →
      (env.now.tv_nsec - tA.data.sleep_wait.start.tv_nsec).natAbs < 1000000000 →
        (Line.hello ∈ (SwitchImpl.task2_func env tA).2 →
          tA.data.sleep_wait.wait_sec.to_rat -
              (|elapsed_exact env.now tA.data.sleep_wait.start| + 1) / 2 ^ 53 ≤
            elapsed_exact env.now tA.data.sleep_wait.start) ∧
        (tA.data.sleep_wait.wait_sec.is_nan = false →
          tA.data.sleep_wait.wait_sec.to_rat +
              (|elapsed_exact env.now tA.data.sleep_wait.start| + 1) / 2 ^ 53 ≤
            elapsed_exact env.now tA.data.sleep_wait.start →
          Line.hello ∈ (SwitchImpl.task2_func env tA).2))) ∧
    ((∃ tr, run_steps_opt ProtoImpl.timer_wait_task (env0 :: envs) pB = some tr ∧
        (last_state pB tr).status ≠ ProtoImpl.TaskStatus.TASK_INIT ∧
        (last_state pB tr).step = ProtoImpl.LINE_WAIT_TIMER ∧
        (last_state pB tr).private_data = ProtoImpl.PrivateData.timer_info d0 env0.now) ∧
     (∃ r, ProtoImpl.timer_wait_task env tB = some r ∧
        (Line.hello ∈ r.2 ↔ elapsed_sec env.now s ≥ d) ∧
        (r.1.status = ProtoImpl.TaskStatus.TASK_FINISHED ↔ elapsed_sec env.now s ≥ d) ∧
        (¬ (elapsed_sec env.now s ≥ d) → r = (tB, [])) ∧
        ((env.now.tv_sec - s.tv_sec).natAbs ≤ 2 ^ 53 →
         (env.now.tv_nsec - s.tv_nsec).natAbs < 1000000000 →
          (Line.hello ∈ r.2 →
            d.to_rat - (|elapsed_exact env.now s| + 1) / 2 ^ 53 ≤ elapsed_exact env.now s) ∧
          (d.is_nan = false →
            d.to_rat + (|elapsed_exact env.now s| + 1) / 2 ^ 53 ≤ elapsed_exact env.now s →
            Line.hello ∈ r.2)))) := by
  have hAiff : Line.hello ∈ (SwitchImpl.task2_func env tA).2 ↔
      elapsed_sec env.now tA.data.sleep_wait.start ≥ tA.data.sleep_wait.wait_sec := by
    rw [SwitchImpl.task2_func_running env tA htA]
    split_ifs with h <;> simp [h]
  have hs : tB.status ≠ ProtoImpl.TaskStatus.TASK_INIT := by rw [htB]; decide
  have hBeq := ProtoImpl.timer_wait_task_wait env tB d s htdB hs hstep
  have hBiff : Line.hello ∈ (if d ≤ elapsed_sec env.now s then
        (({ tB with status := ProtoImpl.TaskStatus.TASK_FINISHED } : ProtoImpl.Task),
          [Line.hello])
      else (tB, [])).2 ↔ elapsed_sec env.now s ≥ d := by
    split_ifs with h <;> simp [h]
  refine ⟨⟨?_, hAiff, ?_, ?_, ?_⟩, ⟨?_, ?_⟩⟩
  · have h1 : (SwitchImpl.task2_func env0 pA).1.status ≠ SwitchImpl.TaskStatus.TASK_STATUS_INIT ∧
        (SwitchImpl.task2_func env0 pA).1.data.sleep_wait.start = env0.now ∧
        (SwitchImpl.task2_func env0 pA).1.data.sleep_wait.wait_sec
          = pA.data.sleep_wait.wait_sec := by
      rw [SwitchImpl.task2_func_init env0 pA hpA]
      simp
    exact run_steps_last_inv SwitchImpl.task2_func _
      (fun e t ht => SwitchImpl.task2_func_started env0.now pA.data.sleep_wait.wait_sec e t ht)
      envs _ h1
  · rw [SwitchImpl.task2_func_running env tA htA]
    split_ifs with h <;> simp [h, htA]
  · rw [SwitchImpl.task2_func_running env tA htA]
    intro h
    rw [if_neg h]
  · intro hsec hnsec
    obtain ⟨h1, h2⟩ := timer_condition_vs_exact env.now tA.data.sleep_wait.start
      tA.data.sleep_wait.wait_sec hsec hnsec
    exact ⟨fun hh => h1 (hAiff.1 hh), fun hd hx => hAiff.2 (h2 hd hx)⟩
  · have h0 := ProtoImpl.timer_wait_task_init env0 pB d0 s0 hpdB hpB
    have hinv : ((ProtoImpl.timer_wait_task env0 pB).getD (pB, [])).1.status ≠
          ProtoImpl.TaskStatus.TASK_INIT ∧
        ((ProtoImpl.timer_wait_task env0 pB).getD (pB, [])).1.step =
          ProtoImpl.LINE_WAIT_TIMER ∧
        ((ProtoImpl.timer_wait_task env0 pB).getD (pB, [])).1.private_data =
          ProtoImpl.PrivateData.timer_info d0 env0.now := by
      rw [h0]
      exact ⟨by simp, rfl, rfl⟩
    have hrun := run_steps_opt_eq_some ProtoImpl.timer_wait_task
      (fun e t => (ProtoImpl.timer_wait_task e t).getD (t, [])) _
      (fun e t ht => ProtoImpl.timer_wait_task_started env0.now d0 e t ht) envs _ hinv
    have hlast := run_steps_last_inv
      (fun e t => (ProtoImpl.timer_wait_task e t).getD (t, [])) _
      (fun e t ht => (ProtoImpl.timer_wait_task_started env0.now d0 e t ht).2) envs _ hinv
    rw [h0] at hrun hlast
    simp only [Option.getD_some] at hrun hlast
    have hfull : run_steps_opt ProtoImpl.timer_wait_task (env0 :: envs) pB =
        some (run_steps (fun e t => (ProtoImpl.timer_wait_task e t).getD (t, []))
          (env0 :: envs) pB) := by
      simp only [run_steps_opt, run_steps, h0, Option.getD_some, hrun]
    refine ⟨_, hfull, ?_⟩
    simpa only [run_steps, last_state, h0, Option.getD_some] using hlast
  · refine ⟨_, hBeq, hBiff, ?_, ?_, ?_⟩
    · split_ifs with h <;> simp [h, htB]
    · intro h
      rw [if_neg h]
    · intro hsec hnsec
      obtain ⟨h1, h2⟩ := timer_condition_vs_exact env.now s d hsec hnsec
      exact ⟨fun hh => h1 (hBiff.1 hh), fun hd hx => hBiff.2 (h2 hd hx)⟩

theorem Double.to_rat_of_expo (x : Double) (k : Nat) (hk : x.expo.val = k + 1)
    (hk2 : k ≤ 1074) :
    x.to_rat = (if x.sign then -((4503599627370496 + x.frac.val : Nat) : ℚ)
      else ((4503599627370496 + x.frac.val : Nat) : ℚ)) / 2 ^ (1074 - k) := by
  have hmag : x.mag = (4503599627370496 + x.frac.val) * 2 ^ k := by
    unfold Double.mag
    rw [if_neg (by omega), hk, Nat.add_sub_cancel, Double.shl_eq]
  have hpow : (2 : ℚ) ^ 1074 = 2 ^ k * 2 ^ (1074 - k) := by
    rw [← pow_add]
    congr 1
    omega
  have hk0 : (0 : ℚ) < 2 ^ k := by positivity
  have hk1 : (0 : ℚ) < 2 ^ (1074 - k) := by positivity
  rw [Double.to_rat_eq, hmag, hpow, Nat.cast_mul, Nat.cast_pow, Nat.cast_ofNat]
  generalize (2 : ℚ) ^ k = a at *
  generalize (2 : ℚ) ^ (1074 - k) = b at *
  split_ifs <;> field_simp <;> ring

set_option maxRecDepth 100000 in
theorem main_wait_sec_one : main_wait_sec 1 = ⟨false, 1024, 225179981368525⟩ := by decide

theorem main_wait_sec_one_to_rat :
    (main_wait_sec 1).to_rat = 4728779608739021 / 2251799813685248 := by
  rw [main_wait_sec_one, Double.to_rat_of_expo _ 1023 rfl (by norm_num)]
  simp only [Bool.false_eq_true, if_false]
  rw [show ((225179981368525 : Fin 4503599627370496).val) = 225179981368525 from rfl]
  norm_num

theorem clock_after_origin : clock_after ⟨0, 0⟩ 0 = ⟨0, 0⟩ := by decide

theorem clock_after_21_ticks : clock_after ⟨0, 0⟩ 2100000000 = ⟨2, 100000000⟩ := by decide

set_option maxRecDepth 100000 in
theorem elapsed_sec_21_ticks : elapsed_sec ⟨2, 100000000⟩ ⟨0, 0⟩ = main_wait_sec 1 := by decide

theorem main_wait_sec_one_le_self : main_wait_sec 1 ≤ main_wait_sec 1 := by
  rw [main_wait_sec_one]
  decide

/-- C6 (the claim at a concrete input): the wait duration is `2.0 + 1 / 10.0`, as `main`
draws it when `rand() % 40` is 1; the first invocation reads the clock at 0 s and a later
invocation reads it at 2 s + 100000000 ns (tick 21 of a 100 ms polling interval).  The
exact elapsed time is `21/10`, which is below the duration, the `double`
`4728779608739021 / 2^51`; the elapsed time the program computes is that same `double`,
so in both programs the invocation prints `hello` and makes the task Complete. -/
theorem C6_exact_elapsed_below_duration_counterexample :
    (tick_env ⟨0, 0⟩ 100000000 0).now = ⟨0, 0⟩ ∧
    (tick_env ⟨0, 0⟩ 100000000 21).now = ⟨2, 100000000⟩ ∧
    elapsed_exact ⟨2, 100000000⟩ ⟨0, 0⟩ = 21 / 10 ∧
    (main_wait_sec 1).to_rat = 4728779608739021 / 2251799813685248 ∧
    elapsed_exact ⟨2, 100000000⟩ ⟨0, 0⟩ < (main_wait_sec 1).to_rat ∧
    elapsed_sec ⟨2, 100000000⟩ ⟨0, 0⟩ = main_wait_sec 1 ∧
    run_steps SwitchImpl.task2_func
        [tick_env ⟨0, 0⟩ 100000000 0, tick_env ⟨0, 0⟩ 100000000 21]
        (SwitchImpl.task2_init (main_wait_sec 1)) =
      [(SwitchImpl.task2_running (main_wait_sec 1),
          [Line.begin_wait_sec (main_wait_sec 1)]),
       ({ SwitchImpl.task2_running (main_wait_sec 1) with
            status := SwitchImpl.TaskStatus.TASK_STATUS_DONE }, [Line.hello])] ∧
    run_steps_opt ProtoImpl.timer_wait_task
        [tick_env ⟨0, 0⟩ 100000000 0, tick_env ⟨0, 0⟩ 100000000 21]
        (ProtoImpl.timer_task_init (main_wait_sec 1)) =
      some [(ProtoImpl.timer_task_running (main_wait_sec 1),
          [Line.begin_wait_sec (main_wait_sec 1)]),
       (ProtoImpl.timer_task_done (main_wait_sec 1), [Line.hello])] := by
  have hex : elapsed_exact ⟨2, 100000000⟩ ⟨0, 0⟩ = 21 / 10 := by
    norm_num [elapsed_exact]
  refine ⟨by decide, by decide, hex, main_wait_sec_one_to_rat, ?_, elapsed_sec_21_ticks,
    ?_, ?_⟩
  · rw [hex, main_wait_sec_one_to_rat]
    norm_num
  · simp [run_steps, SwitchImpl.task2_func, SwitchImpl.task2_init, SwitchImpl.task2_running,
      tick_env, clock_after_origin, clock_after_21_ticks, elapsed_sec_21_ticks,
      main_wait_sec_one_le_self]
  · simp [run_steps_opt, ProtoImpl.timer_wait_task, ProtoImpl.TASK_START, ProtoImpl.TASK_FINISH,
      ProtoImpl.timer_task_init, ProtoImpl.timer_task_running, ProtoImpl.timer_task_done,
      ProtoImpl.LINE_WAIT_TIMER, tick_env, clock_after_origin, clock_after_21_ticks,
      elapsed_sec_21_ticks, main_wait_sec_one_le_self]

theorem C6_timer_completes_iff_elapsed_ge_duration_witness :
    (SwitchImpl.task2_init Double.lit_2_0).status = SwitchImpl.TaskStatus.TASK_STATUS_INIT ∧
    (SwitchImpl.task2_running Double.lit_2_0).status =
      SwitchImpl.TaskStatus.TASK_STATUS_RUNNING ∧
    (ProtoImpl.timer_task_init Double.lit_2_0).status = ProtoImpl.TaskStatus.TASK_INIT ∧
    (ProtoImpl.timer_task_running Double.lit_2_0).status = ProtoImpl.TaskStatus.TASK_RUNNING ∧
    (ProtoImpl.timer_task_running Double.lit_2_0).step = ProtoImpl.LINE_WAIT_TIMER ∧
    Line.hello ∈ (SwitchImpl.task2_func (env_ready 3) (SwitchImpl.task2_running Double.lit_2_0)).2 ∧
    (∃ r, ProtoImpl.timer_wait_task (env_ready 3) (ProtoImpl.timer_task_running Double.lit_2_0)
        = some r ∧ Line.hello ∈ r.2) := by
  obtain ⟨⟨-, hA, -, -, -⟩, -, r, hr, hB, -, -, -⟩ :=
    C6_timer_completes_iff_elapsed_ge_duration (env_ready 0) (env_ready 3) [env_ready 1]
      (SwitchImpl.task2_init Double.lit_2_0) (SwitchImpl.task2_running Double.lit_2_0) rfl rfl
      (ProtoImpl.timer_task_init Double.lit_2_0) (ProtoImpl.timer_task_running Double.lit_2_0)
      Double.lit_2_0 Double.lit_2_0
      { tv_sec := 0, tv_nsec := 0 } { tv_sec := 0, tv_nsec := 0 } rfl rfl rfl rfl rfl
  exact ⟨rfl, rfl, rfl, rfl, rfl, hA.2 two_le_elapsed_sec_three, r, hr,
    hB.2 two_le_elapsed_sec_three⟩

/-! ## Polling at a fixed tick -/

theorem run_steps_append {σ : Type} (f : Env → σ → σ × List Line) :
    ∀ (l1 l2 : List Env) (t : σ),
      run_steps f (l1 ++ l2) t =
        run_steps f l1 t ++ run_steps f l2 (last_state t (run_steps f l1 t)) := by
  intro l1
  induction l1 with
  | nil => intro l2 t; rfl
  | cons e es ih =>
      intro l2 t
      simp [run_steps, last_state, ih]

theorem last_state_append {σ : Type} :
    ∀ (tr1 tr2 : List (σ × List Line)) (t : σ),
      last_state t (tr1 ++ tr2) = last_state (last_state t tr1) tr2 := by
  intro tr1
  induction tr1 with
  | nil => intro tr2 t; rfl
  | cons r tr ih =>
      intro tr2 t
      simp [last_state, ih]

theorem last_state_range_succ {σ : Type} (f : Env → σ → σ × List Line) (w : Nat → Env)
    (t : σ) (n : Nat) :
    last_state t (run_steps f ((List.range (n + 1)).map w) t) =
      (f (w n) (last_state t (run_steps f ((List.range n).map w) t))).1 := by
  rw [List.range_succ, List.map_append, run_steps_append, last_state_append]
  simp [run_steps, last_state]

/-- A task that turns from `t` into `r` at its first invocation, from `r` into `d` at the
first later invocation `n` at which `P n` holds, and then stays `d`: its state after `n`
invocations is `d` exactly when `n` is beyond the first index `k` with `P k`. -/
theorem tick_run {σ : Type} (f : Env → σ → σ × List Line) (w : Nat → Env) (t r d : σ)
    (P : Nat → Prop) [DecidablePred P] (k : Nat) (hk1 : 1 ≤ k) (hk2 : P k)
    (hk3 : ∀ n : Nat, 1 ≤ n → n < k → ¬ P n)
    (h0 : (f (w 0) t).1 = r)
    (hr : ∀ n : Nat, 1 ≤ n → (f (w n) r).1 = if P n then d else r)
    (hd : ∀ e, (f e d).1 = d) :
    ∀ n : Nat, 1 ≤ n →
      last_state t (run_steps f ((List.range n).map w) t) = if k < n then d else r := by
  intro n hn
  induction n with
  | zero => omega
  | succ n ih =>
      rw [last_state_range_succ]
      rcases Nat.eq_zero_or_pos n with h | h
      · subst h
        have : ¬ k < 0 + 1 := by omega
        simp only [List.range_zero, List.map_nil, run_steps, last_state, this, if_false]
        exact h0
      · rw [ih h]
        by_cases hkn : k < n
        · have : k < n + 1 := by omega
          simp [hkn, this, hd]
        · rw [if_neg hkn, hr n h]
          by_cases hnk : n = k
          · subst hnk
            simp [hk2]
          · have h1 : n < k := by omega
            have h2 : ¬ k < n + 1 := by omega
            simp [hk3 n h h1, h2]

theorem ProtoImpl.timer_visit_eq (e : Env) (t : ProtoImpl.Task) (d : Double)
    (h : ∃ s, t.private_data = ProtoImpl.PrivateData.timer_info d s) :
    ProtoImpl.sched_visit ProtoImpl.timer_wait_task e t = some (ProtoImpl.timer_visit e t) ∧
    ∃ s, (ProtoImpl.timer_visit e t).1.private_data = ProtoImpl.PrivateData.timer_info d s := by
  obtain ⟨s, h⟩ := h
  obtain ⟨r, hr, -, -, hpd⟩ := ProtoImpl.timer_wait_task_frame e t d s h
  unfold ProtoImpl.timer_visit ProtoImpl.sched_visit
  split_ifs
  · rw [hr]
    exact ⟨rfl, hpd⟩
  · exact ⟨rfl, s, h⟩

theorem ProtoImpl.timer_visit_finished (e : Env) (t : ProtoImpl.Task)
    (h : t.status = ProtoImpl.TaskStatus.TASK_FINISHED) :
    ProtoImpl.timer_visit e t = (t, []) := by
  simp [ProtoImpl.timer_visit, ProtoImpl.sched_visit, h]

theorem ProtoImpl.timer_visit_unfinished (e : Env) (t : ProtoImpl.Task)
    (h : t.status ≠ ProtoImpl.TaskStatus.TASK_FINISHED) :
    ProtoImpl.timer_visit e t = (ProtoImpl.timer_wait_task e t).getD (t, []) := by
  simp [ProtoImpl.timer_visit, ProtoImpl.sched_visit, h]

theorem SwitchImpl.visit_done (f : Env → SwitchImpl.Task → SwitchImpl.Task × List Line)
    (e : Env) (t : SwitchImpl.Task) (h : t.status = SwitchImpl.TaskStatus.TASK_STATUS_DONE) :
    SwitchImpl.sched_visit f e t = (t, []) := by
  simp [SwitchImpl.sched_visit, h]

theorem SwitchImpl.visit_not_done (f : Env → SwitchImpl.Task → SwitchImpl.Task × List Line)
    (e : Env) (t : SwitchImpl.Task) (h : t.status ≠ SwitchImpl.TaskStatus.TASK_STATUS_DONE) :
    SwitchImpl.sched_visit f e t = f e t := by
  simp [SwitchImpl.sched_visit, h]

/-- The timer task of `src/main.c`, polled as the scheduler does in worlds `w 0, w 1, ...`:
if `k ≥ 1` is the first invocation at which the comparison with the duration `D`
succeeds, the task is Complete after `n` invocations exactly when `k < n`. -/
theorem SwitchImpl.timer_tick_run (w : Nat → Env) (D : Double) (k : Nat) (hk1 : 1 ≤ k)
    (hk2 : D ≤ elapsed_sec (w k).now (w 0).now)
    (hk3 : ∀ n : Nat, 1 ≤ n → n < k → ¬ D ≤ elapsed_sec (w n).now (w 0).now)
    (tA : SwitchImpl.Task) (hA : tA.status = SwitchImpl.TaskStatus.TASK_STATUS_INIT)
    (hDA : tA.data.sleep_wait.wait_sec = D) :
    ∀ n : Nat,
      (last_state tA (run_steps (SwitchImpl.sched_visit SwitchImpl.task2_func)
          ((List.range n).map w) tA)).status = SwitchImpl.TaskStatus.TASK_STATUS_DONE ↔
        k < n := by
  have hrun := tick_run (SwitchImpl.sched_visit SwitchImpl.task2_func) w tA
    (SwitchImpl.task2_func (w 0) tA).1
    { (SwitchImpl.task2_func (w 0) tA).1 with status := SwitchImpl.TaskStatus.TASK_STATUS_DONE }
    (fun n => D ≤ elapsed_sec (w n).now (w 0).now) k hk1 hk2 hk3
    (by rw [SwitchImpl.visit_not_done _ _ _ (by rw [hA]; decide)])
    (by
      intro n _
      rw [SwitchImpl.visit_not_done _ _ _
        (by rw [SwitchImpl.task2_func_init _ _ hA]; simp)]
      rw [SwitchImpl.task2_func_running _ _ (by rw [SwitchImpl.task2_func_init _ _ hA])]
      have h1 : (SwitchImpl.task2_func (w 0) tA).1.data.sleep_wait.wait_sec = D := by
        rw [SwitchImpl.task2_func_init _ _ hA]; exact hDA
      have h2 : (SwitchImpl.task2_func (w 0) tA).1.data.sleep_wait.start = (w 0).now := by
        rw [SwitchImpl.task2_func_init _ _ hA]
      rw [h1, h2]
      beta_reduce
      split_ifs <;> rfl)
    (by intro e; rw [SwitchImpl.visit_done _ _ _ rfl])
  intro n
  rcases Nat.eq_zero_or_pos n with h | h
  · subst h
    simp [run_steps, last_state, hA]
  · rw [hrun n h]
    split_ifs with hkn
    · simp [hkn]
    · simp [hkn, SwitchImpl.task2_func_init _ _ hA]

/-- The timer task of `src/src/main.c`, polled as the scheduler does in worlds
`w 0, w 1, ...`: the run is defined, and if `k ≥ 1` is the first invocation at which the
comparison with the duration `D` succeeds, the task is Complete after `n` invocations
exactly when `k < n`. -/
theorem ProtoImpl.proto_timer_tick_run (w : Nat → Env) (D : Double) (k : Nat) (hk1 : 1 ≤ k)
    (hk2 : D ≤ elapsed_sec (w k).now (w 0).now)
    (hk3 : ∀ n : Nat, 1 ≤ n → n < k → ¬ D ≤ elapsed_sec (w n).now (w 0).now)
    (tB : ProtoImpl.Task) (s0 : Timespec) (hB : tB.status = ProtoImpl.TaskStatus.TASK_INIT)
    (hDB : tB.private_data = ProtoImpl.PrivateData.timer_info D s0) :
    ∀ n : Nat, ∃ tr,
      run_steps_opt (ProtoImpl.sched_visit ProtoImpl.timer_wait_task)
          ((List.range n).map w) tB = some tr ∧
      ((last_state tB tr).status = ProtoImpl.TaskStatus.TASK_FINISHED ↔ k < n) := by
  have hstep0 := ProtoImpl.timer_wait_task_init (w 0) tB D s0 hDB hB
  have hrun := tick_run ProtoImpl.timer_visit w tB
    { tB with private_data := ProtoImpl.PrivateData.timer_info D (w 0).now,
              step := ProtoImpl.LINE_WAIT_TIMER,
              status := ProtoImpl.TaskStatus.TASK_RUNNING }
    { tB with private_data := ProtoImpl.PrivateData.timer_info D (w 0).now,
              step := ProtoImpl.LINE_WAIT_TIMER,
              status := ProtoImpl.TaskStatus.TASK_FINISHED }
    (fun n => D ≤ elapsed_sec (w n).now (w 0).now) k hk1 hk2 hk3
    (by rw [ProtoImpl.timer_visit_unfinished _ _ (by rw [hB]; decide), hstep0]; rfl)
    (by
      intro n _
      rw [ProtoImpl.timer_visit_unfinished _ _ (by simp),
        ProtoImpl.timer_wait_task_wait (w n) _ D (w 0).now rfl (by simp) rfl]
      beta_reduce
      split_ifs <;> rfl)
    (by intro e; rw [ProtoImpl.timer_visit_finished _ _ rfl])
  intro n
  have hopt := run_steps_opt_eq_some (ProtoImpl.sched_visit ProtoImpl.timer_wait_task)
    ProtoImpl.timer_visit
    (fun t => ∃ s, t.private_data = ProtoImpl.PrivateData.timer_info D s)
    (fun e t ht => ProtoImpl.timer_visit_eq e t D ht) ((List.range n).map w) tB ⟨s0, hDB⟩
  refine ⟨_, hopt, ?_⟩
  rcases Nat.eq_zero_or_pos n with h | h
  · subst h
    simp [run_steps, last_state, hB]
  · rw [hrun n h]
    split_ifs with hkn
    · simp [hkn]
    · simp [hkn]

/-- C7 (amended): polling at a fixed tick.  The timer task (duration `D`, not a NaN, of
value at most `2^50`) is newly registered; its first invocation reads the clock at `t0`
(a normalised `timespec`) and invocation number `k`, counted from 0, reads it `k * T`
nanoseconds later, `0 < T ≤ 2^50 s`; it is polled as the scheduler does.  Then in both
programs there is an invocation `k ≥ 1` after which the task is Complete and before which
it is not (the task is Complete after `n` invocations exactly when `k < n`).  It is the
first invocation at which the elapsed time computed by the program (`elapsed_sec`) is at
least `D`.  Its exact elapsed time `e` is `k * T / 10^9`; if `D > 0` then
`D - (e + 1) / 2^53 ≤ e < D + T / 10^9 + (e + 1) / 2^53`; if `D ≤ 0` it is the second
invocation (`k = 1`). -/
theorem C7_timer_completes_within_one_tick
    (t0 : Timespec) (T : Nat) (D : Double) (w : Nat → Env)
    (ht0 : 0 ≤ t0.tv_nsec ∧ t0.tv_nsec < 1000000000)
    (hT : 0 < T) (hTmax : T ≤ 1000000000 * 2 ^ 50)
    (hD : D.is_nan = false) (hDmax : D.to_rat ≤ 2 ^ 50)
    (hw : ∀ k : Nat, (w k).now = clock_after t0 (k * T))
    (tA : SwitchImpl.Task) (hA : tA.status = SwitchImpl.TaskStatus.TASK_STATUS_INIT)
    (hDA : tA.data.sleep_wait.wait_sec = D)
    (tB : ProtoImpl.Task) (s0 : Timespec) (hB : tB.status = ProtoImpl.TaskStatus.TASK_INIT)
    (hDB : tB.private_data = ProtoImpl.PrivateData.timer_info D s0) :
    ∃ k : Nat, 1 ≤ k ∧
      (∀ n : Nat,
        (last_state tA (run_steps (SwitchImpl.sched_visit SwitchImpl.task2_func)
            ((List.range n).map w) tA)).status = SwitchImpl.TaskStatus.TASK_STATUS_DONE ↔ k < n) ∧
      (∀ n : Nat, ∃ tr,
        run_steps_opt (ProtoImpl.sched_visit ProtoImpl.timer_wait_task)
            ((List.range n).map w) tB = some tr ∧
        ((last_state tB tr).status = ProtoImpl.TaskStatus.TASK_FINISHED ↔ k < n)) ∧
      D ≤ elapsed_sec (w k).now (w 0).now ∧
      (∀ j : Nat, 1 ≤ j → j < k → ¬ D ≤ elapsed_sec (w j).now (w 0).now) ∧
      elapsed_exact (w k).now (w 0).now = ((k * T : Nat) : ℚ) / 1000000000 ∧
      (0 < D.to_rat →
        D.to_rat - (elapsed_exact (w k).now (w 0).now + 1) / 2 ^ 53 ≤
          elapsed_exact (w k).now (w 0).now ∧
        elapsed_exact (w k).now (w 0).now <
          D.to_rat + (T : ℚ) / 1000000000 +
            (elapsed_exact (w k).now (w 0).now + 1) / 2 ^ 53) ∧
      (D.to_rat ≤ 0 → k = 1) := by
  have hw0 : (w 0).now = t0 := by
    rw [hw 0, Nat.zero_mul, clock_after_zero t0 ht0]
  obtain ⟨k, hk1, hk2, hk3, hk4, hk5⟩ := tick_completion t0 T D ht0 hT hTmax hD hDmax
  have hk2w : D ≤ elapsed_sec (w k).now (w 0).now := by
    rw [hw0, hw k]
    exact hk2
  have hk3w : ∀ j : Nat, 1 ≤ j → j < k → ¬ D ≤ elapsed_sec (w j).now (w 0).now := by
    intro j hj1 hjk
    rw [hw0, hw j]
    exact hk3 j hj1 hjk
  have hex : elapsed_exact (w k).now (w 0).now = ((k * T : Nat) : ℚ) / 1000000000 := by
    rw [hw0, hw k, clock_after_exact]
  refine ⟨k, hk1, SwitchImpl.timer_tick_run w D k hk1 hk2w hk3w tA hA hDA,
    ProtoImpl.proto_timer_tick_run w D k hk1 hk2w hk3w tB s0 hB hDB, hk2w, hk3w, hex, ?_, hk5⟩
  intro hpos
  rw [hex]
  exact hk4 hpos

theorem Double.to_rat_lit_2_0 : Double.lit_2_0.to_rat = 2 := by
  rw [Double.to_rat_of_expo _ 1023 rfl (by norm_num)]
  simp only [Double.lit_2_0, Bool.false_eq_true, if_false]
  rw [show ((0 : Fin 4503599627370496).val) = 0 from rfl]
  norm_num

theorem tick_env_now (t0 : Timespec) (T k : Nat) :
    (tick_env t0 T k).now = clock_after t0 (k * T) := rfl

set_option maxRecDepth 100000 in
theorem zero_le_elapsed_sec_one : Double.zero ≤ elapsed_sec ⟨1, 0⟩ ⟨0, 0⟩ := by decide

theorem clock_after_one_second : clock_after ⟨0, 0⟩ 1000000000 = ⟨1, 0⟩ := by decide

/-- C7 (the claim at concrete inputs), first reading `t0 = 0`.
(a) Duration `D = 0`, tick `T = 1 s`: in both programs the timer task is not Complete
after its first invocation and Complete after its second, which reads the clock at the
exact elapsed time `e = 1 = T`; and `e` is not below `D + T = 1`.
(b) Duration `D = 2.0 + 1 / 10.0` as `main` draws it, tick `T = 100 ms`: in both programs
the task is not Complete after 21 invocations and Complete after 22; the completing
invocation reads the clock at the exact elapsed time `e = 21/10`, which is below `D`,
the `double` `4728779608739021 / 2^51`. -/
theorem C7_completion_outside_window_counterexample :
    ((last_state (SwitchImpl.task2_init Double.zero)
        (run_steps (SwitchImpl.sched_visit SwitchImpl.task2_func)
          ((List.range 1).map (tick_env ⟨0, 0⟩ 1000000000))
          (SwitchImpl.task2_init Double.zero))).status
        = SwitchImpl.TaskStatus.TASK_STATUS_RUNNING ∧
     (last_state (SwitchImpl.task2_init Double.zero)
        (run_steps (SwitchImpl.sched_visit SwitchImpl.task2_func)
          ((List.range 2).map (tick_env ⟨0, 0⟩ 1000000000))
          (SwitchImpl.task2_init Double.zero))).status
        = SwitchImpl.TaskStatus.TASK_STATUS_DONE ∧
     ((run_steps_opt (ProtoImpl.sched_visit ProtoImpl.timer_wait_task)
          ((List.range 1).map (tick_env ⟨0, 0⟩ 1000000000))
          (ProtoImpl.timer_task_init Double.zero)).map
        (fun tr => (last_state (ProtoImpl.timer_task_init Double.zero) tr).status))
        = some ProtoImpl.TaskStatus.TASK_RUNNING ∧
     ((run_steps_opt (ProtoImpl.sched_visit ProtoImpl.timer_wait_task)
          ((List.range 2).map (tick_env ⟨0, 0⟩ 1000000000))
          (ProtoImpl.timer_task_init Double.zero)).map
        (fun tr => (last_state (ProtoImpl.timer_task_init Double.zero) tr).status))
        = some ProtoImpl.TaskStatus.TASK_FINISHED ∧
     elapsed_exact (tick_env ⟨0, 0⟩ 1000000000 1).now (tick_env ⟨0, 0⟩ 1000000000 0).now = 1 ∧
     Double.zero.to_rat = 0 ∧
     ¬ ((1 : ℚ) < Double.zero.to_rat + 1)) ∧
    ((∀ n : Nat,
        (last_state (SwitchImpl.task2_init (main_wait_sec 1))
          (run_steps (SwitchImpl.sched_visit SwitchImpl.task2_func)
            ((List.range n).map (tick_env ⟨0, 0⟩ 100000000))
            (SwitchImpl.task2_init (main_wait_sec 1)))).status
          = SwitchImpl.TaskStatus.TASK_STATUS_DONE ↔ 21 < n) ∧
     (∀ n : Nat, ∃ tr,
        run_steps_opt (ProtoImpl.sched_visit ProtoImpl.timer_wait_task)
            ((List.range n).map (tick_env ⟨0, 0⟩ 100000000))
            (ProtoImpl.timer_task_init (main_wait_sec 1)) = some tr ∧
        ((last_state (ProtoImpl.timer_task_init (main_wait_sec 1)) tr).status
          = ProtoImpl.TaskStatus.TASK_FINISHED ↔ 21 < n)) ∧
     elapsed_exact (tick_env ⟨0, 0⟩ 100000000 21).now (tick_env ⟨0, 0⟩ 100000000 0).now
        = 21 / 10 ∧
     (main_wait_sec 1).to_rat = 4728779608739021 / 2251799813685248 ∧
     ¬ ((main_wait_sec 1).to_rat ≤ 21 / 10)) := by
  have ha1 : elapsed_exact (tick_env ⟨0, 0⟩ 1000000000 1).now
      (tick_env ⟨0, 0⟩ 1000000000 0).now = 1 := by
    rw [tick_env_now, tick_env_now, Nat.zero_mul, clock_after_origin, clock_after_exact]
    norm_num
  have hb1 : elapsed_exact (tick_env ⟨0, 0⟩ 100000000 21).now
      (tick_env ⟨0, 0⟩ 100000000 0).now = 21 / 10 := by
    rw [tick_env_now, tick_env_now, Nat.zero_mul, clock_after_origin, clock_after_exact]
    norm_num
  have hk2 : main_wait_sec 1 ≤ elapsed_sec (tick_env ⟨0, 0⟩ 100000000 21).now
      (tick_env ⟨0, 0⟩ 100000000 0).now := by
    rw [tick_env_now, tick_env_now, Nat.zero_mul, clock_after_origin]
    norm_num only
    rw [clock_after_21_ticks, elapsed_sec_21_ticks]
    exact main_wait_sec_one_le_self
  have hk3 : ∀ n : Nat, 1 ≤ n → n < 21 →
      ¬ main_wait_sec 1 ≤ elapsed_sec (tick_env ⟨0, 0⟩ 100000000 n).now
        (tick_env ⟨0, 0⟩ 100000000 0).now := by
    intro n _ hn
    rw [tick_env_now, tick_env_now, Nat.zero_mul, clock_after_origin, Double.le_iff]
    intro h
    have h1 := h.2.2
    obtain ⟨-, -, -, h2⟩ := elapsed_sec_clock_after ⟨0, 0⟩ (n * 100000000) (by decide) (by omega)
    rw [main_wait_sec_one_to_rat] at h1
    have h3 : ((n * 100000000 : Nat) : ℚ) / 1000000000 ≤ 2 := by
      rw [div_le_iff₀ (by norm_num)]
      have : n * 100000000 ≤ 2 * 1000000000 := by omega
      exact_mod_cast this
    have e53 : (2 : ℚ) ^ 53 = 9007199254740992 := by norm_num
    rw [e53] at h2
    generalize ((n * 100000000 : Nat) : ℚ) / 1000000000 = x at *
    generalize (elapsed_sec (clock_after ⟨0, 0⟩ (n * 100000000)) ⟨0, 0⟩).to_rat = e at *
    norm_num at h1
    linarith
  refine ⟨⟨?_, ?_, ?_, ?_, ha1, Double.to_rat_zero, ?_⟩,
    ⟨SwitchImpl.timer_tick_run _ _ 21 (by norm_num) hk2 hk3 _ rfl rfl,
     ProtoImpl.proto_timer_tick_run _ _ 21 (by norm_num) hk2 hk3 _ ⟨0, 0⟩ rfl rfl,
     hb1, main_wait_sec_one_to_rat, ?_⟩⟩
  · simp [List.range_succ, run_steps, last_state, SwitchImpl.sched_visit, SwitchImpl.task2_func,
      SwitchImpl.task2_init]
  · simp [List.range_succ, run_steps, last_state, SwitchImpl.sched_visit, SwitchImpl.task2_func,
      SwitchImpl.task2_init, tick_env, clock_after_origin, clock_after_one_second,
      zero_le_elapsed_sec_one]
  · simp [List.range_succ, run_steps_opt, last_state, ProtoImpl.sched_visit,
      ProtoImpl.timer_wait_task, ProtoImpl.TASK_START, ProtoImpl.timer_task_init]
  · simp [List.range_succ, run_steps_opt, last_state, ProtoImpl.sched_visit,
      ProtoImpl.timer_wait_task, ProtoImpl.TASK_START, ProtoImpl.TASK_FINISH,
      ProtoImpl.timer_task_init, ProtoImpl.LINE_WAIT_TIMER, tick_env, clock_after_origin,
      clock_after_one_second, zero_le_elapsed_sec_one]
  · rw [Double.to_rat_zero]
    norm_num
  · rw [main_wait_sec_one_to_rat]
    norm_num

theorem C7_timer_completes_within_one_tick_witness :
    ((0 : Int) ≤ (⟨0, 0⟩ : Timespec).tv_nsec ∧ (⟨0, 0⟩ : Timespec).tv_nsec < 1000000000) ∧
    0 < 1000000000 ∧ 1000000000 ≤ 1000000000 * 2 ^ 50 ∧
    Double.lit_2_0.is_nan = false ∧ Double.lit_2_0.to_rat ≤ 2 ^ 50 ∧
    ∃ k : Nat, 1 ≤ k ∧
      (∀ n : Nat,
        (last_state (SwitchImpl.task2_init Double.lit_2_0)
          (run_steps (SwitchImpl.sched_visit SwitchImpl.task2_func)
            ((List.range n).map (tick_env ⟨0, 0⟩ 1000000000))
            (SwitchImpl.task2_init Double.lit_2_0))).status
          = SwitchImpl.TaskStatus.TASK_STATUS_DONE ↔ k < n) ∧
      Double.lit_2_0 ≤ elapsed_sec (tick_env ⟨0, 0⟩ 1000000000 k).now
        (tick_env ⟨0, 0⟩ 1000000000 0).now := by
  have h2 : Double.lit_2_0.to_rat ≤ 2 ^ 50 := by
    rw [Double.to_rat_lit_2_0]
    norm_num
  obtain ⟨k, hk, hA, -, hle, -⟩ :=
    C7_timer_completes_within_one_tick ⟨0, 0⟩ 1000000000 Double.lit_2_0
      (tick_env ⟨0, 0⟩ 1000000000) (by decide) (by norm_num) (by norm_num) (by decide) h2
      (fun k => tick_env_now _ _ k)
      (SwitchImpl.task2_init Double.lit_2_0) rfl rfl
      (ProtoImpl.timer_task_init Double.lit_2_0) { tv_sec := 0, tv_nsec := 0 } rfl rfl
  exact ⟨by decide, by norm_num, by norm_num, by decide, h2, k, hk, hA, hle⟩

/-! ## One invocation: status and resume point -/

theorem SwitchImpl.task1_func_step_facts (e : Env) (t : SwitchImpl.Task) :
    SwitchImpl.TaskStatus.rank t.status ≤
      SwitchImpl.TaskStatus.rank (SwitchImpl.task1_func e t).1.status ∧
    (SwitchImpl.task1_func e t).1.status ≠ SwitchImpl.TaskStatus.TASK_STATUS_INIT ∧
    ((t.status = SwitchImpl.TaskStatus.TASK_STATUS_INIT → t.data.file_wait.step = 0) →
      t.data.file_wait.step ≤ (SwitchImpl.task1_func e t).1.data.file_wait.step) := by
  rcases t with ⟨status, ⟨⟨f1, f2, step⟩, sw⟩, func, next⟩
  cases status <;> simp only [SwitchImpl.task1_func] <;> (try split_ifs) <;>
    simp_all [SwitchImpl.TaskStatus.rank]

theorem SwitchImpl.task2_func_step_facts (e : Env) (t : SwitchImpl.Task) :
    SwitchImpl.TaskStatus.rank t.status ≤
      SwitchImpl.TaskStatus.rank (SwitchImpl.task2_func e t).1.status ∧
    (SwitchImpl.task2_func e t).1.status ≠ SwitchImpl.TaskStatus.TASK_STATUS_INIT ∧
    (SwitchImpl.task2_func e t).1.data.file_wait.step = t.data.file_wait.step := by
  rcases t with ⟨status, ⟨⟨f1, f2, step⟩, sw⟩, func, next⟩
  cases status <;> simp only [SwitchImpl.task2_func] <;> (try split_ifs) <;>
    simp_all [SwitchImpl.TaskStatus.rank]

theorem ProtoImpl.file_wait_task_step_facts (e : Env) (t : ProtoImpl.Task) (a b : String)
    (h : t.private_data = ProtoImpl.PrivateData.file_wait_info a b) :
    ∃ r, ProtoImpl.file_wait_task e t = some r ∧
      ProtoImpl.TaskStatus.rank t.status ≤ ProtoImpl.TaskStatus.rank r.1.status ∧
      r.1.status ≠ ProtoImpl.TaskStatus.TASK_INIT ∧
      r.1.private_data = ProtoImpl.PrivateData.file_wait_info a b ∧
      ((t.status = ProtoImpl.TaskStatus.TASK_INIT → t.step = 0) → t.step ≤ r.1.step) := by
  by_cases hs : t.status = ProtoImpl.TaskStatus.TASK_INIT
  · refine ⟨_, ProtoImpl.file_wait_task_init e t a b h hs, ?_, ?_, h, ?_⟩
    · simp [hs, ProtoImpl.TaskStatus.rank]
    · simp
    · intro h0
      simp [h0 hs, ProtoImpl.LINE_WAIT_A]
  · by_cases h0 : t.step = 0
    · refine ⟨_, ProtoImpl.file_wait_task_step0 e t a b h hs h0, le_refl _, hs, h, ?_⟩
      intro _
      simp [h0, ProtoImpl.LINE_WAIT_A]
    · by_cases h1 : t.step = ProtoImpl.LINE_WAIT_A
      · refine ⟨_, ProtoImpl.file_wait_task_wait_a e t a b h hs h1, ?_⟩
        split_ifs
        · exact ⟨le_refl _, hs, h, fun _ => le_refl _⟩
        · refine ⟨le_refl _, hs, h, fun _ => ?_⟩
          simp [h1, ProtoImpl.LINE_WAIT_A, ProtoImpl.LINE_WAIT_B]
      · by_cases h2 : t.step = ProtoImpl.LINE_WAIT_B
        · refine ⟨_, ProtoImpl.file_wait_task_wait_b e t a b h hs h2, ?_⟩
          split_ifs
          · exact ⟨le_refl _, hs, h, fun _ => le_refl _⟩
          · refine ⟨?_, by simp, h, fun _ => le_refl _⟩
            cases hst : t.status <;> simp [ProtoImpl.TaskStatus.rank]
        · exact ⟨_, ProtoImpl.file_wait_task_other e t a b h hs h0 h1 h2, le_refl _, hs, h,
            fun _ => le_refl _⟩

theorem ProtoImpl.timer_wait_task_step_facts (e : Env) (t : ProtoImpl.Task) (d : Double) (s : Timespec)
    (h : t.private_data = ProtoImpl.PrivateData.timer_info d s) :
    ∃ r, ProtoImpl.timer_wait_task e t = some r ∧
      ProtoImpl.TaskStatus.rank t.status ≤ ProtoImpl.TaskStatus.rank r.1.status ∧
      r.1.status ≠ ProtoImpl.TaskStatus.TASK_INIT ∧
      (∃ s', r.1.private_data = ProtoImpl.PrivateData.timer_info d s') ∧
      ((t.status = ProtoImpl.TaskStatus.TASK_INIT → t.step = 0) → t.step ≤ r.1.step) := by
  by_cases hs : t.status = ProtoImpl.TaskStatus.TASK_INIT
  · refine ⟨_, ProtoImpl.timer_wait_task_init e t d s h hs, ?_, ?_, ⟨_, rfl⟩, ?_⟩
    · simp [hs, ProtoImpl.TaskStatus.rank]
    · simp
    · intro h0
      simp [h0 hs, ProtoImpl.LINE_WAIT_TIMER]
  · by_cases h0 : t.step = 0
    · refine ⟨_, ProtoImpl.timer_wait_task_step0 e t d s h hs h0, le_refl _, hs, ⟨_, rfl⟩, ?_⟩
      intro _
      simp [h0, ProtoImpl.LINE_WAIT_TIMER]
    · by_cases h1 : t.step = ProtoImpl.LINE_WAIT_TIMER
      · refine ⟨_, ProtoImpl.timer_wait_task_wait e t d s h hs h1, ?_⟩
        split_ifs
        · refine ⟨?_, by simp, ⟨s, h⟩, fun _ => le_refl _⟩
          cases hst : t.status <;> simp [ProtoImpl.TaskStatus.rank]
        · exact ⟨le_refl _, hs, ⟨s, h⟩, fun _ => le_refl _⟩
      · exact ⟨_, ProtoImpl.timer_wait_task_other e t d s h hs h0 h1, le_refl _, hs, ⟨s, h⟩,
          fun _ => le_refl _⟩

/-- C8: status only moves forward.  For every task object and every world, one call of
`task1_func`, `task2_func` (`src/main.c`), `file_wait_task` or `timer_wait_task`
(`src/src/main.c`, on a task holding the payload the function reads, where the call
is defined) leaves the status equal or moves it forward in the order
Pending < Active < Complete; in particular the status after the call is never Pending,
and a Complete task stays Complete. -/
theorem C8_status_is_monotonic (env : Env) (tA : SwitchImpl.Task)
    (tF : ProtoImpl.Task) (a b : String)
    (hF : tF.private_data = ProtoImpl.PrivateData.file_wait_info a b)
    (tT : ProtoImpl.Task) (d : Double) (s : Timespec)
    (hT : tT.private_data = ProtoImpl.PrivateData.timer_info d s) :
    (SwitchImpl.TaskStatus.rank tA.status ≤
        SwitchImpl.TaskStatus.rank (SwitchImpl.task1_func env tA).1.status ∧
     (SwitchImpl.task1_func env tA).1.status ≠ SwitchImpl.TaskStatus.TASK_STATUS_INIT) ∧
    (SwitchImpl.TaskStatus.rank tA.status ≤
        SwitchImpl.TaskStatus.rank (SwitchImpl.task2_func env tA).1.status ∧
     (SwitchImpl.task2_func env tA).1.status ≠ SwitchImpl.TaskStatus.TASK_STATUS_INIT) ∧
    (∃ r, ProtoImpl.file_wait_task env tF = some r ∧
        ProtoImpl.TaskStatus.rank tF.status ≤ ProtoImpl.TaskStatus.rank r.1.status ∧
        r.1.status ≠ ProtoImpl.TaskStatus.TASK_INIT) ∧
    (∃ r, ProtoImpl.timer_wait_task env tT = some r ∧
        ProtoImpl.TaskStatus.rank tT.status ≤ ProtoImpl.TaskStatus.rank r.1.status ∧
        r.1.status ≠ ProtoImpl.TaskStatus.TASK_INIT) := by
  obtain ⟨rF, hrF, h1, h2, -, -⟩ := ProtoImpl.file_wait_task_step_facts env tF a b hF
  obtain ⟨rT, hrT, h3, h4, -, -⟩ := ProtoImpl.timer_wait_task_step_facts env tT d s hT
  exact ⟨⟨(SwitchImpl.task1_func_step_facts env tA).1, (SwitchImpl.task1_func_step_facts env tA).2.1⟩,
    ⟨(SwitchImpl.task2_func_step_facts env tA).1, (SwitchImpl.task2_func_step_facts env tA).2.1⟩,
    ⟨rF, hrF, h1, h2⟩, ⟨rT, hrT, h3, h4⟩⟩

theorem C8_status_is_monotonic_witness :
    ProtoImpl.file_task_done.private_data =
      ProtoImpl.PrivateData.file_wait_info "/tmp/a.txt" "/tmp/b.txt" ∧
    (ProtoImpl.timer_task_running Double.lit_2_0).private_data =
      ProtoImpl.PrivateData.timer_info Double.lit_2_0 { tv_sec := 0, tv_nsec := 0 } ∧
    SwitchImpl.TaskStatus.rank SwitchImpl.task1_running.status ≤
      SwitchImpl.TaskStatus.rank
        (SwitchImpl.task1_func (env_ready 1) SwitchImpl.task1_running).1.status ∧
    (∃ r, ProtoImpl.file_wait_task (env_ready 1) ProtoImpl.file_task_done = some r ∧
      ProtoImpl.TaskStatus.rank ProtoImpl.file_task_done.status ≤
        ProtoImpl.TaskStatus.rank r.1.status ∧
      r.1.status ≠ ProtoImpl.TaskStatus.TASK_INIT) :=
  ⟨rfl, rfl,
   (C8_status_is_monotonic (env_ready 1) SwitchImpl.task1_running ProtoImpl.file_task_done
      "/tmp/a.txt" "/tmp/b.txt" rfl (ProtoImpl.timer_task_running Double.lit_2_0) Double.lit_2_0
      { tv_sec := 0, tv_nsec := 0 } rfl).1.1,
   (C8_status_is_monotonic (env_ready 1) SwitchImpl.task1_running ProtoImpl.file_task_done
      "/tmp/a.txt" "/tmp/b.txt" rfl (ProtoImpl.timer_task_running Double.lit_2_0) Double.lit_2_0
      { tv_sec := 0, tv_nsec := 0 } rfl).2.2.1⟩

theorem run_steps_chain_le {σ : Type} (f : Env → σ → σ × List Line) (rp : σ → Int)
    (inv : σ → Prop) (h : ∀ e t, inv t → inv (f e t).1 ∧ rp t ≤ rp (f e t).1) :
    ∀ (envs : List Env) (t : σ), inv t →
      List.Chain (fun x y => x ≤ y) (rp t) ((run_steps f envs t).map (fun r => rp r.1)) := by
  intro envs
  induction envs with
  | nil => intro t _; exact List.Chain.nil
  | cons e es ih =>
      intro t ht
      simp only [run_steps, List.map_cons]
      exact List.Chain.cons (h e t ht).2 (ih _ (h e t ht).1)

/-- C9: the resume point never decreases.  Start from a task whose `step` is zero, as it
is in a newly created and registered task (whose status is Pending; the statement holds
for every status), and call its step function any number of times, in arbitrary worlds.
Then the sequence of values of the resume point before the first call and after each
call is non-decreasing: `data.file_wait.step` under `task1_func` and under `task2_func`
in `src/main.c`, `step` under `file_wait_task` and under `timer_wait_task` in
`src/src/main.c` (where every call of the run is defined). -/
theorem C9_resume_point_never_decreases (envs : List Env)
    (tA : SwitchImpl.Task) (hA0 : tA.data.file_wait.step = 0)
    (tF : ProtoImpl.Task) (a b : String) (hF0 : tF.step = 0)
    (hFp : tF.private_data = ProtoImpl.PrivateData.file_wait_info a b)
    (tT : ProtoImpl.Task) (d : Double) (s : Timespec) (hT0 : tT.step = 0)
    (hTp : tT.private_data = ProtoImpl.PrivateData.timer_info d s) :
    List.Chain (fun x y => x ≤ y) tA.data.file_wait.step
      ((run_steps SwitchImpl.task1_func envs tA).map (fun r => r.1.data.file_wait.step)) ∧
    List.Chain (fun x y => x ≤ y) tA.data.file_wait.step
      ((run_steps SwitchImpl.task2_func envs tA).map (fun r => r.1.data.file_wait.step)) ∧
    (∃ tr, run_steps_opt ProtoImpl.file_wait_task envs tF = some tr ∧
      List.Chain (fun x y => x ≤ y) tF.step (tr.map (fun r => r.1.step))) ∧
    (∃ tr, run_steps_opt ProtoImpl.timer_wait_task envs tT = some tr ∧
      List.Chain (fun x y => x ≤ y) tT.step (tr.map (fun r => r.1.step))) := by
  refine ⟨?_, ?_, ?_, ?_⟩
  · refine run_steps_chain_le SwitchImpl.task1_func (fun t => t.data.file_wait.step)
      (fun t => t.status = SwitchImpl.TaskStatus.TASK_STATUS_INIT → t.data.file_wait.step = 0)
      ?_ envs tA (fun _ => hA0)
    intro e t ht
    obtain ⟨-, h2, h3⟩ := SwitchImpl.task1_func_step_facts e t
    exact ⟨fun h => absurd h h2, h3 ht⟩
  · refine run_steps_chain_le SwitchImpl.task2_func (fun t => t.data.file_wait.step)
      (fun _ => True) ?_ envs tA trivial
    intro e t _
    exact ⟨trivial, le_of_eq (SwitchImpl.task2_func_step_facts e t).2.2.symm⟩
  · have hstep : ∀ e (t : ProtoImpl.Task),
        (t.private_data = ProtoImpl.PrivateData.file_wait_info a b ∧
          (t.status = ProtoImpl.TaskStatus.TASK_INIT → t.step = 0)) →
        ProtoImpl.file_wait_task e t = some ((ProtoImpl.file_wait_task e t).getD (t, [])) ∧
        (((ProtoImpl.file_wait_task e t).getD (t, [])).1.private_data =
            ProtoImpl.PrivateData.file_wait_info a b ∧
          (((ProtoImpl.file_wait_task e t).getD (t, [])).1.status =
              ProtoImpl.TaskStatus.TASK_INIT →
            ((ProtoImpl.file_wait_task e t).getD (t, [])).1.step = 0)) ∧
        t.step ≤ ((ProtoImpl.file_wait_task e t).getD (t, [])).1.step := by
      intro e t ht
      obtain ⟨r, hr, -, h2, h3, h4⟩ := ProtoImpl.file_wait_task_step_facts e t a b ht.1
      rw [hr]
      exact ⟨rfl, ⟨h3, fun h => absurd h h2⟩, h4 ht.2⟩
    refine ⟨_, run_steps_opt_eq_some ProtoImpl.file_wait_task
      (fun e t => (ProtoImpl.file_wait_task e t).getD (t, [])) _
      (fun e t ht => ⟨(hstep e t ht).1, (hstep e t ht).2.1⟩) envs tF ⟨hFp, fun _ => hF0⟩, ?_⟩
    exact run_steps_chain_le _ (fun t => t.step) _
      (fun e t ht => ⟨(hstep e t ht).2.1, (hstep e t ht).2.2⟩) envs tF ⟨hFp, fun _ => hF0⟩
  · have hstep : ∀ e (t : ProtoImpl.Task),
        ((∃ s', t.private_data = ProtoImpl.PrivateData.timer_info d s') ∧
          (t.status = ProtoImpl.TaskStatus.TASK_INIT → t.step = 0)) →
        ProtoImpl.timer_wait_task e t = some ((ProtoImpl.timer_wait_task e t).getD (t, [])) ∧
        ((∃ s', ((ProtoImpl.timer_wait_task e t).getD (t, [])).1.private_data =
            ProtoImpl.PrivateData.timer_info d s') ∧
          (((ProtoImpl.timer_wait_task e t).getD (t, [])).1.status =
              ProtoImpl.TaskStatus.TASK_INIT →
            ((ProtoImpl.timer_wait_task e t).getD (t, [])).1.step = 0)) ∧
        t.step ≤ ((ProtoImpl.timer_wait_task e t).getD (t, [])).1.step := by
      intro e t ht
      obtain ⟨s', hs'⟩ := ht.1
      obtain ⟨r, hr, -, h2, h3, h4⟩ := ProtoImpl.timer_wait_task_step_facts e t d s' hs'
      rw [hr]
      exact ⟨rfl, ⟨h3, fun h => absurd h h2⟩, h4 ht.2⟩
    refine ⟨_, run_steps_opt_eq_some ProtoImpl.timer_wait_task
      (fun e t => (ProtoImpl.timer_wait_task e t).getD (t, [])) _
      (fun e t ht => ⟨(hstep e t ht).1, (hstep e t ht).2.1⟩) envs tT ⟨⟨s, hTp⟩, fun _ => hT0⟩, ?_⟩
    exact run_steps_chain_le _ (fun t => t.step) _
      (fun e t ht => ⟨(hstep e t ht).2.1, (hstep e t ht).2.2⟩) envs tT ⟨⟨s, hTp⟩, fun _ => hT0⟩

theorem C9_resume_point_never_decreases_witness :
    SwitchImpl.task1_init.data.file_wait.step = 0 ∧
    ProtoImpl.file_task_init.step = 0 ∧
    (ProtoImpl.timer_task_init Double.lit_2_0).step = 0 ∧
    List.Chain (fun x y => x ≤ y) SwitchImpl.task1_init.data.file_wait.step
      ((run_steps SwitchImpl.task1_func [env_absent 0, env_ready 1, env_ready 2, env_ready 3]
          SwitchImpl.task1_init).map (fun r => r.1.data.file_wait.step)) ∧
    (∃ tr, run_steps_opt ProtoImpl.file_wait_task
        [env_absent 0, env_ready 1, env_ready 2, env_ready 3] ProtoImpl.file_task_init = some tr ∧
      List.Chain (fun x y => x ≤ y) ProtoImpl.file_task_init.step (tr.map (fun r => r.1.step))) :=
  ⟨rfl, rfl, rfl,
   (C9_resume_point_never_decreases [env_absent 0, env_ready 1, env_ready 2, env_ready 3]
      SwitchImpl.task1_init rfl ProtoImpl.file_task_init "/tmp/a.txt" "/tmp/b.txt" rfl rfl
      (ProtoImpl.timer_task_init Double.lit_2_0) Double.lit_2_0 { tv_sec := 0, tv_nsec := 0 } rfl rfl).1,
   (C9_resume_point_never_decreases [env_absent 0, env_ready 1, env_ready 2, env_ready 3]
      SwitchImpl.task1_init rfl ProtoImpl.file_task_init "/tmp/a.txt" "/tmp/b.txt" rfl rfl
      (ProtoImpl.timer_task_init Double.lit_2_0) Double.lit_2_0 { tv_sec := 0, tv_nsec := 0 } rfl rfl).2.2.1⟩

/-! ## Yield -/

theorem ProtoImpl.is_file_valid_eq_zero (e : Env) (p : String) :
    ProtoImpl.is_file_valid e p = 0 ↔ ¬ ((e.stat p).ret = 0 ∧ (e.stat p).st_size ≥ 1) := by
  unfold ProtoImpl.is_file_valid
  simp only []
  split_ifs with h1 h2
  · simp [h1]
  · simp at h1
    simp [h1, h2]
  · simp at h1
    simp [h1, h2]

/-- C10: yield leaves the task untouched.  For an Active task and a world in which the
boundary condition of its current stage is false (`stat` of file A fails or reports
size below 1 while waiting on A; the same for file B while waiting on B; for the timer
the comparison `elapsed >= wait_sec` made by the program in `double` arithmetic fails,
as it does in particular when the computed `elapsed` is below the duration), the step
function returns the task object unchanged (status, resume point, payload and every
other field) and prints nothing.  In `src/main.c` the stages are `step = 0` and
`step = 1`; in `src/src/main.c` they are the labels `step = 123`, `step = 128` and, for
the timer, `step = 147`. -/
theorem C10_yield_leaves_task_untouched (env : Env)
    (tA : SwitchImpl.Task) (hA : tA.status = SwitchImpl.TaskStatus.TASK_STATUS_RUNNING)
    (tF : ProtoImpl.Task) (a b : String)
    (hF : tF.status = ProtoImpl.TaskStatus.TASK_RUNNING)
    (hFp : tF.private_data = ProtoImpl.PrivateData.file_wait_info a b)
    (tT : ProtoImpl.Task) (d : Double) (s : Timespec)
    (hT : tT.status = ProtoImpl.TaskStatus.TASK_RUNNING)
    (hTs : tT.step = ProtoImpl.LINE_WAIT_TIMER)
    (hTp : tT.private_data = ProtoImpl.PrivateData.timer_info d s) :
    (tA.data.file_wait.step = 0 →
      ¬ ((env.stat tA.data.file_wait.file1).ret = 0 ∧
          (env.stat tA.data.file_wait.file1).st_size ≥ 1) →
      SwitchImpl.task1_func env tA = (tA, [])) ∧
    (tA.data.file_wait.step = 1 →
      ¬ ((env.stat tA.data.file_wait.file2).ret = 0 ∧
          (env.stat tA.data.file_wait.file2).st_size ≥ 1) →
      SwitchImpl.task1_func env tA = (tA, [])) ∧
    (¬ (elapsed_sec env.now tA.data.sleep_wait.start ≥ tA.data.sleep_wait.wait_sec) →
      SwitchImpl.task2_func env tA = (tA, [])) ∧
    (elapsed_sec env.now tA.data.sleep_wait.start < tA.data.sleep_wait.wait_sec →
      SwitchImpl.task2_func env tA = (tA, [])) ∧
    (tF.step = ProtoImpl.LINE_WAIT_A →
      ¬ ((env.stat a).ret = 0 ∧ (env.stat a).st_size ≥ 1) →
      ProtoImpl.file_wait_task env tF = some (tF, [])) ∧
    (tF.step = ProtoImpl.LINE_WAIT_B →
      ¬ ((env.stat b).ret = 0 ∧ (env.stat b).st_size ≥ 1) →
      ProtoImpl.file_wait_task env tF = some (tF, [])) ∧
    (¬ (elapsed_sec env.now s ≥ d) → ProtoImpl.timer_wait_task env tT = some (tT, [])) ∧
    (elapsed_sec env.now s < d → ProtoImpl.timer_wait_task env tT = some (tT, [])) := by
  have hFs : tF.status ≠ ProtoImpl.TaskStatus.TASK_INIT := by rw [hF]; decide
  have hTi : tT.status ≠ ProtoImpl.TaskStatus.TASK_INIT := by rw [hT]; decide
  refine ⟨?_, ?_, ?_, ?_, ?_, ?_, ?_, ?_⟩
  · intro h0 hc
    simp only [SwitchImpl.task1_func, hA, h0, if_true]
    rw [if_neg hc]
  · intro h1 hc
    simp only [SwitchImpl.task1_func, hA, h1, if_true]
    rw [if_neg (by decide), if_neg hc]
  · intro h
    rw [SwitchImpl.task2_func_running env tA hA, if_neg h]
  · intro h
    rw [SwitchImpl.task2_func_running env tA hA, if_neg (Double.not_le_of_lt _ _ h)]
  · intro h1 hc
    rw [ProtoImpl.file_wait_task_wait_a env tF a b hFp hFs h1,
      if_pos ((ProtoImpl.is_file_valid_eq_zero env a).2 hc)]
  · intro h2 hc
    rw [ProtoImpl.file_wait_task_wait_b env tF a b hFp hFs h2,
      if_pos ((ProtoImpl.is_file_valid_eq_zero env b).2 hc)]
  · intro h
    rw [ProtoImpl.timer_wait_task_wait env tT d s hTp hTi hTs, if_neg h]
  · intro h
    rw [ProtoImpl.timer_wait_task_wait env tT d s hTp hTi hTs,
      if_neg (Double.not_le_of_lt _ _ h)]

theorem C10_yield_leaves_task_untouched_witness :
    SwitchImpl.task1_running.status = SwitchImpl.TaskStatus.TASK_STATUS_RUNNING ∧
    ProtoImpl.file_task_running.status = ProtoImpl.TaskStatus.TASK_RUNNING ∧
    (ProtoImpl.timer_task_running Double.lit_2_0).status = ProtoImpl.TaskStatus.TASK_RUNNING ∧
    (ProtoImpl.timer_task_running Double.lit_2_0).step = ProtoImpl.LINE_WAIT_TIMER ∧
    SwitchImpl.task1_func (env_absent 1) SwitchImpl.task1_running =
      (SwitchImpl.task1_running, []) ∧
    ProtoImpl.file_wait_task (env_absent 1) ProtoImpl.file_task_running =
      some (ProtoImpl.file_task_running, []) ∧
    ProtoImpl.timer_wait_task (env_absent 1) (ProtoImpl.timer_task_running Double.lit_2_0) =
      some (ProtoImpl.timer_task_running Double.lit_2_0, []) := by
  have h := C10_yield_leaves_task_untouched (env_absent 1) SwitchImpl.task1_running rfl
    ProtoImpl.file_task_running "/tmp/a.txt" "/tmp/b.txt" rfl rfl
    (ProtoImpl.timer_task_running Double.lit_2_0) Double.lit_2_0 { tv_sec := 0, tv_nsec := 0 } rfl rfl rfl
  refine ⟨rfl, rfl, rfl, rfl, h.1 rfl ?_, h.2.2.2.2.1 rfl ?_, h.2.2.2.2.2.2.1 ?_⟩
  · simp [env_absent]
  · simp [env_absent]
  · exact two_not_le_elapsed_sec_one

/-! ## First invocation -/

theorem SwitchImpl.task1_func_init (e : Env) (t : SwitchImpl.Task)
    (hs : t.status = SwitchImpl.TaskStatus.TASK_STATUS_INIT) :
    SwitchImpl.task1_func e t =
      ({ t with
           data := { t.data with file_wait := { t.data.file_wait with step := 0 } },
           status := SwitchImpl.TaskStatus.TASK_STATUS_RUNNING },
       [Line.begin_wait_file t.data.file_wait.file1]) := by
  simp [SwitchImpl.task1_func, hs]

/-- C11: first invocation.  For a task whose status is Pending and every world (whatever
`stat` would answer), one call of the step function makes the status Active, puts the
task at its first waiting stage, prints exactly one "begin waiting" line and changes
nothing else; the timer functions store the clock reading of the call as `start`.
In `src/main.c` the first waiting stage is `step = 0` for `task1_func`, and
`task2_func` has a single waiting stage, which the status Active itself records; in
`src/src/main.c` the first waiting stage is the label 123 for `file_wait_task` and the
label 147 for `timer_wait_task`. -/
theorem C11_first_invocation_postcondition (env : Env)
    (tA : SwitchImpl.Task) (hA : tA.status = SwitchImpl.TaskStatus.TASK_STATUS_INIT)
    (tF : ProtoImpl.Task) (a b : String)
    (hF : tF.status = ProtoImpl.TaskStatus.TASK_INIT)
    (hFp : tF.private_data = ProtoImpl.PrivateData.file_wait_info a b)
    (tT : ProtoImpl.Task) (d : Double) (s : Timespec)
    (hT : tT.status = ProtoImpl.TaskStatus.TASK_INIT)
    (hTp : tT.private_data = ProtoImpl.PrivateData.timer_info d s) :
    SwitchImpl.task1_func env tA =
      ({ tA with
           data := { tA.data with file_wait := { tA.data.file_wait with step := 0 } },
           status := SwitchImpl.TaskStatus.TASK_STATUS_RUNNING },
       [Line.begin_wait_file tA.data.file_wait.file1]) ∧
    SwitchImpl.task2_func env tA =
      ({ tA with
           data := { tA.data with sleep_wait := { tA.data.sleep_wait with start := env.now } },
           status := SwitchImpl.TaskStatus.TASK_STATUS_RUNNING },
       [Line.begin_wait_sec tA.data.sleep_wait.wait_sec]) ∧
    ProtoImpl.file_wait_task env tF =
      some ({ tF with step := ProtoImpl.LINE_WAIT_A,
                      status := ProtoImpl.TaskStatus.TASK_RUNNING },
            [Line.begin_wait_file a]) ∧
    ProtoImpl.timer_wait_task env tT =
      some ({ tT with private_data := ProtoImpl.PrivateData.timer_info d env.now,
                      step := ProtoImpl.LINE_WAIT_TIMER,
                      status := ProtoImpl.TaskStatus.TASK_RUNNING },
            [Line.begin_wait_sec d]) :=
  ⟨SwitchImpl.task1_func_init env tA hA, SwitchImpl.task2_func_init env tA hA,
   ProtoImpl.file_wait_task_init env tF a b hFp hF,
   ProtoImpl.timer_wait_task_init env tT d s hTp hT⟩

theorem C11_first_invocation_postcondition_witness :
    SwitchImpl.task1_init.status = SwitchImpl.TaskStatus.TASK_STATUS_INIT ∧
    ProtoImpl.file_task_init.status = ProtoImpl.TaskStatus.TASK_INIT ∧
    (ProtoImpl.timer_task_init Double.lit_2_0).status = ProtoImpl.TaskStatus.TASK_INIT ∧
    SwitchImpl.task1_func (env_absent 5) SwitchImpl.task1_init =
      (SwitchImpl.task1_running, [Line.begin_wait_file "/tmp/a.txt"]) ∧
    ProtoImpl.file_wait_task (env_absent 5) ProtoImpl.file_task_init =
      some (ProtoImpl.file_task_running, [Line.begin_wait_file "/tmp/a.txt"]) ∧
    ProtoImpl.timer_wait_task (env_absent 0) (ProtoImpl.timer_task_init Double.lit_2_0) =
      some (ProtoImpl.timer_task_running Double.lit_2_0, [Line.begin_wait_sec Double.lit_2_0]) := by
  have h := C11_first_invocation_postcondition (env_absent 5) SwitchImpl.task1_init rfl
    ProtoImpl.file_task_init "/tmp/a.txt" "/tmp/b.txt" rfl rfl
    (ProtoImpl.timer_task_init Double.lit_2_0) Double.lit_2_0 { tv_sec := 0, tv_nsec := 0 } rfl rfl
  have h0 := C11_first_invocation_postcondition (env_absent 0) SwitchImpl.task1_init rfl
    ProtoImpl.file_task_init "/tmp/a.txt" "/tmp/b.txt" rfl rfl
    (ProtoImpl.timer_task_init Double.lit_2_0) Double.lit_2_0 { tv_sec := 0, tv_nsec := 0 } rfl rfl
  exact ⟨rfl, rfl, rfl, h.1, h.2.2.1, h0.2.2.2⟩

/-! ## Registration -/

theorem chain_self_loop {next : Nat → Option Nat} (a : Nat) (h : next a = some a) :
    ∀ l : List Nat, ¬ chain next (some a) l := by
  intro l
  induction l with
  | nil => intro hc; simp [chain] at hc
  | cons b l ih =>
      intro hc
      simp only [chain] at hc
      obtain ⟨hb, hc⟩ := hc
      have hab : a = b := by simpa using hb
      subst hab
      rw [h] at hc
      exact ih hc

/-- C12 (the claim at a concrete input): registering a task that is already registered.
In both programs take the registry whose only task, at address 1, is Active.  Calling
`task_add` / `task_append` on address 1 again sets the status of that previously
registered task back to Pending and makes its `next` link point to itself, so that the
list reached from the head is no longer a NULL-terminated list of tasks at all. -/
theorem C12_register_twice_counterexample :
    (SwitchImpl.registry SwitchImpl.mem_one_running [1] ∧
     (SwitchImpl.mem_one_running.task 1).status = SwitchImpl.TaskStatus.TASK_STATUS_RUNNING ∧
     ((SwitchImpl.task_add (some 1) SwitchImpl.mem_one_running).task 1).status =
        SwitchImpl.TaskStatus.TASK_STATUS_INIT ∧
     ((SwitchImpl.task_add (some 1) SwitchImpl.mem_one_running).task 1).next = some 1 ∧
     ¬ ∃ l, SwitchImpl.registry (SwitchImpl.task_add (some 1) SwitchImpl.mem_one_running) l) ∧
    (ProtoImpl.registry ProtoImpl.mem_one_running [1] ∧
     (ProtoImpl.mem_one_running.task 1).status = ProtoImpl.TaskStatus.TASK_RUNNING ∧
     ((ProtoImpl.task_append (some 1) ProtoImpl.mem_one_running).task 1).status =
        ProtoImpl.TaskStatus.TASK_INIT ∧
     ((ProtoImpl.task_append (some 1) ProtoImpl.mem_one_running).task 1).next = some 1 ∧
     ¬ ∃ l, ProtoImpl.registry (ProtoImpl.task_append (some 1) ProtoImpl.mem_one_running) l) := by
  refine ⟨⟨⟨rfl, rfl⟩, rfl, rfl, rfl, ?_⟩, ⟨⟨rfl, rfl⟩, rfl, rfl, rfl, ?_⟩⟩
  · rintro ⟨l, hl⟩
    refine absurd hl (chain_self_loop 1 ?_ l)
    rfl
  · rintro ⟨l, hl⟩
    refine absurd hl (chain_self_loop 1 ?_ l)
    rfl

/-- C12 (amended): registering a task that is not yet registered.  For every registry
(NULL-terminated list `l` of tasks) and every address `a` not in it, `task_add` /
`task_append` called on `a` sets the status of the task at `a` to Pending and keeps its
payload and function pointer; the registry becomes `a` followed by `l`, so it holds
exactly the previously registered tasks, in their previous order, and the new one; and
every task object other than the one at `a` is left exactly as it was.  Called with
`NULL`, the function leaves the memory as it is. -/
theorem C12_register_new_task
    (mA : SwitchImpl.Mem) (lA : List Nat) (a : Nat)
    (hA : SwitchImpl.registry mA lA) (haA : a ∉ lA)
    (mB : ProtoImpl.Mem) (lB : List Nat) (b : Nat)
    (hB : ProtoImpl.registry mB lB) (hbB : b ∉ lB) :
    (SwitchImpl.registry (SwitchImpl.task_add (some a) mA) (a :: lA) ∧
     ((SwitchImpl.task_add (some a) mA).task a).status = SwitchImpl.TaskStatus.TASK_STATUS_INIT ∧
     ((SwitchImpl.task_add (some a) mA).task a).data = (mA.task a).data ∧
     ((SwitchImpl.task_add (some a) mA).task a).func = (mA.task a).func ∧
     (∀ c, c ≠ a → (SwitchImpl.task_add (some a) mA).task c = mA.task c) ∧
     SwitchImpl.task_add none mA = mA) ∧
    (ProtoImpl.registry (ProtoImpl.task_append (some b) mB) (b :: lB) ∧
     ((ProtoImpl.task_append (some b) mB).task b).status = ProtoImpl.TaskStatus.TASK_INIT ∧
     ((ProtoImpl.task_append (some b) mB).task b).step = (mB.task b).step ∧
     ((ProtoImpl.task_append (some b) mB).task b).private_data = (mB.task b).private_data ∧
     ((ProtoImpl.task_append (some b) mB).task b).execute = (mB.task b).execute ∧
     (∀ c, c ≠ b → (ProtoImpl.task_append (some b) mB).task c = mB.task c) ∧
     ProtoImpl.task_append none mB = mB) := by
  refine ⟨⟨SwitchImpl.task_add_registry mA lA a hA haA, ?_, ?_, ?_, ?_, rfl⟩,
    ⟨ProtoImpl.task_append_registry mB lB b hB hbB, ?_, ?_, ?_, ?_, ?_, rfl⟩⟩
  · simp [SwitchImpl.task_add]
  · simp [SwitchImpl.task_add]
  · simp [SwitchImpl.task_add]
  · intro c hc
    simp [SwitchImpl.task_add, Function.update_noteq hc]
  · simp [ProtoImpl.task_append]
  · simp [ProtoImpl.task_append]
  · simp [ProtoImpl.task_append]
  · simp [ProtoImpl.task_append]
  · intro c hc
    simp [ProtoImpl.task_append, Function.update_noteq hc]

theorem C12_register_new_task_witness :
    SwitchImpl.registry SwitchImpl.mem_one_running [1] ∧ (2 : Nat) ∉ [1] ∧
    ProtoImpl.registry ProtoImpl.mem_one_running [1] ∧
    SwitchImpl.registry (SwitchImpl.task_add (some 2) SwitchImpl.mem_one_running) [2, 1] ∧
    ProtoImpl.registry (ProtoImpl.task_append (some 2) ProtoImpl.mem_one_running) [2, 1] ∧
    ((SwitchImpl.task_add (some 2) SwitchImpl.mem_one_running).task 1).status =
      SwitchImpl.TaskStatus.TASK_STATUS_RUNNING := by
  have hA : SwitchImpl.registry SwitchImpl.mem_one_running [1] := ⟨rfl, rfl⟩
  have hB : ProtoImpl.registry ProtoImpl.mem_one_running [1] := ⟨rfl, rfl⟩
  have h := C12_register_new_task SwitchImpl.mem_one_running [1] 2 hA (by decide)
    ProtoImpl.mem_one_running [1] 2 hB (by decide)
  refine ⟨hA, by decide, hB, h.1.1, h.2.1, ?_⟩
  rw [h.1.2.2.2.2.1 1 (by decide)]
  rfl

/-! ## What one scheduler pass does to each task -/

theorem SwitchImpl.pass_lines_congr (m m' : SwitchImpl.Mem) :
    ∀ (l : List Nat) (env : Nat → Env), (∀ b ∈ l, m'.task b = m.task b) →
      SwitchImpl.pass_lines env m' l = SwitchImpl.pass_lines env m l := by
  intro l
  induction l with
  | nil => intro _ _; rfl
  | cons a l ih =>
      intro env h
      simp only [SwitchImpl.pass_lines]
      rw [h a (by simp), ih _ (fun b hb => h b (by simp [hb]))]

theorem SwitchImpl.sched_pass_loop_effect :
    ∀ (l : List Nat) (fuel : Nat) (env : Nat → Env) (m : SwitchImpl.Mem) (p : Option Nat),
      chain (fun a => (m.task a).next) p l → l.length < fuel →
      ∃ res, SwitchImpl.sched_pass_loop fuel env m p = some res ∧
        (∀ (i : Nat) (a : Nat), l[i]? = some a →
          res.mem.task a = (SwitchImpl.sched_visit SwitchImpl.call_func (env i) (m.task a)).1) ∧
        res.out = SwitchImpl.pass_lines env m l := by
  intro l
  induction l with
  | nil =>
      intro fuel env m p hc hf
      cases fuel with
      | zero => exact absurd hf (by simp)
      | succ n =>
          simp only [chain] at hc
          subst hc
          exact ⟨⟨m, [], []⟩, rfl, fun i a h => absurd h (by simp), rfl⟩
  | cons a l ih =>
      intro fuel env m p hc hf
      have hnd : (a :: l).Nodup := chain_nodup _ _ hc
      have hal : a ∉ l := (List.nodup_cons.1 hnd).1
      cases fuel with
      | zero => exact absurd hf (by simp)
      | succ n =>
          simp only [chain] at hc
          obtain ⟨hp, hc⟩ := hc
          subst hp
          have hf2 : l.length < n := by simpa using hf
          by_cases hs : (m.task a).status = SwitchImpl.TaskStatus.TASK_STATUS_DONE
          · obtain ⟨res, hres, heff, hout⟩ := ih n (fun k => env (k + 1)) m _ hc hf2
            obtain ⟨res', hres', -, -, -, hfr⟩ :=
              SwitchImpl.sched_pass_loop_chain l n (fun k => env (k + 1)) m _ hc hf2
            have hrr : res' = res := Option.some.inj (hres'.symm.trans hres)
            subst hrr
            refine ⟨res', ?_, ?_, ?_⟩
            · simp [SwitchImpl.sched_pass_loop, hs, hres]
            · intro i b hb
              cases i with
              | zero =>
                  simp only [List.getElem?_cons_zero, Option.some.injEq] at hb
                  subst hb
                  rw [hfr a hal, SwitchImpl.visit_done _ _ _ hs]
              | succ i =>
                  simp only [List.getElem?_cons_succ] at hb
                  exact heff i b hb
            · simp only [SwitchImpl.pass_lines]
              rw [SwitchImpl.visit_done _ _ _ hs, hout]
              rfl
          · have hc1 : chain
                (fun b => ((Function.update m.task a
                  (SwitchImpl.call_func (env 0) (m.task a)).1) b).next)
                (m.task a).next l := by
              refine chain_congr l _ ?_ hc
              intro b hb
              have hba : b ≠ a := fun e => hal (e ▸ hb)
              simp [Function.update_noteq hba]
            obtain ⟨res, hres, heff, hout⟩ :=
              ih n (fun k => env (k + 1))
                { m with task := (Function.update m.task a
                    (SwitchImpl.call_func (env 0) (m.task a)).1) }
                (m.task a).next hc1 hf2
            obtain ⟨res', hres', -, -, -, hfr⟩ :=
              SwitchImpl.sched_pass_loop_chain l n (fun k => env (k + 1))
                { m with task := (Function.update m.task a
                    (SwitchImpl.call_func (env 0) (m.task a)).1) }
                (m.task a).next hc1 hf2
            have hrr : res' = res := Option.some.inj (hres'.symm.trans hres)
            subst hrr
            refine ⟨⟨res'.mem, (SwitchImpl.call_func (env 0) (m.task a)).2 ++ res'.out,
              a :: res'.calls⟩, ?_, ?_, ?_⟩
            · simp [SwitchImpl.sched_pass_loop, hs, SwitchImpl.call_func_next, hres]
            · intro i b hb
              cases i with
              | zero =>
                  simp only [List.getElem?_cons_zero, Option.some.injEq] at hb
                  subst hb
                  rw [hfr a hal, SwitchImpl.visit_not_done _ _ _ hs]
                  simp
              | succ i =>
                  simp only [List.getElem?_cons_succ] at hb
                  have hbl : b ∈ l := List.getElem?_mem hb
                  have hba : b ≠ a := fun e => hal (e ▸ hbl)
                  rw [heff i b hb]
                  simp [Function.update_noteq hba]
            · simp only [SwitchImpl.pass_lines]
              rw [SwitchImpl.visit_not_done _ _ _ hs, hout]
              congr 1
              apply SwitchImpl.pass_lines_congr
              intro b hb
              have hba : b ≠ a := fun e => hal (e ▸ hb)
              simp [Function.update_noteq hba]

theorem ProtoImpl.proto_visit_finished
    (f : Env → ProtoImpl.Task → Option (ProtoImpl.Task × List Line))
    (e : Env) (t : ProtoImpl.Task) (h : t.status = ProtoImpl.TaskStatus.TASK_FINISHED) :
    ProtoImpl.sched_visit f e t = some (t, []) := by
  simp [ProtoImpl.sched_visit, h]

theorem ProtoImpl.proto_visit_unfinished
    (f : Env → ProtoImpl.Task → Option (ProtoImpl.Task × List Line))
    (e : Env) (t : ProtoImpl.Task) (h : t.status ≠ ProtoImpl.TaskStatus.TASK_FINISHED) :
    ProtoImpl.sched_visit f e t = f e t := by
  simp [ProtoImpl.sched_visit, h]

theorem ProtoImpl.proto_pass_lines_congr (m m' : ProtoImpl.Mem) :
    ∀ (l : List Nat) (env : Nat → Env), (∀ b ∈ l, m'.task b = m.task b) →
      ProtoImpl.pass_lines env m' l = ProtoImpl.pass_lines env m l := by
  intro l
  induction l with
  | nil => intro _ _; rfl
  | cons a l ih =>
      intro env h
      simp only [ProtoImpl.pass_lines]
      rw [h a (by simp), ih _ (fun b hb => h b (by simp [hb]))]

theorem ProtoImpl.proto_sched_pass_loop_effect :
    ∀ (l : List Nat) (fuel : Nat) (env : Nat → Env) (m : ProtoImpl.Mem) (p : Option Nat),
      chain (fun a => (m.task a).next) p l → l.length < fuel →
      (∀ a ∈ l, ProtoImpl.kind_ok (m.task a)) →
      ∃ res, ProtoImpl.sched_pass_loop fuel env m p = some res ∧
        (∀ (i : Nat) (a : Nat), l[i]? = some a →
          ∃ r, ProtoImpl.sched_visit ProtoImpl.call_execute (env i) (m.task a) = some r ∧
            res.mem.task a = r.1) ∧
        res.out = ProtoImpl.pass_lines env m l := by
  intro l
  induction l with
  | nil =>
      intro fuel env m p hc hf _
      cases fuel with
      | zero => exact absurd hf (by simp)
      | succ n =>
          simp only [chain] at hc
          subst hc
          exact ⟨⟨m, [], []⟩, rfl, fun i a h => absurd h (by simp), rfl⟩
  | cons a l ih =>
      intro fuel env m p hc hf hk
      have hnd : (a :: l).Nodup := chain_nodup _ _ hc
      have hal : a ∉ l := (List.nodup_cons.1 hnd).1
      cases fuel with
      | zero => exact absurd hf (by simp)
      | succ n =>
          simp only [chain] at hc
          obtain ⟨hp, hc⟩ := hc
          subst hp
          have hf2 : l.length < n := by simpa using hf
          have hkl : ∀ b ∈ l, ProtoImpl.kind_ok (m.task b) := fun b hb => hk b (by simp [hb])
          by_cases hs : (m.task a).status = ProtoImpl.TaskStatus.TASK_FINISHED
          · obtain ⟨res, hres, heff, hout⟩ := ih n (fun k => env (k + 1)) m _ hc hf2 hkl
            obtain ⟨res', hres', -, -, -, hfr, -⟩ :=
              ProtoImpl.proto_sched_pass_loop_chain l n (fun k => env (k + 1)) m _ hc hf2 hkl
            have hrr : res' = res := Option.some.inj (hres'.symm.trans hres)
            subst hrr
            refine ⟨res', ?_, ?_, ?_⟩
            · simp [ProtoImpl.sched_pass_loop, hs, hres]
            · intro i b hb
              cases i with
              | zero =>
                  simp only [List.getElem?_cons_zero, Option.some.injEq] at hb
                  subst hb
                  exact ⟨_, ProtoImpl.proto_visit_finished _ _ _ hs, hfr a hal⟩
              | succ i =>
                  simp only [List.getElem?_cons_succ] at hb
                  exact heff i b hb
            · simp only [ProtoImpl.pass_lines]
              rw [ProtoImpl.proto_visit_finished _ _ _ hs, hout]
              rfl
          · obtain ⟨r, hr, hrn, hrk⟩ :=
              ProtoImpl.call_execute_frame (env 0) (m.task a) (hk a (by simp))
            have hc1 : chain (fun b => ((Function.update m.task a r.1) b).next) r.1.next l := by
              rw [hrn]
              refine chain_congr l _ ?_ hc
              intro b hb
              have hba : b ≠ a := fun e => hal (e ▸ hb)
              simp [Function.update_noteq hba]
            have hk1 : ∀ b ∈ l, ProtoImpl.kind_ok ((Function.update m.task a r.1) b) := by
              intro b hb
              have hba : b ≠ a := fun e => hal (e ▸ hb)
              rw [Function.update_noteq hba]
              exact hkl b hb
            obtain ⟨res, hres, heff, hout⟩ :=
              ih n (fun k => env (k + 1))
                { m with task := (Function.update m.task a r.1) } r.1.next hc1 hf2 hk1
            obtain ⟨res', hres', -, -, -, hfr, -⟩ :=
              ProtoImpl.proto_sched_pass_loop_chain l n (fun k => env (k + 1))
                { m with task := (Function.update m.task a r.1) } r.1.next hc1 hf2 hk1
            have hrr : res' = res := Option.some.inj (hres'.symm.trans hres)
            subst hrr
            refine ⟨⟨res'.mem, r.2 ++ res'.out, a :: res'.calls⟩, ?_, ?_, ?_⟩
            · simp [ProtoImpl.sched_pass_loop, hs, hr, hres]
            · intro i b hb
              cases i with
              | zero =>
                  simp only [List.getElem?_cons_zero, Option.some.injEq] at hb
                  subst hb
                  refine ⟨r, ?_, ?_⟩
                  · rw [ProtoImpl.proto_visit_unfinished _ _ _ hs, hr]
                  · rw [hfr a hal]
                    simp
              | succ i =>
                  simp only [List.getElem?_cons_succ] at hb
                  have hbl : b ∈ l := List.getElem?_mem hb
                  have hba : b ≠ a := fun e => hal (e ▸ hbl)
                  obtain ⟨r', hr', hm'⟩ := heff i b hb
                  refine ⟨r', ?_, hm'⟩
                  simpa [Function.update_noteq hba] using hr'
            · simp only [ProtoImpl.pass_lines]
              rw [ProtoImpl.proto_visit_unfinished _ _ _ hs, hr, hout]
              simp only [Option.getD_some]
              congr 1
              apply ProtoImpl.proto_pass_lines_congr
              intro b hb
              have hba : b ≠ a := fun e => hal (e ▸ hb)
              simp [Function.update_noteq hba]

theorem count_filter_nodup (l : List Nat) (p : Nat → Bool) (hnd : l.Nodup) (a : Nat) :
    (l.filter p).count a = if a ∈ l ∧ p a = true then 1 else 0 := by
  by_cases h : a ∈ l ∧ p a = true
  · rw [if_pos h]
    have hmem : a ∈ l.filter p := List.mem_filter.2 h
    have h1 : 0 < (l.filter p).count a := List.count_pos_iff.2 hmem
    have h2 : (l.filter p).count a ≤ 1 :=
      List.nodup_iff_count_le_one.1 (hnd.filter p) a
    omega
  · rw [if_neg h]
    exact List.count_eq_zero.2 (fun hmem => h (List.mem_filter.1 hmem))

/-- C13: one scheduler pass.  On a registry that is a NULL-terminated list `l` of tasks
(in `src/src/main.c`: each holding the payload its step function reads), with fuel
beyond the list length, the inner loop of `main` returns, and:
the step functions called are those of the tasks of `l` that are not Complete, in list
order, each exactly once, and no other; the task at position `i` of `l` ends up as the
scheduler's guarded call leaves it when applied to its own state before the pass in the
world of the `i`-th visit, whatever the other tasks are; a task that is Complete, and
every task object outside `l`, is left exactly as it was; the registry is still `l`;
and the lines printed are those of the visits, in order. -/
theorem C13_one_pass_steps_each_unfinished_task_once
    (fuel : Nat) (env : Nat → Env)
    (mA : SwitchImpl.Mem) (lA : List Nat)
    (hA : SwitchImpl.registry mA lA) (hfA : lA.length < fuel)
    (mB : ProtoImpl.Mem) (lB : List Nat)
    (hB : ProtoImpl.registry mB lB) (hfB : lB.length < fuel)
    (hkB : ∀ a ∈ lB, ProtoImpl.kind_ok (mB.task a)) :
    (∃ res, SwitchImpl.sched_pass fuel env mA = some res ∧
      res.calls = lA.filter
        (fun a => decide ((mA.task a).status ≠ SwitchImpl.TaskStatus.TASK_STATUS_DONE)) ∧
      (∀ a, res.calls.count a =
        if a ∈ lA ∧ (mA.task a).status ≠ SwitchImpl.TaskStatus.TASK_STATUS_DONE then 1 else 0) ∧
      (∀ (i : Nat) (a : Nat), lA[i]? = some a →
        res.mem.task a =
          (SwitchImpl.sched_visit SwitchImpl.call_func (env i) (mA.task a)).1) ∧
      (∀ a, (mA.task a).status = SwitchImpl.TaskStatus.TASK_STATUS_DONE →
        res.mem.task a = mA.task a) ∧
      (∀ a, a ∉ lA → res.mem.task a = mA.task a) ∧
      SwitchImpl.registry res.mem lA ∧
      res.out = SwitchImpl.pass_lines env mA lA) ∧
    (∃ res, ProtoImpl.sched_pass fuel env mB = some res ∧
      res.calls = lB.filter
        (fun a => decide ((mB.task a).status ≠ ProtoImpl.TaskStatus.TASK_FINISHED)) ∧
      (∀ a, res.calls.count a =
        if a ∈ lB ∧ (mB.task a).status ≠ ProtoImpl.TaskStatus.TASK_FINISHED then 1 else 0) ∧
      (∀ (i : Nat) (a : Nat), lB[i]? = some a →
        ∃ r, ProtoImpl.sched_visit ProtoImpl.call_execute (env i) (mB.task a) = some r ∧
          res.mem.task a = r.1) ∧
      (∀ a, (mB.task a).status = ProtoImpl.TaskStatus.TASK_FINISHED →
        res.mem.task a = mB.task a) ∧
      (∀ a, a ∉ lB → res.mem.task a = mB.task a) ∧
      ProtoImpl.registry res.mem lB ∧
      (∀ a ∈ lB, ProtoImpl.kind_ok (res.mem.task a)) ∧
      res.out = ProtoImpl.pass_lines env mB lB) := by
  constructor
  · obtain ⟨res, hres, hcalls, hch, hg, hfr⟩ :=
      SwitchImpl.sched_pass_loop_chain lA fuel env mA _ hA hfA
    obtain ⟨res', hres', heff, hout⟩ :=
      SwitchImpl.sched_pass_loop_effect lA fuel env mA _ hA hfA
    have hrr : res' = res := Option.some.inj (hres'.symm.trans hres)
    subst hrr
    refine ⟨res', hres, hcalls, ?_, heff, ?_, hfr, ?_, hout⟩
    · intro a
      rw [hcalls, count_filter_nodup lA _ (chain_nodup _ _ hA) a]
      simp
    · intro a ha
      by_cases hal : a ∈ lA
      · obtain ⟨i, hi⟩ := List.mem_iff_getElem?.1 hal
        rw [heff i a hi, SwitchImpl.visit_done _ _ _ ha]
      · exact hfr a hal
    · unfold SwitchImpl.registry
      rw [hg]
      exact hch
  · obtain ⟨res, hres, hcalls, hch, hg, hfr, hk2⟩ :=
      ProtoImpl.proto_sched_pass_loop_chain lB fuel env mB _ hB hfB hkB
    obtain ⟨res', hres', heff, hout⟩ :=
      ProtoImpl.proto_sched_pass_loop_effect lB fuel env mB _ hB hfB hkB
    have hrr : res' = res := Option.some.inj (hres'.symm.trans hres)
    subst hrr
    refine ⟨res', hres, hcalls, ?_, heff, ?_, hfr, ?_, hk2, hout⟩
    · intro a
      rw [hcalls, count_filter_nodup lB _ (chain_nodup _ _ hB) a]
      simp
    · intro a ha
      by_cases hal : a ∈ lB
      · obtain ⟨i, hi⟩ := List.mem_iff_getElem?.1 hal
        obtain ⟨r, hr, hm⟩ := heff i a hi
        rw [ProtoImpl.proto_visit_finished _ _ _ ha] at hr
        rw [hm, ← Option.some.inj hr]
      · exact hfr a hal
    · unfold ProtoImpl.registry
      rw [hg]
      exact hch

theorem C13_one_pass_steps_each_unfinished_task_once_witness :
    SwitchImpl.registry SwitchImpl.mem_two [2, 1] ∧
    ProtoImpl.registry ProtoImpl.mem_two [2, 1] ∧
    (∀ a ∈ [2, 1], ProtoImpl.kind_ok (ProtoImpl.mem_two.task a)) ∧
    (∃ res, SwitchImpl.sched_pass 3 (fun _ => env_ready 0) SwitchImpl.mem_two = some res ∧
      res.calls.count 1 = 1 ∧ SwitchImpl.registry res.mem [2, 1]) ∧
    (∃ res, ProtoImpl.sched_pass 3 (fun _ => env_ready 0) ProtoImpl.mem_two = some res ∧
      res.calls.count 1 = 1 ∧ ProtoImpl.registry res.mem [2, 1]) := by
  have hA : SwitchImpl.registry SwitchImpl.mem_two [2, 1] := ⟨rfl, rfl, rfl⟩
  have hB : ProtoImpl.registry ProtoImpl.mem_two [2, 1] := ⟨rfl, rfl, rfl⟩
  have hk : ∀ a ∈ [2, 1], ProtoImpl.kind_ok (ProtoImpl.mem_two.task a) := by
    intro a ha
    simp only [List.mem_cons, List.mem_singleton, List.not_mem_nil, or_false] at ha
    rcases ha with h | h <;> subst h <;>
      simp [ProtoImpl.kind_ok, ProtoImpl.mem_two, ProtoImpl.task_append, ProtoImpl.mem_init,
        ProtoImpl.file_task_init, ProtoImpl.timer_task_init]
  obtain ⟨⟨rA, hrA, -, hcA, -, -, -, hregA, -⟩, ⟨rB, hrB, -, hcB, -, -, -, hregB, -, -⟩⟩ :=
    C13_one_pass_steps_each_unfinished_task_once 3 (fun _ => env_ready 0)
      SwitchImpl.mem_two [2, 1] hA (by decide) ProtoImpl.mem_two [2, 1] hB (by decide) hk
  refine ⟨hA, hB, hk, ⟨rA, hrA, ?_, hregA⟩, ⟨rB, hrB, ?_, hregB⟩⟩
  · rw [hcA 1, if_pos ⟨by decide, by decide⟩]
  · rw [hcB 1, if_pos ⟨by decide, by decide⟩]

/-! ## The two programs step alike -/

theorem run_steps_sim {σ τ α : Type} (f : Env → σ → σ × List Line)
    (g : Env → τ → τ × List Line) (R : σ → τ → Prop) (obsA : σ → α) (obsB : τ → α)
    (h : ∀ e t u, R t u →
      R (f e t).1 (g e u).1 ∧ (f e t).2 = (g e u).2 ∧ obsA (f e t).1 = obsB (g e u).1) :
    ∀ (envs : List Env) (t : σ) (u : τ), R t u →
      (run_steps f envs t).map (fun r => (obsA r.1, r.2)) =
        (run_steps g envs u).map (fun r => (obsB r.1, r.2)) := by
  intro envs
  induction envs with
  | nil => intro t u _; rfl
  | cons e es ih =>
      intro t u hR
      obtain ⟨h1, h2, h3⟩ := h e t u hR
      simp only [run_steps, List.map_cons]
      rw [ih _ _ h1, h2, h3]

theorem SwitchImpl.task1_func_wait_a (e : Env) (t : SwitchImpl.Task)
    (hs : t.status = SwitchImpl.TaskStatus.TASK_STATUS_RUNNING)
    (h0 : t.data.file_wait.step = 0) :
    SwitchImpl.task1_func e t =
      (if (e.stat t.data.file_wait.file1).ret = 0 ∧ (e.stat t.data.file_wait.file1).st_size ≥ 1
       then ({ t with
                 data := { t.data with file_wait := { t.data.file_wait with step := 1 } } },
             [Line.hello_a, Line.begin_wait_file t.data.file_wait.file2])
       else (t, [])) := by
  simp [SwitchImpl.task1_func, hs, h0]

theorem SwitchImpl.task1_func_wait_b (e : Env) (t : SwitchImpl.Task)
    (hs : t.status = SwitchImpl.TaskStatus.TASK_STATUS_RUNNING)
    (h1 : t.data.file_wait.step = 1) :
    SwitchImpl.task1_func e t =
      (if (e.stat t.data.file_wait.file2).ret = 0 ∧ (e.stat t.data.file_wait.file2).st_size ≥ 1
       then ({ t with status := SwitchImpl.TaskStatus.TASK_STATUS_DONE }, [Line.hello_b])
       else (t, [])) := by
  simp [SwitchImpl.task1_func, hs, h1]

theorem file_step_sim (e : Env) (t : SwitchImpl.Task) (u : ProtoImpl.Task)
    (h : file_rel t u) :
    file_rel (SwitchImpl.sched_visit SwitchImpl.task1_func e t).1 (ProtoImpl.file_visit e u).1 ∧
    (SwitchImpl.sched_visit SwitchImpl.task1_func e t).2 = (ProtoImpl.file_visit e u).2 ∧
    SwitchImpl.TaskStatus.rank (SwitchImpl.sched_visit SwitchImpl.task1_func e t).1.status =
      ProtoImpl.TaskStatus.rank (ProtoImpl.file_visit e u).1.status := by
  obtain ⟨hpd, hcase⟩ := h
  rcases hcase with ⟨hs, hu⟩ | ⟨hs, h0, hu, hst⟩ | ⟨hs, h1, hu, hst⟩ | ⟨hs, hu⟩
  · rw [SwitchImpl.visit_not_done _ _ _ (by rw [hs]; decide),
      SwitchImpl.task1_func_init e t hs,
      ProtoImpl.file_visit_unfinished e u (by rw [hu]; decide),
      ProtoImpl.file_wait_task_init e u _ _ hpd hu]
    exact ⟨⟨hpd, Or.inr (Or.inl ⟨rfl, rfl, rfl, rfl⟩)⟩, rfl, rfl⟩
  · rw [SwitchImpl.visit_not_done _ _ _ (by rw [hs]; decide),
      SwitchImpl.task1_func_wait_a e t hs h0,
      ProtoImpl.file_visit_unfinished e u (by rw [hu]; decide),
      ProtoImpl.file_wait_task_wait_a e u _ _ hpd (by rw [hu]; decide) hst]
    by_cases hr : (e.stat t.data.file_wait.file1).ret = 0 ∧
        (e.stat t.data.file_wait.file1).st_size ≥ 1
    · have hv : ¬ ProtoImpl.is_file_valid e t.data.file_wait.file1 = 0 :=
        fun hv => (ProtoImpl.is_file_valid_eq_zero e _).1 hv hr
      rw [if_pos hr, if_neg hv]
      exact ⟨⟨hpd, Or.inr (Or.inr (Or.inl ⟨hs, rfl, hu, rfl⟩))⟩, rfl, by simp [hs, hu,
        SwitchImpl.TaskStatus.rank, ProtoImpl.TaskStatus.rank]⟩
    · have hv : ProtoImpl.is_file_valid e t.data.file_wait.file1 = 0 :=
        (ProtoImpl.is_file_valid_eq_zero e _).2 hr
      rw [if_neg hr, if_pos hv]
      exact ⟨⟨hpd, Or.inr (Or.inl ⟨hs, h0, hu, hst⟩)⟩, rfl, by simp [hs, hu,
        SwitchImpl.TaskStatus.rank, ProtoImpl.TaskStatus.rank]⟩
  · rw [SwitchImpl.visit_not_done _ _ _ (by rw [hs]; decide),
      SwitchImpl.task1_func_wait_b e t hs h1,
      ProtoImpl.file_visit_unfinished e u (by rw [hu]; decide),
      ProtoImpl.file_wait_task_wait_b e u _ _ hpd (by rw [hu]; decide) hst]
    by_cases hr : (e.stat t.data.file_wait.file2).ret = 0 ∧
        (e.stat t.data.file_wait.file2).st_size ≥ 1
    · have hv : ¬ ProtoImpl.is_file_valid e t.data.file_wait.file2 = 0 :=
        fun hv => (ProtoImpl.is_file_valid_eq_zero e _).1 hv hr
      rw [if_pos hr, if_neg hv]
      exact ⟨⟨hpd, Or.inr (Or.inr (Or.inr ⟨rfl, rfl⟩))⟩, rfl, rfl⟩
    · have hv : ProtoImpl.is_file_valid e t.data.file_wait.file2 = 0 :=
        (ProtoImpl.is_file_valid_eq_zero e _).2 hr
      rw [if_neg hr, if_pos hv]
      exact ⟨⟨hpd, Or.inr (Or.inr (Or.inl ⟨hs, h1, hu, hst⟩))⟩, rfl, by simp [hs, hu,
        SwitchImpl.TaskStatus.rank, ProtoImpl.TaskStatus.rank]⟩
  · rw [SwitchImpl.visit_done _ _ _ hs, ProtoImpl.file_visit_finished e u hu]
    exact ⟨⟨hpd, Or.inr (Or.inr (Or.inr ⟨hs, hu⟩))⟩, rfl, by simp [hs, hu,
      SwitchImpl.TaskStatus.rank, ProtoImpl.TaskStatus.rank]⟩

theorem timer_step_sim (e : Env) (t : SwitchImpl.Task) (u : ProtoImpl.Task)
    (h : timer_rel t u) :
    timer_rel (SwitchImpl.sched_visit SwitchImpl.task2_func e t).1 (ProtoImpl.timer_visit e u).1 ∧
    (SwitchImpl.sched_visit SwitchImpl.task2_func e t).2 = (ProtoImpl.timer_visit e u).2 ∧
    SwitchImpl.TaskStatus.rank (SwitchImpl.sched_visit SwitchImpl.task2_func e t).1.status =
      ProtoImpl.TaskStatus.rank (ProtoImpl.timer_visit e u).1.status := by
  obtain ⟨s, hpd, hcase⟩ := h
  rcases hcase with ⟨hs, hu⟩ | ⟨hs, hu, hst, hss⟩ | ⟨hs, hu⟩
  · rw [SwitchImpl.visit_not_done _ _ _ (by rw [hs]; decide),
      SwitchImpl.task2_func_init e t hs,
      ProtoImpl.timer_visit_unfinished e u (by rw [hu]; decide),
      ProtoImpl.timer_wait_task_init e u _ s hpd hu]
    exact ⟨⟨e.now, rfl, Or.inr (Or.inl ⟨rfl, rfl, rfl, rfl⟩)⟩, rfl, rfl⟩
  · subst hss
    rw [SwitchImpl.visit_not_done _ _ _ (by rw [hs]; decide),
      SwitchImpl.task2_func_running e t hs,
      ProtoImpl.timer_visit_unfinished e u (by rw [hu]; decide),
      ProtoImpl.timer_wait_task_wait e u _ _ hpd (by rw [hu]; decide) hst]
    by_cases hr : t.data.sleep_wait.wait_sec ≤ elapsed_sec e.now t.data.sleep_wait.start
    · rw [if_pos hr, if_pos hr]
      exact ⟨⟨_, hpd, Or.inr (Or.inr ⟨rfl, rfl⟩)⟩, rfl, rfl⟩
    · rw [if_neg hr, if_neg hr]
      exact ⟨⟨_, hpd, Or.inr (Or.inl ⟨hs, hu, hst, rfl⟩)⟩, rfl, by simp [hs, hu,
        SwitchImpl.TaskStatus.rank, ProtoImpl.TaskStatus.rank]⟩
  · rw [SwitchImpl.visit_done _ _ _ hs, ProtoImpl.timer_visit_finished e u hu]
    exact ⟨⟨s, hpd, Or.inr (Or.inr ⟨hs, hu⟩)⟩, rfl, by simp [hs, hu,
      SwitchImpl.TaskStatus.rank, ProtoImpl.TaskStatus.rank]⟩

/-- C14: the two programs are observationally equivalent under the scheduler.  Take a
newly registered file task of `src/main.c` and one of `src/src/main.c` with the same
two paths, and poll both as the scheduler does (skipped once Complete) through the same
list of worlds: the run of `file_wait_task` is defined, and invocation by invocation the
two runs print the same lines and leave the same status (compared by its position in
Pending, Active, Complete).  The same holds for `task2_func` and `timer_wait_task` on
newly registered timer tasks with the same duration. -/
theorem C14_switch_and_macro_versions_agree (envs : List Env)
    (tA : SwitchImpl.Task) (hA : tA.status = SwitchImpl.TaskStatus.TASK_STATUS_INIT)
    (tF : ProtoImpl.Task) (hF : tF.status = ProtoImpl.TaskStatus.TASK_INIT)
    (hFp : tF.private_data =
      ProtoImpl.PrivateData.file_wait_info tA.data.file_wait.file1 tA.data.file_wait.file2)
    (tT : ProtoImpl.Task) (s : Timespec) (hT : tT.status = ProtoImpl.TaskStatus.TASK_INIT)
    (hTp : tT.private_data = ProtoImpl.PrivateData.timer_info tA.data.sleep_wait.wait_sec s) :
    (∃ tr, run_steps_opt (ProtoImpl.sched_visit ProtoImpl.file_wait_task) envs tF = some tr ∧
      (run_steps (SwitchImpl.sched_visit SwitchImpl.task1_func) envs tA).map
          (fun r => (SwitchImpl.TaskStatus.rank r.1.status, r.2)) =
        tr.map (fun r => (ProtoImpl.TaskStatus.rank r.1.status, r.2))) ∧
    (∃ tr, run_steps_opt (ProtoImpl.sched_visit ProtoImpl.timer_wait_task) envs tT = some tr ∧
      (run_steps (SwitchImpl.sched_visit SwitchImpl.task2_func) envs tA).map
          (fun r => (SwitchImpl.TaskStatus.rank r.1.status, r.2)) =
        tr.map (fun r => (ProtoImpl.TaskStatus.rank r.1.status, r.2))) := by
  constructor
  · refine ⟨_, run_steps_opt_eq_some (ProtoImpl.sched_visit ProtoImpl.file_wait_task)
      ProtoImpl.file_visit
      (fun t => t.private_data =
        ProtoImpl.PrivateData.file_wait_info tA.data.file_wait.file1 tA.data.file_wait.file2)
      (fun e t ht => ProtoImpl.file_visit_eq e t _ _ ht) envs tF hFp, ?_⟩
    exact run_steps_sim _ _ file_rel (fun t => SwitchImpl.TaskStatus.rank t.status)
      (fun u => ProtoImpl.TaskStatus.rank u.status)
      (fun e t u h => file_step_sim e t u h) envs tA tF
      ⟨hFp, Or.inl ⟨hA, hF⟩⟩
  · refine ⟨_, run_steps_opt_eq_some (ProtoImpl.sched_visit ProtoImpl.timer_wait_task)
      ProtoImpl.timer_visit
      (fun t => ∃ s', t.private_data =
        ProtoImpl.PrivateData.timer_info tA.data.sleep_wait.wait_sec s')
      (fun e t ht => ProtoImpl.timer_visit_eq e t _ ht) envs tT ⟨s, hTp⟩, ?_⟩
    exact run_steps_sim _ _ timer_rel (fun t => SwitchImpl.TaskStatus.rank t.status)
      (fun u => ProtoImpl.TaskStatus.rank u.status)
      (fun e t u h => timer_step_sim e t u h) envs tA tT
      ⟨s, hTp, Or.inl ⟨hA, hT⟩⟩

theorem C14_switch_and_macro_versions_agree_witness :
    SwitchImpl.task1_init.status = SwitchImpl.TaskStatus.TASK_STATUS_INIT ∧
    ProtoImpl.file_task_init.status = ProtoImpl.TaskStatus.TASK_INIT ∧
    (ProtoImpl.timer_task_init Double.zero).status = ProtoImpl.TaskStatus.TASK_INIT ∧
    (∃ tr, run_steps_opt (ProtoImpl.sched_visit ProtoImpl.file_wait_task)
        [env_absent 0, env_absent 1, env_ready 2, env_ready 3] ProtoImpl.file_task_init
          = some tr ∧
      (run_steps (SwitchImpl.sched_visit SwitchImpl.task1_func)
          [env_absent 0, env_absent 1, env_ready 2, env_ready 3] SwitchImpl.task1_init).map
          (fun r => (SwitchImpl.TaskStatus.rank r.1.status, r.2)) =
        tr.map (fun r => (ProtoImpl.TaskStatus.rank r.1.status, r.2))) :=
  ⟨rfl, rfl, rfl,
   (C14_switch_and_macro_versions_agree
      [env_absent 0, env_absent 1, env_ready 2, env_ready 3] SwitchImpl.task1_init rfl
      ProtoImpl.file_task_init rfl rfl (ProtoImpl.timer_task_init Double.zero)
      { tv_sec := 0, tv_nsec := 0 } rfl rfl).1⟩

/-! ## A task that never becomes ready -/

theorem SwitchImpl.all_tasks_done_zero (m : SwitchImpl.Mem) (l : List Nat) (fuel : Nat)
    (a : Nat) (h : SwitchImpl.registry m l) (hf : l.length < fuel) (ha : a ∈ l)
    (hs : (m.task a).status ≠ SwitchImpl.TaskStatus.TASK_STATUS_DONE) :
    SwitchImpl.all_tasks_done fuel m = some (0, m) := by
  have h1 := SwitchImpl.all_tasks_done_loop_chain m l _ fuel h hf
  have h2 : ¬ ∀ b ∈ l, (m.task b).status = SwitchImpl.TaskStatus.TASK_STATUS_DONE :=
    fun hall => hs (hall a ha)
  rw [if_neg h2] at h1
  exact h1

theorem SwitchImpl.main_loop_never_exits (J : SwitchImpl.Task → Prop) (good : Env → Prop)
    (hJ1 : ∀ t, J t → t.status ≠ SwitchImpl.TaskStatus.TASK_STATUS_DONE)
    (hJ2 : ∀ e t, J t → good e → J (SwitchImpl.call_func e t).1)
    (l : List Nat) (i a : Nat) (hi : l[i]? = some a) (fuel : Nat) (hf : l.length < fuel) :
    ∀ (n : Nat) (w : Nat → Nat → Env) (m : SwitchImpl.Mem),
      SwitchImpl.registry m l → J (m.task a) → (∀ p, good (w p i)) →
      ∃ m' out, SwitchImpl.main_loop fuel n w m = some (false, m', out) ∧
        J (m'.task a) ∧ SwitchImpl.registry m' l := by
  intro n
  induction n with
  | zero => intro w m hm hJ _; exact ⟨m, [], rfl, hJ, hm⟩
  | succ n ih =>
      intro w m hm hJ hw
      have ha : a ∈ l := List.getElem?_mem hi
      have h0 := SwitchImpl.all_tasks_done_zero m l fuel a hm hf ha (hJ1 _ hJ)
      obtain ⟨res, hres, -, hch, hg, -⟩ :=
        SwitchImpl.sched_pass_loop_chain l fuel (w 0) m _ hm hf
      obtain ⟨res', hres', heff, -⟩ :=
        SwitchImpl.sched_pass_loop_effect l fuel (w 0) m _ hm hf
      have hrr : res' = res := Option.some.inj (hres'.symm.trans hres)
      subst hrr
      have hreg : SwitchImpl.registry res'.mem l := by
        unfold SwitchImpl.registry
        rw [hg]
        exact hch
      have hJ' : J (res'.mem.task a) := by
        rw [heff i a hi, SwitchImpl.visit_not_done _ _ _ (hJ1 _ hJ)]
        exact hJ2 _ _ hJ (hw 0)
      obtain ⟨m', out, hloop, hJm, hregm⟩ :=
        ih (fun p => w (p + 1)) res'.mem hreg hJ' (fun p => hw (p + 1))
      have hpass : SwitchImpl.sched_pass fuel (w 0) m = some res' := hres
      refine ⟨m', res'.out ++ out, ?_, hJm, hregm⟩
      simp [SwitchImpl.main_loop, h0, hpass, hloop]

theorem ProtoImpl.is_all_tasks_finished_zero (m : ProtoImpl.Mem) (l : List Nat) (fuel : Nat)
    (a : Nat) (h : ProtoImpl.registry m l) (hf : l.length < fuel) (ha : a ∈ l)
    (hs : (m.task a).status ≠ ProtoImpl.TaskStatus.TASK_FINISHED) :
    ProtoImpl.is_all_tasks_finished fuel m = some (0, m) := by
  have h1 := ProtoImpl.is_all_tasks_finished_loop_chain m l _ fuel h hf
  have h2 : ¬ ∀ b ∈ l, (m.task b).status = ProtoImpl.TaskStatus.TASK_FINISHED :=
    fun hall => hs (hall a ha)
  rw [if_neg h2] at h1
  exact h1

theorem ProtoImpl.proto_main_loop_never_exits (J : ProtoImpl.Task → Prop) (good : Env → Prop)
    (hJ1 : ∀ t, J t → t.status ≠ ProtoImpl.TaskStatus.TASK_FINISHED)
    (hJ2 : ∀ e t, J t → good e → ∃ r, ProtoImpl.call_execute e t = some r ∧ J r.1)
    (l : List Nat) (i a : Nat) (hi : l[i]? = some a) (fuel : Nat) (hf : l.length < fuel) :
    ∀ (n : Nat) (w : Nat → Nat → Env) (m : ProtoImpl.Mem),
      ProtoImpl.registry m l → (∀ b ∈ l, ProtoImpl.kind_ok (m.task b)) →
      J (m.task a) → (∀ p, good (w p i)) →
      ∃ m' out, ProtoImpl.main_loop fuel n w m = some (false, m', out) ∧
        J (m'.task a) ∧ ProtoImpl.registry m' l := by
  intro n
  induction n with
  | zero => intro w m hm _ hJ _; exact ⟨m, [], rfl, hJ, hm⟩
  | succ n ih =>
      intro w m hm hk hJ hw
      have ha : a ∈ l := List.getElem?_mem hi
      have h0 := ProtoImpl.is_all_tasks_finished_zero m l fuel a hm hf ha (hJ1 _ hJ)
      obtain ⟨res, hres, -, hch, hg, -, hk2⟩ :=
        ProtoImpl.proto_sched_pass_loop_chain l fuel (w 0) m _ hm hf hk
      obtain ⟨res', hres', heff, -⟩ :=
        ProtoImpl.proto_sched_pass_loop_effect l fuel (w 0) m _ hm hf hk
      have hrr : res' = res := Option.some.inj (hres'.symm.trans hres)
      subst hrr
      have hreg : ProtoImpl.registry res'.mem l := by
        unfold ProtoImpl.registry
        rw [hg]
        exact hch
      have hJ' : J (res'.mem.task a) := by
        obtain ⟨r, hr, hm'⟩ := heff i a hi
        rw [ProtoImpl.proto_visit_unfinished _ _ _ (hJ1 _ hJ)] at hr
        obtain ⟨r2, hr2, hJr⟩ := hJ2 (w 0 i) (m.task a) hJ (hw 0)
        rw [hr2] at hr
        rw [hm', ← Option.some.inj hr]
        exact hJr
      obtain ⟨m', out, hloop, hJm, hregm⟩ :=
        ih (fun p => w (p + 1)) res'.mem hreg hk2 hJ' (fun p => hw (p + 1))
      have hpass : ProtoImpl.sched_pass fuel (w 0) m = some res' := hres
      refine ⟨m', res'.out ++ out, ?_, hJm, hregm⟩
      simp [ProtoImpl.main_loop, h0, hpass, hloop]

theorem SwitchImpl.task1_func_frame (e : Env) (t : SwitchImpl.Task) :
    (SwitchImpl.task1_func e t).1.func = t.func ∧
    (SwitchImpl.task1_func e t).1.next = t.next ∧
    (SwitchImpl.task1_func e t).1.data.file_wait.file1 = t.data.file_wait.file1 ∧
    (SwitchImpl.task1_func e t).1.data.file_wait.file2 = t.data.file_wait.file2 ∧
    (SwitchImpl.task1_func e t).1.data.sleep_wait = t.data.sleep_wait := by
  rcases t with ⟨status, ⟨⟨f1, f2, step⟩, sw⟩, func, next⟩
  cases status <;> simp only [SwitchImpl.task1_func] <;> (try split_ifs) <;> simp

theorem SwitchImpl.task1_func_stays_at_a (e : Env) (t : SwitchImpl.Task)
    (h : t.status = SwitchImpl.TaskStatus.TASK_STATUS_INIT ∨
      (t.status = SwitchImpl.TaskStatus.TASK_STATUS_RUNNING ∧ t.data.file_wait.step = 0))
    (hr : ¬ probe_ready e t.data.file_wait.file1) :
    (SwitchImpl.task1_func e t).1.status = SwitchImpl.TaskStatus.TASK_STATUS_RUNNING ∧
    (SwitchImpl.task1_func e t).1.data.file_wait.step = 0 := by
  rcases h with hs | ⟨hs, h0⟩
  · rw [SwitchImpl.task1_func_init e t hs]
    exact ⟨rfl, rfl⟩
  · have hr' : ¬ ((e.stat t.data.file_wait.file1).ret = 0 ∧
        (e.stat t.data.file_wait.file1).st_size ≥ 1) := hr
    rw [SwitchImpl.task1_func_wait_a e t hs h0, if_neg hr']
    exact ⟨hs, h0⟩

theorem SwitchImpl.task1_func_not_done (e : Env) (t : SwitchImpl.Task)
    (h : t.status ≠ SwitchImpl.TaskStatus.TASK_STATUS_DONE)
    (hr : ¬ probe_ready e t.data.file_wait.file2) :
    (SwitchImpl.task1_func e t).1.status ≠ SwitchImpl.TaskStatus.TASK_STATUS_DONE := by
  rcases t with ⟨status, ⟨⟨f1, f2, step⟩, sw⟩, func, next⟩
  unfold probe_ready at hr
  cases status <;> simp only [SwitchImpl.task1_func] <;> (try split_ifs) <;> simp_all

theorem ProtoImpl.file_wait_task_stays_at_a (e : Env) (t : ProtoImpl.Task) (a b : String)
    (hp : t.private_data = ProtoImpl.PrivateData.file_wait_info a b)
    (h : t.status = ProtoImpl.TaskStatus.TASK_INIT ∨
      (t.status = ProtoImpl.TaskStatus.TASK_RUNNING ∧ t.step = ProtoImpl.LINE_WAIT_A))
    (hr : ¬ probe_ready e a) :
    ∃ r, ProtoImpl.file_wait_task e t = some r ∧
      r.1.status = ProtoImpl.TaskStatus.TASK_RUNNING ∧ r.1.step = ProtoImpl.LINE_WAIT_A ∧
      r.1.private_data = ProtoImpl.PrivateData.file_wait_info a b ∧
      r.1.execute = t.execute := by
  rcases h with hs | ⟨hs, h1⟩
  · exact ⟨_, ProtoImpl.file_wait_task_init e t a b hp hs, rfl, rfl, hp, rfl⟩
  · refine ⟨_, ProtoImpl.file_wait_task_wait_a e t a b hp (by rw [hs]; decide) h1, ?_⟩
    rw [if_pos ((ProtoImpl.is_file_valid_eq_zero e a).2 hr)]
    exact ⟨hs, h1, hp, rfl⟩

theorem ProtoImpl.file_wait_task_not_finished (e : Env) (t : ProtoImpl.Task) (a b : String)
    (hp : t.private_data = ProtoImpl.PrivateData.file_wait_info a b)
    (h : t.status ≠ ProtoImpl.TaskStatus.TASK_FINISHED)
    (hr : ¬ probe_ready e b) :
    ∃ r, ProtoImpl.file_wait_task e t = some r ∧
      r.1.status ≠ ProtoImpl.TaskStatus.TASK_FINISHED ∧
      r.1.private_data = ProtoImpl.PrivateData.file_wait_info a b ∧
      r.1.execute = t.execute := by
  by_cases hs : t.status = ProtoImpl.TaskStatus.TASK_INIT
  · exact ⟨_, ProtoImpl.file_wait_task_init e t a b hp hs, by simp, hp, rfl⟩
  · by_cases h0 : t.step = 0
    · exact ⟨_, ProtoImpl.file_wait_task_step0 e t a b hp hs h0, h, hp, rfl⟩
    · by_cases h1 : t.step = ProtoImpl.LINE_WAIT_A
      · refine ⟨_, ProtoImpl.file_wait_task_wait_a e t a b hp hs h1, ?_⟩
        split_ifs
        · exact ⟨h, hp, rfl⟩
        · exact ⟨h, hp, rfl⟩
      · by_cases h2 : t.step = ProtoImpl.LINE_WAIT_B
        · refine ⟨_, ProtoImpl.file_wait_task_wait_b e t a b hp hs h2, ?_⟩
          rw [if_pos ((ProtoImpl.is_file_valid_eq_zero e b).2 hr)]
          exact ⟨h, hp, rfl⟩
        · exact ⟨_, ProtoImpl.file_wait_task_other e t a b hp hs h0 h1 h2, h, hp, rfl⟩

theorem SwitchImpl.call_func_task1 (e : Env) (t : SwitchImpl.Task)
    (h : t.func = SwitchImpl.TaskFunc.task1_func) :
    SwitchImpl.call_func e t = SwitchImpl.task1_func e t := by
  simp [SwitchImpl.call_func, h]

theorem ProtoImpl.call_execute_file (e : Env) (t : ProtoImpl.Task)
    (h : t.execute = ProtoImpl.TaskFunc.file_wait_task) :
    ProtoImpl.call_execute e t = ProtoImpl.file_wait_task e t := by
  simp [ProtoImpl.call_execute, h]

/-- C15: a task that never becomes ready keeps the loop running.  In both programs take
a registry (NULL-terminated list, fuel beyond its length; in `src/src/main.c` every
task holding the payload its step function reads) that contains a newly registered
file-pair task, and worlds in which, at every pass, the probe this task sees for file A
is not ready, or at every pass the probe it sees for file B is not ready (whatever file
A does).  Then for every number `n` of passes the loop of `main` makes `n` passes
without being left, after them the file-pair task is not Complete, and
`all_tasks_done` / `is_all_tasks_finished` returns 0. -/
theorem C15_never_ready_task_keeps_loop_running
    (fuel : Nat) (w : Nat → Nat → Env)
    (mA : SwitchImpl.Mem) (lA : List Nat) (iA aA : Nat)
    (hA : SwitchImpl.registry mA lA) (hfA : lA.length < fuel) (hiA : lA[iA]? = some aA)
    (hfunA : (mA.task aA).func = SwitchImpl.TaskFunc.task1_func)
    (hstA : (mA.task aA).status = SwitchImpl.TaskStatus.TASK_STATUS_INIT)
    (hwA : (∀ p, ¬ probe_ready (w p iA) (mA.task aA).data.file_wait.file1) ∨
           (∀ p, ¬ probe_ready (w p iA) (mA.task aA).data.file_wait.file2))
    (mB : ProtoImpl.Mem) (lB : List Nat) (iB aB : Nat) (pa pb : String)
    (hB : ProtoImpl.registry mB lB) (hfB : lB.length < fuel) (hiB : lB[iB]? = some aB)
    (hkB : ∀ b ∈ lB, ProtoImpl.kind_ok (mB.task b))
    (hexB : (mB.task aB).execute = ProtoImpl.TaskFunc.file_wait_task)
    (hpdB : (mB.task aB).private_data = ProtoImpl.PrivateData.file_wait_info pa pb)
    (hstB : (mB.task aB).status = ProtoImpl.TaskStatus.TASK_INIT)
    (hwB : (∀ p, ¬ probe_ready (w p iB) pa) ∨ (∀ p, ¬ probe_ready (w p iB) pb)) :
    (∀ n : Nat, ∃ m' out, SwitchImpl.main_loop fuel n w mA = some (false, m', out) ∧
      (m'.task aA).status ≠ SwitchImpl.TaskStatus.TASK_STATUS_DONE ∧
      SwitchImpl.all_tasks_done fuel m' = some (0, m')) ∧
    (∀ n : Nat, ∃ m' out, ProtoImpl.main_loop fuel n w mB = some (false, m', out) ∧
      (m'.task aB).status ≠ ProtoImpl.TaskStatus.TASK_FINISHED ∧
      ProtoImpl.is_all_tasks_finished fuel m' = some (0, m')) := by
  have haA : aA ∈ lA := List.getElem?_mem hiA
  have haB : aB ∈ lB := List.getElem?_mem hiB
  constructor
  · intro n
    rcases hwA with hw | hw
    · obtain ⟨m', out, hloop, hJ, hreg⟩ :=
        SwitchImpl.main_loop_never_exits
          (fun t => t.func = SwitchImpl.TaskFunc.task1_func ∧
            t.data.file_wait.file1 = (mA.task aA).data.file_wait.file1 ∧
            (t.status = SwitchImpl.TaskStatus.TASK_STATUS_INIT ∨
              (t.status = SwitchImpl.TaskStatus.TASK_STATUS_RUNNING ∧
                t.data.file_wait.step = 0)))
          (fun e => ¬ probe_ready e (mA.task aA).data.file_wait.file1)
          (by
            rintro t ⟨-, -, h | ⟨h, -⟩⟩ <;> rw [h] <;> decide)
          (by
            rintro e t ⟨hf, hp, hst⟩ hg
            rw [SwitchImpl.call_func_task1 e t hf]
            obtain ⟨f1, -, f3, -, -⟩ := SwitchImpl.task1_func_frame e t
            exact ⟨f1.trans hf, f3.trans hp,
              Or.inr (SwitchImpl.task1_func_stays_at_a e t hst (by rw [hp]; exact hg))⟩)
          lA iA aA hiA fuel hfA n w mA hA ⟨hfunA, rfl, Or.inl hstA⟩ hw
      have hnd : (m'.task aA).status ≠ SwitchImpl.TaskStatus.TASK_STATUS_DONE := by
        rcases hJ with ⟨-, -, h | ⟨h, -⟩⟩ <;> rw [h] <;> decide
      exact ⟨m', out, hloop, hnd, SwitchImpl.all_tasks_done_zero m' lA fuel aA hreg hfA haA hnd⟩
    · obtain ⟨m', out, hloop, hJ, hreg⟩ :=
        SwitchImpl.main_loop_never_exits
          (fun t => t.func = SwitchImpl.TaskFunc.task1_func ∧
            t.data.file_wait.file2 = (mA.task aA).data.file_wait.file2 ∧
            t.status ≠ SwitchImpl.TaskStatus.TASK_STATUS_DONE)
          (fun e => ¬ probe_ready e (mA.task aA).data.file_wait.file2)
          (fun t h => h.2.2)
          (by
            rintro e t ⟨hf, hp, hst⟩ hg
            rw [SwitchImpl.call_func_task1 e t hf]
            obtain ⟨f1, -, -, f4, -⟩ := SwitchImpl.task1_func_frame e t
            exact ⟨f1.trans hf, f4.trans hp,
              SwitchImpl.task1_func_not_done e t hst (by rw [hp]; exact hg)⟩)
          lA iA aA hiA fuel hfA n w mA hA ⟨hfunA, rfl, by rw [hstA]; decide⟩ hw
      exact ⟨m', out, hloop, hJ.2.2,
        SwitchImpl.all_tasks_done_zero m' lA fuel aA hreg hfA haA hJ.2.2⟩
  · intro n
    rcases hwB with hw | hw
    · obtain ⟨m', out, hloop, hJ, hreg⟩ :=
        ProtoImpl.proto_main_loop_never_exits
          (fun t => t.execute = ProtoImpl.TaskFunc.file_wait_task ∧
            t.private_data = ProtoImpl.PrivateData.file_wait_info pa pb ∧
            (t.status = ProtoImpl.TaskStatus.TASK_INIT ∨
              (t.status = ProtoImpl.TaskStatus.TASK_RUNNING ∧
                t.step = ProtoImpl.LINE_WAIT_A)))
          (fun e => ¬ probe_ready e pa)
          (by
            rintro t ⟨-, -, h | ⟨h, -⟩⟩ <;> rw [h] <;> decide)
          (by
            rintro e t ⟨hf, hp, hst⟩ hg
            rw [ProtoImpl.call_execute_file e t hf]
            obtain ⟨r, hr, h1, h2, h3, h4⟩ :=
              ProtoImpl.file_wait_task_stays_at_a e t pa pb hp hst hg
            exact ⟨r, hr, h4.trans hf, h3, Or.inr ⟨h1, h2⟩⟩)
          lB iB aB hiB fuel hfB n w mB hB hkB ⟨hexB, hpdB, Or.inl hstB⟩ hw
      have hnd : (m'.task aB).status ≠ ProtoImpl.TaskStatus.TASK_FINISHED := by
        rcases hJ with ⟨-, -, h | ⟨h, -⟩⟩ <;> rw [h] <;> decide
      exact ⟨m', out, hloop, hnd,
        ProtoImpl.is_all_tasks_finished_zero m' lB fuel aB hreg hfB haB hnd⟩
    · obtain ⟨m', out, hloop, hJ, hreg⟩ :=
        ProtoImpl.proto_main_loop_never_exits
          (fun t => t.execute = ProtoImpl.TaskFunc.file_wait_task ∧
            t.private_data = ProtoImpl.PrivateData.file_wait_info pa pb ∧
            t.status ≠ ProtoImpl.TaskStatus.TASK_FINISHED)
          (fun e => ¬ probe_ready e pb)
          (fun t h => h.2.2)
          (by
            rintro e t ⟨hf, hp, hst⟩ hg
            rw [ProtoImpl.call_execute_file e t hf]
            obtain ⟨r, hr, h1, h2, h3⟩ :=
              ProtoImpl.file_wait_task_not_finished e t pa pb hp hst hg
            exact ⟨r, hr, h3.trans hf, h2, h1⟩)
          lB iB aB hiB fuel hfB n w mB hB hkB ⟨hexB, hpdB, by rw [hstB]; decide⟩ hw
      exact ⟨m', out, hloop, hJ.2.2,
        ProtoImpl.is_all_tasks_finished_zero m' lB fuel aB hreg hfB haB hJ.2.2⟩

theorem C15_never_ready_task_keeps_loop_running_witness :
    SwitchImpl.registry SwitchImpl.mem_two [2, 1] ∧
    ProtoImpl.registry ProtoImpl.mem_two [2, 1] ∧
    (SwitchImpl.mem_two.task 1).status = SwitchImpl.TaskStatus.TASK_STATUS_INIT ∧
    (ProtoImpl.mem_two.task 1).status = ProtoImpl.TaskStatus.TASK_INIT ∧
    (∀ p : Nat, ¬ probe_ready ((fun _ _ => env_absent 0 : Nat → Nat → Env) p 1) "/tmp/a.txt") ∧
    (∃ m' out, SwitchImpl.main_loop 3 5 (fun _ _ => env_absent 0) SwitchImpl.mem_two
        = some (false, m', out) ∧
      (m'.task 1).status ≠ SwitchImpl.TaskStatus.TASK_STATUS_DONE ∧
      SwitchImpl.all_tasks_done 3 m' = some (0, m')) ∧
    (∃ m' out, ProtoImpl.main_loop 3 5 (fun _ _ => env_absent 0) ProtoImpl.mem_two
        = some (false, m', out) ∧
      (m'.task 1).status ≠ ProtoImpl.TaskStatus.TASK_FINISHED ∧
      ProtoImpl.is_all_tasks_finished 3 m' = some (0, m')) := by
  have hA : SwitchImpl.registry SwitchImpl.mem_two [2, 1] := ⟨rfl, rfl, rfl⟩
  have hB : ProtoImpl.registry ProtoImpl.mem_two [2, 1] := ⟨rfl, rfl, rfl⟩
  have hk : ∀ a ∈ [2, 1], ProtoImpl.kind_ok (ProtoImpl.mem_two.task a) := by
    intro a ha
    simp only [List.mem_cons, List.mem_singleton, List.not_mem_nil, or_false] at ha
    rcases ha with h | h <;> subst h <;>
      simp [ProtoImpl.kind_ok, ProtoImpl.mem_two, ProtoImpl.task_append, ProtoImpl.mem_init,
        ProtoImpl.file_task_init, ProtoImpl.timer_task_init]
  have hw : ∀ p : Nat,
      ¬ probe_ready ((fun _ _ => env_absent 0 : Nat → Nat → Env) p 1) "/tmp/a.txt" := by
    intro p
    simp [probe_ready, env_absent]
  have h := C15_never_ready_task_keeps_loop_running 3 (fun _ _ => env_absent 0)
    SwitchImpl.mem_two [2, 1] 1 1 hA (by decide) rfl rfl rfl (Or.inl hw)
    ProtoImpl.mem_two [2, 1] 1 1 "/tmp/a.txt" "/tmp/b.txt" hB (by decide) rfl hk rfl rfl rfl
    (Or.inl hw)
  exact ⟨hA, hB, rfl, rfl, hw, h.1 5, h.2 5⟩

/-! ## The liveness probe -/

theorem ProtoImpl.is_file_valid_eq_one (e : Env) (p : String) :
    ProtoImpl.is_file_valid e p = 1 ↔ probe_ready e p := by
  unfold ProtoImpl.is_file_valid probe_ready
  simp only []
  split_ifs with h1 h2
  · simp [h1]
  · simp at h1
    simp [h1, h2]
  · simp at h1
    simp [h1, h2]

theorem SwitchImpl.task1_func_not_ready (e : Env) (t : SwitchImpl.Task)
    (h1 : ¬ probe_ready e t.data.file_wait.file1)
    (h2 : ¬ probe_ready e t.data.file_wait.file2)
    (hs : t.status ≠ SwitchImpl.TaskStatus.TASK_STATUS_INIT) :
    SwitchImpl.task1_func e t = (t, []) := by
  rcases t with ⟨status, ⟨⟨f1, f2, step⟩, sw⟩, func, next⟩
  unfold probe_ready at h1 h2
  cases status <;> simp only [SwitchImpl.task1_func] <;> (try split_ifs) <;> simp_all

theorem ProtoImpl.file_wait_task_not_ready (e : Env) (t : ProtoImpl.Task) (a b : String)
    (hp : t.private_data = ProtoImpl.PrivateData.file_wait_info a b)
    (h1 : ¬ probe_ready e a) (h2 : ¬ probe_ready e b)
    (hs : t.status ≠ ProtoImpl.TaskStatus.TASK_INIT) :
    ProtoImpl.file_wait_task e t =
      some (if t.step = 0 then
              ({ t with step := ProtoImpl.LINE_WAIT_A }, [Line.begin_wait_file a])
            else (t, [])) := by
  by_cases h0 : t.step = 0
  · rw [if_pos h0]
    exact ProtoImpl.file_wait_task_step0 e t a b hp hs h0
  · rw [if_neg h0]
    by_cases hA : t.step = ProtoImpl.LINE_WAIT_A
    · rw [ProtoImpl.file_wait_task_wait_a e t a b hp hs hA,
        if_pos ((ProtoImpl.is_file_valid_eq_zero e a).2 h1)]
    · by_cases hB : t.step = ProtoImpl.LINE_WAIT_B
      · rw [ProtoImpl.file_wait_task_wait_b e t a b hp hs hB,
          if_pos ((ProtoImpl.is_file_valid_eq_zero e b).2 h2)]
      · exact ProtoImpl.file_wait_task_other e t a b hp hs h0 hA hB

/-- C16: the liveness probe.  `is_file_valid` returns 1 exactly when `stat` returned 0
and the size is at least 1, and 0 otherwise; the inline check of `task1_func` prints
`hello-a` (waiting on A) or `hello-b` (waiting on B) exactly under the same condition.
In a world `envF` where every `stat` fails (any non-zero return value, any size left in
the buffer) and a world `envZ` where every file exists with size 0, the probe answers
not-ready alike, and `task1_func` and `file_wait_task` do the same: on a task that is
not Pending the status is unchanged (the task is returned exactly as it was, for
`file_wait_task` when its `step` is at a label), so the task is never ended. -/
theorem C16_failed_probe_is_not_ready (envF envZ : Env)
    (hF : ∀ p, (envF.stat p).ret ≠ 0)
    (hZ : ∀ p, (envZ.stat p).ret = 0 ∧ (envZ.stat p).st_size = 0)
    (tA : SwitchImpl.Task)
    (tB : ProtoImpl.Task) (a b : String)
    (hB : tB.private_data = ProtoImpl.PrivateData.file_wait_info a b) :
    (∀ (e : Env) (p : String),
      (ProtoImpl.is_file_valid e p = 1 ↔ (e.stat p).ret = 0 ∧ (e.stat p).st_size ≥ 1) ∧
      (ProtoImpl.is_file_valid e p = 0 ↔ ¬ ((e.stat p).ret = 0 ∧ (e.stat p).st_size ≥ 1))) ∧
    (∀ e : Env, tA.status = SwitchImpl.TaskStatus.TASK_STATUS_RUNNING →
      (tA.data.file_wait.step = 0 →
        (Line.hello_a ∈ (SwitchImpl.task1_func e tA).2 ↔
          (e.stat tA.data.file_wait.file1).ret = 0 ∧
            (e.stat tA.data.file_wait.file1).st_size ≥ 1)) ∧
      (tA.data.file_wait.step = 1 →
        (Line.hello_b ∈ (SwitchImpl.task1_func e tA).2 ↔
          (e.stat tA.data.file_wait.file2).ret = 0 ∧
            (e.stat tA.data.file_wait.file2).st_size ≥ 1))) ∧
    (∀ p, ProtoImpl.is_file_valid envF p = 0 ∧ ProtoImpl.is_file_valid envZ p = 0) ∧
    SwitchImpl.task1_func envF tA = SwitchImpl.task1_func envZ tA ∧
    ProtoImpl.file_wait_task envF tB = ProtoImpl.file_wait_task envZ tB ∧
    (tA.status ≠ SwitchImpl.TaskStatus.TASK_STATUS_INIT →
      SwitchImpl.task1_func envF tA = (tA, [])) ∧
    (tB.status ≠ ProtoImpl.TaskStatus.TASK_INIT →
      ∃ r, ProtoImpl.file_wait_task envF tB = some r ∧ r.1.status = tB.status ∧
        (tB.step ≠ 0 → r = (tB, []))) := by
  have hnF : ∀ p, ¬ probe_ready envF p := fun p h => hF p h.1
  have hnZ : ∀ p, ¬ probe_ready envZ p := by
    intro p h
    have h2 := h.2
    rw [(hZ p).2] at h2
    exact absurd h2 (by decide)
  refine ⟨fun e p => ⟨ProtoImpl.is_file_valid_eq_one e p, ProtoImpl.is_file_valid_eq_zero e p⟩,
    ?_, fun p => ⟨(ProtoImpl.is_file_valid_eq_zero envF p).2 (hnF p),
      (ProtoImpl.is_file_valid_eq_zero envZ p).2 (hnZ p)⟩, ?_, ?_, ?_, ?_⟩
  · intro e hs
    constructor
    · intro h0
      rw [SwitchImpl.task1_func_wait_a e tA hs h0]
      split_ifs with h <;> simp [h]
    · intro h1
      rw [SwitchImpl.task1_func_wait_b e tA hs h1]
      split_ifs with h <;> simp [h]
  · by_cases hs : tA.status = SwitchImpl.TaskStatus.TASK_STATUS_INIT
    · rw [SwitchImpl.task1_func_init envF tA hs, SwitchImpl.task1_func_init envZ tA hs]
    · rw [SwitchImpl.task1_func_not_ready envF tA (hnF _) (hnF _) hs,
        SwitchImpl.task1_func_not_ready envZ tA (hnZ _) (hnZ _) hs]
  · by_cases hs : tB.status = ProtoImpl.TaskStatus.TASK_INIT
    · rw [ProtoImpl.file_wait_task_init envF tB a b hB hs,
        ProtoImpl.file_wait_task_init envZ tB a b hB hs]
    · rw [ProtoImpl.file_wait_task_not_ready envF tB a b hB (hnF _) (hnF _) hs,
        ProtoImpl.file_wait_task_not_ready envZ tB a b hB (hnZ _) (hnZ _) hs]
  · intro hs
    exact SwitchImpl.task1_func_not_ready envF tA (hnF _) (hnF _) hs
  · intro hs
    refine ⟨_, ProtoImpl.file_wait_task_not_ready envF tB a b hB (hnF _) (hnF _) hs, ?_, ?_⟩
    · split_ifs <;> rfl
    · intro h0
      rw [if_neg h0]

theorem C16_failed_probe_is_not_ready_witness :
    (∀ p, ((env_absent 0).stat p).ret ≠ 0) ∧
    (∀ p, ((env_empty 0).stat p).ret = 0 ∧ ((env_empty 0).stat p).st_size = 0) ∧
    SwitchImpl.task1_func (env_absent 0) SwitchImpl.task1_running =
      SwitchImpl.task1_func (env_empty 0) SwitchImpl.task1_running ∧
    ProtoImpl.file_wait_task (env_absent 0) ProtoImpl.file_task_running =
      ProtoImpl.file_wait_task (env_empty 0) ProtoImpl.file_task_running ∧
    SwitchImpl.task1_func (env_absent 0) SwitchImpl.task1_running =
      (SwitchImpl.task1_running, []) := by
  have hF : ∀ p, ((env_absent 0).stat p).ret ≠ 0 := by
    intro p
    simp [env_absent]
  have hZ : ∀ p, ((env_empty 0).stat p).ret = 0 ∧ ((env_empty 0).stat p).st_size = 0 := by
    intro p
    simp [env_empty]
  have h := C16_failed_probe_is_not_ready (env_absent 0) (env_empty 0) hF hZ
    SwitchImpl.task1_running ProtoImpl.file_task_running "/tmp/a.txt" "/tmp/b.txt" rfl
  exact ⟨hF, hZ, h.2.2.2.1, h.2.2.2.2.1, h.2.2.2.2.2.1 (by decide)⟩

/-! ## What the step functions write -/

theorem run_steps_all_inv {σ : Type} (g : Env → σ → σ × List Line) (inv : σ → Prop)
    (h : ∀ e t, inv t → inv (g e t).1) :
    ∀ (envs : List Env) (t : σ), inv t → ∀ r ∈ run_steps g envs t, inv r.1 := by
  intro envs
  induction envs with
  | nil => intro t _ r hr; simp [run_steps] at hr
  | cons e es ih =>
      intro t ht r hr
      simp only [run_steps, List.mem_cons] at hr
      rcases hr with hr | hr
      · rw [hr]
        exact h e t ht
      · exact ih _ (h e t ht) r hr

theorem SwitchImpl.task2_func_frame (e : Env) (t : SwitchImpl.Task) :
    (SwitchImpl.task2_func e t).1.func = t.func ∧
    (SwitchImpl.task2_func e t).1.next = t.next ∧
    (SwitchImpl.task2_func e t).1.data.file_wait = t.data.file_wait ∧
    (SwitchImpl.task2_func e t).1.data.sleep_wait.wait_sec = t.data.sleep_wait.wait_sec ∧
    (t.status ≠ SwitchImpl.TaskStatus.TASK_STATUS_INIT →
      (SwitchImpl.task2_func e t).1.data.sleep_wait.start = t.data.sleep_wait.start) := by
  rcases t with ⟨status, ⟨fw, ⟨ws, st⟩⟩, func, next⟩
  cases status <;> simp only [SwitchImpl.task2_func] <;> (try split_ifs) <;> simp

theorem ProtoImpl.timer_wait_task_keeps_start (e : Env) (t : ProtoImpl.Task) (d : Double)
    (s : Timespec) (h : t.private_data = ProtoImpl.PrivateData.timer_info d s)
    (hs : t.status ≠ ProtoImpl.TaskStatus.TASK_INIT) (h0 : t.step ≠ 0) :
    ∃ r, ProtoImpl.timer_wait_task e t = some r ∧
      r.1.private_data = ProtoImpl.PrivateData.timer_info d s := by
  by_cases h1 : t.step = ProtoImpl.LINE_WAIT_TIMER
  · refine ⟨_, ProtoImpl.timer_wait_task_wait e t d s h hs h1, ?_⟩
    split_ifs
    · exact h
    · exact h
  · exact ⟨_, ProtoImpl.timer_wait_task_other e t d s h hs h0 h1, h⟩

theorem ProtoImpl.timer_run_from_pending (env0 : Env) (envs : List Env) (p : ProtoImpl.Task)
    (d : Double) (s0 : Timespec) (hp : p.status = ProtoImpl.TaskStatus.TASK_INIT)
    (hpd : p.private_data = ProtoImpl.PrivateData.timer_info d s0) :
    ∃ tr, run_steps_opt ProtoImpl.timer_wait_task (env0 :: envs) p = some tr ∧
      ∀ r ∈ tr, r.1.status ≠ ProtoImpl.TaskStatus.TASK_INIT ∧
        r.1.step = ProtoImpl.LINE_WAIT_TIMER ∧
        r.1.private_data = ProtoImpl.PrivateData.timer_info d env0.now := by
  have h0 := ProtoImpl.timer_wait_task_init env0 p d s0 hpd hp
  have hinv : ((ProtoImpl.timer_wait_task env0 p).getD (p, [])).1.status ≠
        ProtoImpl.TaskStatus.TASK_INIT ∧
      ((ProtoImpl.timer_wait_task env0 p).getD (p, [])).1.step = ProtoImpl.LINE_WAIT_TIMER ∧
      ((ProtoImpl.timer_wait_task env0 p).getD (p, [])).1.private_data =
        ProtoImpl.PrivateData.timer_info d env0.now := by
    rw [h0]
    exact ⟨by simp, rfl, rfl⟩
  have hrun := run_steps_opt_eq_some ProtoImpl.timer_wait_task
    (fun e t => (ProtoImpl.timer_wait_task e t).getD (t, [])) _
    (fun e t ht => ProtoImpl.timer_wait_task_started env0.now d e t ht) envs _ hinv
  have hall := run_steps_all_inv
    (fun e t => (ProtoImpl.timer_wait_task e t).getD (t, [])) _
    (fun e t ht => (ProtoImpl.timer_wait_task_started env0.now d e t ht).2) envs _ hinv
  have hfull : run_steps_opt ProtoImpl.timer_wait_task (env0 :: envs) p =
      some (run_steps (fun e t => (ProtoImpl.timer_wait_task e t).getD (t, []))
        (env0 :: envs) p) := by
    rw [h0] at hrun
    simp only [Option.getD_some] at hrun
    simp only [run_steps_opt, run_steps, h0, Option.getD_some, hrun]
  refine ⟨_, hfull, ?_⟩
  intro r hr
  simp only [run_steps, List.mem_cons] at hr
  rcases hr with hr | hr
  · rw [hr]
    exact hinv
  · exact hall r hr

/-- A state outside those met when polling from registration: in `src/src/main.c`,
`timer_wait_task` called at clock reading 5 on a timer task whose status is Active and
whose `step` is 0 stores 5 as the start timestamp.  No sequence of `task_append` and
step-function calls produces such a task (`ProtoImpl.timer_run_from_pending`). -/
theorem ProtoImpl.timer_wait_task_active_step0 :
    ProtoImpl.timer_task_active_step0.status = ProtoImpl.TaskStatus.TASK_RUNNING ∧
    ProtoImpl.timer_task_active_step0.step = 0 ∧
    (ProtoImpl.timer_wait_task (env_ready 5) ProtoImpl.timer_task_active_step0).map
        (fun r => r.1.private_data) =
      some (ProtoImpl.PrivateData.timer_info Double.lit_2_0 { tv_sec := 5, tv_nsec := 0 }) := by
  refine ⟨rfl, rfl, ?_⟩
  simp [ProtoImpl.timer_wait_task, ProtoImpl.TASK_START, ProtoImpl.timer_task_active_step0,
    ProtoImpl.timer_task_init, env_ready]

/-- C17: what the step functions write.  For every task object and world:
`task1_func` keeps the two file paths, the wait duration, the recorded start, the
function pointer and the next link; `task2_func` keeps the file paths (and `step`), the
wait duration, the function pointer and the next link, and keeps the recorded start
unless the status is Pending; `file_wait_task` keeps the payload (the two file paths),
the function pointer and the next link; `timer_wait_task` keeps the wait duration, the
function pointer and the next link (in `src/src/main.c` the payload is a union, and each
function is taken on a task holding the member it reads).  The start timestamp is
written only by the invocation made while status is Pending: in `src/main.c` for every
task object; in `src/src/main.c` for every task object whose `step` is not 0, and a
timer task polled from registration in any worlds is Pending at its first invocation
only and has a `step` other than 0 from then on, so that its recorded start stays the
clock reading of the first invocation. -/
theorem C17_step_functions_frame (env env0 : Env) (envs : List Env)
    (tA : SwitchImpl.Task)
    (tF : ProtoImpl.Task) (a b : String)
    (hF : tF.private_data = ProtoImpl.PrivateData.file_wait_info a b)
    (tT : ProtoImpl.Task) (d : Double) (s : Timespec)
    (hT : tT.private_data = ProtoImpl.PrivateData.timer_info d s)
    (pT : ProtoImpl.Task) (d0 : Double) (s0 : Timespec)
    (hpT : pT.status = ProtoImpl.TaskStatus.TASK_INIT)
    (hpTd : pT.private_data = ProtoImpl.PrivateData.timer_info d0 s0) :
    ((SwitchImpl.task1_func env tA).1.data.file_wait.file1 = tA.data.file_wait.file1 ∧
     (SwitchImpl.task1_func env tA).1.data.file_wait.file2 = tA.data.file_wait.file2 ∧
     (SwitchImpl.task1_func env tA).1.data.sleep_wait = tA.data.sleep_wait ∧
     (SwitchImpl.task1_func env tA).1.func = tA.func ∧
     (SwitchImpl.task1_func env tA).1.next = tA.next) ∧
    ((SwitchImpl.task2_func env tA).1.data.file_wait = tA.data.file_wait ∧
     (SwitchImpl.task2_func env tA).1.data.sleep_wait.wait_sec = tA.data.sleep_wait.wait_sec ∧
     (SwitchImpl.task2_func env tA).1.func = tA.func ∧
     (SwitchImpl.task2_func env tA).1.next = tA.next ∧
     (tA.status ≠ SwitchImpl.TaskStatus.TASK_STATUS_INIT →
       (SwitchImpl.task2_func env tA).1.data.sleep_wait.start = tA.data.sleep_wait.start)) ∧
    (∃ r, ProtoImpl.file_wait_task env tF = some r ∧
      r.1.private_data = ProtoImpl.PrivateData.file_wait_info a b ∧
      r.1.execute = tF.execute ∧ r.1.next = tF.next) ∧
    (∃ r, ProtoImpl.timer_wait_task env tT = some r ∧
      (∃ s', r.1.private_data = ProtoImpl.PrivateData.timer_info d s') ∧
      r.1.execute = tT.execute ∧ r.1.next = tT.next ∧
      (tT.status ≠ ProtoImpl.TaskStatus.TASK_INIT → tT.step ≠ 0 →
        r.1.private_data = ProtoImpl.PrivateData.timer_info d s)) ∧
    (∃ tr, run_steps_opt ProtoImpl.timer_wait_task (env0 :: envs) pT = some tr ∧
      ∀ r ∈ tr, r.1.status ≠ ProtoImpl.TaskStatus.TASK_INIT ∧
        r.1.step = ProtoImpl.LINE_WAIT_TIMER ∧
        r.1.private_data = ProtoImpl.PrivateData.timer_info d0 env0.now) := by
  obtain ⟨a1, a2, a3, a4, a5⟩ := SwitchImpl.task1_func_frame env tA
  obtain ⟨b1, b2, b3, b4, b5⟩ := SwitchImpl.task2_func_frame env tA
  obtain ⟨rF, hrF, f1, f2, f3⟩ := ProtoImpl.file_wait_task_frame env tF a b hF
  obtain ⟨rT, hrT, t1, t2, t3⟩ := ProtoImpl.timer_wait_task_frame env tT d s hT
  refine ⟨⟨a3, a4, a5, a1, a2⟩, ⟨b3, b4, b1, b2, b5⟩, ⟨rF, hrF, f3.trans hF, f2, f1⟩,
    ⟨rT, hrT, t3, t2, t1, ?_⟩, ProtoImpl.timer_run_from_pending env0 envs pT d0 s0 hpT hpTd⟩
  intro hs h0
  obtain ⟨r, hr, hpd⟩ := ProtoImpl.timer_wait_task_keeps_start env tT d s hT hs h0
  rw [hrT] at hr
  rw [Option.some.inj hr]
  exact hpd

theorem C17_step_functions_frame_witness :
    ProtoImpl.file_task_running.private_data =
      ProtoImpl.PrivateData.file_wait_info "/tmp/a.txt" "/tmp/b.txt" ∧
    (ProtoImpl.timer_task_running Double.lit_2_0).private_data =
      ProtoImpl.PrivateData.timer_info Double.lit_2_0 { tv_sec := 0, tv_nsec := 0 } ∧
    (ProtoImpl.timer_task_init Double.lit_2_0).status = ProtoImpl.TaskStatus.TASK_INIT ∧
    (SwitchImpl.task2_func (env_ready 9) (SwitchImpl.task2_running Double.lit_2_0)).1.data.sleep_wait.start =
      (SwitchImpl.task2_running Double.lit_2_0).data.sleep_wait.start ∧
    (∃ r, ProtoImpl.timer_wait_task (env_ready 9) (ProtoImpl.timer_task_running Double.lit_2_0) = some r ∧
      r.1.private_data = ProtoImpl.PrivateData.timer_info Double.lit_2_0 { tv_sec := 0, tv_nsec := 0 }) := by
  obtain ⟨-, hA, -, ⟨r, hr, -, -, -, hstart⟩, -⟩ :=
    C17_step_functions_frame (env_ready 9) (env_ready 0) [env_ready 1]
      (SwitchImpl.task2_running Double.lit_2_0)
      ProtoImpl.file_task_running "/tmp/a.txt" "/tmp/b.txt" rfl
      (ProtoImpl.timer_task_running Double.lit_2_0) Double.lit_2_0 { tv_sec := 0, tv_nsec := 0 } rfl
      (ProtoImpl.timer_task_init Double.lit_2_0) Double.lit_2_0 { tv_sec := 0, tv_nsec := 0 } rfl rfl
  exact ⟨rfl, rfl, rfl, hA.2.2.2.2 (by decide), r, hr, hstart (by decide) (by decide)⟩

/-! ## One stage per invocation -/

theorem run_steps_stage_bound {σ : Type} (f : Env → σ → σ × List Line) (stage : σ → Nat)
    (inv : σ → Prop)
    (h : ∀ e t, inv t → inv (f e t).1 ∧ stage (f e t).1 ≤ stage t + 1) :
    ∀ (envs : List Env) (t : σ), inv t →
      stage (last_state t (run_steps f envs t)) ≤ stage t + envs.length := by
  intro envs
  induction envs with
  | nil => intro t _; simp [run_steps, last_state]
  | cons e es ih =>
      intro t ht
      have h1 := h e t ht
      have h2 := ih (f e t).1 h1.1
      simp only [run_steps, last_state, List.length_cons]
      omega

theorem SwitchImpl.task1_func_stage (e : Env) (t : SwitchImpl.Task) :
    SwitchImpl.file_stage (SwitchImpl.task1_func e t).1 ≤ SwitchImpl.file_stage t + 1 := by
  rcases t with ⟨status, ⟨⟨f1, f2, step⟩, sw⟩, func, next⟩
  cases status <;> simp only [SwitchImpl.task1_func] <;> (try split_ifs) <;>
    simp_all [SwitchImpl.file_stage]

theorem ProtoImpl.file_wait_task_stage (e : Env) (t : ProtoImpl.Task) (a b : String)
    (hp : t.private_data = ProtoImpl.PrivateData.file_wait_info a b) :
    ∃ r, ProtoImpl.file_wait_task e t = some r ∧
      r.1.private_data = ProtoImpl.PrivateData.file_wait_info a b ∧
      ProtoImpl.file_stage r.1 ≤ ProtoImpl.file_stage t + 1 := by
  by_cases hs : t.status = ProtoImpl.TaskStatus.TASK_INIT
  · refine ⟨_, ProtoImpl.file_wait_task_init e t a b hp hs, hp, ?_⟩
    simp [ProtoImpl.file_stage, hs, ProtoImpl.LINE_WAIT_A]
  · by_cases h0 : t.step = 0
    · refine ⟨_, ProtoImpl.file_wait_task_step0 e t a b hp hs h0, hp, ?_⟩
      cases hst : t.status <;> simp_all [ProtoImpl.file_stage, ProtoImpl.LINE_WAIT_A]
    · by_cases h1 : t.step = ProtoImpl.LINE_WAIT_A
      · refine ⟨_, ProtoImpl.file_wait_task_wait_a e t a b hp hs h1, ?_⟩
        split_ifs
        · exact ⟨hp, Nat.le_succ _⟩
        · refine ⟨hp, ?_⟩
          cases hst : t.status <;>
            simp_all [ProtoImpl.file_stage, ProtoImpl.LINE_WAIT_A, ProtoImpl.LINE_WAIT_B]
      · by_cases h2 : t.step = ProtoImpl.LINE_WAIT_B
        · refine ⟨_, ProtoImpl.file_wait_task_wait_b e t a b hp hs h2, ?_⟩
          split_ifs
          · exact ⟨hp, Nat.le_succ _⟩
          · refine ⟨hp, ?_⟩
            cases hst : t.status <;>
              simp_all [ProtoImpl.file_stage, ProtoImpl.LINE_WAIT_A, ProtoImpl.LINE_WAIT_B]
        · exact ⟨_, ProtoImpl.file_wait_task_other e t a b hp hs h0 h1 h2, hp, Nat.le_succ _⟩

theorem SwitchImpl.task2_func_stage (e : Env) (t : SwitchImpl.Task) :
    SwitchImpl.TaskStatus.rank (SwitchImpl.task2_func e t).1.status ≤
      SwitchImpl.TaskStatus.rank t.status + 1 := by
  rcases t with ⟨status, ⟨fw, ⟨ws, st⟩⟩, func, next⟩
  cases status <;> simp only [SwitchImpl.task2_func] <;> (try split_ifs) <;>
    simp_all [SwitchImpl.TaskStatus.rank]

theorem ProtoImpl.timer_wait_task_stage (e : Env) (t : ProtoImpl.Task) (d : Double) (s : Timespec)
    (hp : t.private_data = ProtoImpl.PrivateData.timer_info d s) :
    ∃ r, ProtoImpl.timer_wait_task e t = some r ∧
      (∃ s', r.1.private_data = ProtoImpl.PrivateData.timer_info d s') ∧
      ProtoImpl.TaskStatus.rank r.1.status ≤ ProtoImpl.TaskStatus.rank t.status + 1 := by
  by_cases hs : t.status = ProtoImpl.TaskStatus.TASK_INIT
  · refine ⟨_, ProtoImpl.timer_wait_task_init e t d s hp hs, ⟨_, rfl⟩, ?_⟩
    simp [ProtoImpl.TaskStatus.rank, hs]
  · by_cases h0 : t.step = 0
    · exact ⟨_, ProtoImpl.timer_wait_task_step0 e t d s hp hs h0, ⟨_, rfl⟩, Nat.le_succ _⟩
    · by_cases h1 : t.step = ProtoImpl.LINE_WAIT_TIMER
      · refine ⟨_, ProtoImpl.timer_wait_task_wait e t d s hp hs h1, ?_⟩
        split_ifs
        · refine ⟨⟨s, hp⟩, ?_⟩
          cases hst : t.status <;> simp_all [ProtoImpl.TaskStatus.rank]
        · exact ⟨⟨s, hp⟩, Nat.le_succ _⟩
      · exact ⟨_, ProtoImpl.timer_wait_task_other e t d s hp hs h0 h1, ⟨s, hp⟩, Nat.le_succ _⟩

theorem SwitchImpl.task1_func_one_probe (t : SwitchImpl.Task) :
    ∃ p : String, ∀ e e' : Env, e.stat p = e'.stat p →
      SwitchImpl.task1_func e t = SwitchImpl.task1_func e' t := by
  rcases t with ⟨status, ⟨⟨f1, f2, step⟩, sw⟩, func, next⟩
  by_cases h0 : step = 0
  · refine ⟨f1, fun e e' h => ?_⟩
    cases status <;> simp [SwitchImpl.task1_func, h0, h]
  · refine ⟨f2, fun e e' h => ?_⟩
    cases status <;> simp [SwitchImpl.task1_func, h0, h]

theorem ProtoImpl.is_file_valid_congr (e e' : Env) (p : String) (h : e.stat p = e'.stat p) :
    ProtoImpl.is_file_valid e p = ProtoImpl.is_file_valid e' p := by
  simp [ProtoImpl.is_file_valid, h]

theorem ProtoImpl.file_wait_task_one_probe (t : ProtoImpl.Task) (a b : String)
    (hp : t.private_data = ProtoImpl.PrivateData.file_wait_info a b) :
    ∃ p : String, ∀ e e' : Env, e.stat p = e'.stat p →
      ProtoImpl.file_wait_task e t = ProtoImpl.file_wait_task e' t := by
  by_cases hs : t.status = ProtoImpl.TaskStatus.TASK_INIT
  · refine ⟨a, fun e e' _ => ?_⟩
    rw [ProtoImpl.file_wait_task_init e t a b hp hs, ProtoImpl.file_wait_task_init e' t a b hp hs]
  · by_cases h0 : t.step = 0
    · refine ⟨a, fun e e' _ => ?_⟩
      rw [ProtoImpl.file_wait_task_step0 e t a b hp hs h0,
        ProtoImpl.file_wait_task_step0 e' t a b hp hs h0]
    · by_cases h1 : t.step = ProtoImpl.LINE_WAIT_A
      · refine ⟨a, fun e e' h => ?_⟩
        rw [ProtoImpl.file_wait_task_wait_a e t a b hp hs h1,
          ProtoImpl.file_wait_task_wait_a e' t a b hp hs h1,
          ProtoImpl.is_file_valid_congr e e' a h]
      · by_cases h2 : t.step = ProtoImpl.LINE_WAIT_B
        · refine ⟨b, fun e e' h => ?_⟩
          rw [ProtoImpl.file_wait_task_wait_b e t a b hp hs h2,
            ProtoImpl.file_wait_task_wait_b e' t a b hp hs h2,
            ProtoImpl.is_file_valid_congr e e' b h]
        · refine ⟨a, fun e e' _ => ?_⟩
          rw [ProtoImpl.file_wait_task_other e t a b hp hs h0 h1 h2,
            ProtoImpl.file_wait_task_other e' t a b hp hs h0 h1 h2]

theorem SwitchImpl.task1_three_ready (e1 e2 e3 : Env) (t : SwitchImpl.Task)
    (hs : t.status = SwitchImpl.TaskStatus.TASK_STATUS_INIT)
    (h2 : probe_ready e2 t.data.file_wait.file1) (h3 : probe_ready e3 t.data.file_wait.file2) :
    (last_state t (run_steps SwitchImpl.task1_func [e1, e2, e3] t)).status =
      SwitchImpl.TaskStatus.TASK_STATUS_DONE := by
  rcases t with ⟨status, ⟨⟨f1, f2, step⟩, sw⟩, func, next⟩
  simp only at hs
  subst hs
  unfold probe_ready at h2 h3
  simp only at h2 h3
  simp [run_steps, last_state, SwitchImpl.task1_func, h2, h3]

theorem ProtoImpl.file_run_defined (envs : List Env) (t : ProtoImpl.Task) (a b : String)
    (hp : t.private_data = ProtoImpl.PrivateData.file_wait_info a b) :
    run_steps_opt ProtoImpl.file_wait_task envs t =
      some (run_steps (fun e t => (ProtoImpl.file_wait_task e t).getD (t, [])) envs t) := by
  refine run_steps_opt_eq_some ProtoImpl.file_wait_task _
    (fun t => t.private_data = ProtoImpl.PrivateData.file_wait_info a b) ?_ envs t hp
  intro e u hu
  obtain ⟨r, hr, -, -, hpd⟩ := ProtoImpl.file_wait_task_frame e u a b hu
  rw [hr]
  exact ⟨rfl, hpd.trans hu⟩

theorem ProtoImpl.timer_run_defined (envs : List Env) (t : ProtoImpl.Task) (d : Double)
    (s : Timespec) (hp : t.private_data = ProtoImpl.PrivateData.timer_info d s) :
    run_steps_opt ProtoImpl.timer_wait_task envs t =
      some (run_steps (fun e t => (ProtoImpl.timer_wait_task e t).getD (t, [])) envs t) := by
  refine run_steps_opt_eq_some ProtoImpl.timer_wait_task _
    (fun t => ∃ s', t.private_data = ProtoImpl.PrivateData.timer_info d s') ?_ envs t ⟨s, hp⟩
  intro e u hu
  obtain ⟨s', hs'⟩ := hu
  obtain ⟨r, hr, -, -, hpd⟩ := ProtoImpl.timer_wait_task_frame e u d s' hs'
  rw [hr]
  exact ⟨rfl, hpd⟩

theorem ProtoImpl.file_three_ready (e1 e2 e3 : Env) (t : ProtoImpl.Task) (a b : String)
    (hs : t.status = ProtoImpl.TaskStatus.TASK_INIT)
    (hp : t.private_data = ProtoImpl.PrivateData.file_wait_info a b)
    (h2 : probe_ready e2 a) (h3 : probe_ready e3 b) :
    ∃ tr, run_steps_opt ProtoImpl.file_wait_task [e1, e2, e3] t = some tr ∧
      (last_state t tr).status = ProtoImpl.TaskStatus.TASK_FINISHED := by
  have v2 : ¬ ProtoImpl.is_file_valid e2 a = 0 :=
    fun h => (ProtoImpl.is_file_valid_eq_zero e2 a).1 h h2
  have v3 : ¬ ProtoImpl.is_file_valid e3 b = 0 :=
    fun h => (ProtoImpl.is_file_valid_eq_zero e3 b).1 h h3
  have s1 := ProtoImpl.file_wait_task_init e1 t a b hp hs
  have s2 := ProtoImpl.file_wait_task_wait_a e2
    { t with step := ProtoImpl.LINE_WAIT_A, status := ProtoImpl.TaskStatus.TASK_RUNNING } a b
    hp (by simp) rfl
  rw [if_neg v2] at s2
  have s3 := ProtoImpl.file_wait_task_wait_b e3
    { t with step := ProtoImpl.LINE_WAIT_B, status := ProtoImpl.TaskStatus.TASK_RUNNING } a b
    hp (by simp) rfl
  rw [if_neg v3] at s3
  refine ⟨_, ProtoImpl.file_run_defined [e1, e2, e3] t a b hp, ?_⟩
  simp only [run_steps, last_state, s1, s2, s3, Option.getD_some]

theorem SwitchImpl.task2_func_clock_only (t : SwitchImpl.Task) (e e' : Env)
    (h : e.now = e'.now) : SwitchImpl.task2_func e t = SwitchImpl.task2_func e' t := by
  rcases t with ⟨status, data, func, next⟩
  cases status <;> simp [SwitchImpl.task2_func, h]

theorem ProtoImpl.timer_wait_task_clock_only (t : ProtoImpl.Task) (e e' : Env)
    (h : e.now = e'.now) : ProtoImpl.timer_wait_task e t = ProtoImpl.timer_wait_task e' t := by
  simp [ProtoImpl.timer_wait_task, h]

/-- C18: one stage per invocation, at most one probe per invocation.  In both programs:
a call of the file task's step function raises the stage number (0 before the first
waiting point, 1 waiting on A, 2 waiting on B, 3 Complete) by at most one, and its
result depends on the world only through the answer of `stat` for one path; a call of
the timer's step function raises the status by at most one position and its result
depends on the world only through the clock reading.  Hence a newly registered file-pair
task is not Complete after fewer than three invocations, whatever the worlds, and it is
Complete after exactly three when file A is ready at the second and file B at the third
(in particular when both are ready at every poll); a newly registered timer task is not
Complete after fewer than two invocations, whatever its duration (zero and negative
durations included). -/
theorem C18_one_stage_per_invocation
    (tA : SwitchImpl.Task) (hA : tA.status = SwitchImpl.TaskStatus.TASK_STATUS_INIT)
    (tF : ProtoImpl.Task) (a b : String)
    (hF : tF.status = ProtoImpl.TaskStatus.TASK_INIT)
    (hFp : tF.private_data = ProtoImpl.PrivateData.file_wait_info a b)
    (tT : ProtoImpl.Task) (d : Double) (s : Timespec)
    (hT : tT.status = ProtoImpl.TaskStatus.TASK_INIT)
    (hTp : tT.private_data = ProtoImpl.PrivateData.timer_info d s) :
    ((∀ e t, SwitchImpl.file_stage (SwitchImpl.task1_func e t).1 ≤ SwitchImpl.file_stage t + 1) ∧
     (∀ t, ∃ p : String, ∀ e e' : Env, e.stat p = e'.stat p →
        SwitchImpl.task1_func e t = SwitchImpl.task1_func e' t) ∧
     (∀ envs : List Env, envs.length < 3 →
        (last_state tA (run_steps SwitchImpl.task1_func envs tA)).status ≠
          SwitchImpl.TaskStatus.TASK_STATUS_DONE) ∧
     (∀ e1 e2 e3 : Env, probe_ready e2 tA.data.file_wait.file1 →
        probe_ready e3 tA.data.file_wait.file2 →
        (last_state tA (run_steps SwitchImpl.task1_func [e1, e2, e3] tA)).status =
          SwitchImpl.TaskStatus.TASK_STATUS_DONE)) ∧
    ((∀ e t, SwitchImpl.TaskStatus.rank (SwitchImpl.task2_func e t).1.status ≤
        SwitchImpl.TaskStatus.rank t.status + 1) ∧
     (∀ (t : SwitchImpl.Task) (e e' : Env), e.now = e'.now →
        SwitchImpl.task2_func e t = SwitchImpl.task2_func e' t) ∧
     (∀ envs : List Env, envs.length < 2 →
        (last_state tA (run_steps SwitchImpl.task2_func envs tA)).status ≠
          SwitchImpl.TaskStatus.TASK_STATUS_DONE)) ∧
    ((∀ (e : Env) (t : ProtoImpl.Task) (a' b' : String),
        t.private_data = ProtoImpl.PrivateData.file_wait_info a' b' →
        ∃ r, ProtoImpl.file_wait_task e t = some r ∧
          ProtoImpl.file_stage r.1 ≤ ProtoImpl.file_stage t + 1) ∧
     (∀ (t : ProtoImpl.Task) (a' b' : String),
        t.private_data = ProtoImpl.PrivateData.file_wait_info a' b' →
        ∃ p : String, ∀ e e' : Env, e.stat p = e'.stat p →
          ProtoImpl.file_wait_task e t = ProtoImpl.file_wait_task e' t) ∧
     (∀ envs : List Env, envs.length < 3 →
        ∃ tr, run_steps_opt ProtoImpl.file_wait_task envs tF = some tr ∧
          (last_state tF tr).status ≠ ProtoImpl.TaskStatus.TASK_FINISHED) ∧
     (∀ e1 e2 e3 : Env, probe_ready e2 a → probe_ready e3 b →
        ∃ tr, run_steps_opt ProtoImpl.file_wait_task [e1, e2, e3] tF = some tr ∧
          (last_state tF tr).status = ProtoImpl.TaskStatus.TASK_FINISHED)) ∧
    ((∀ (e : Env) (t : ProtoImpl.Task) (d' : Double) (s' : Timespec),
        t.private_data = ProtoImpl.PrivateData.timer_info d' s' →
        ∃ r, ProtoImpl.timer_wait_task e t = some r ∧
          ProtoImpl.TaskStatus.rank r.1.status ≤ ProtoImpl.TaskStatus.rank t.status + 1) ∧
     (∀ (t : ProtoImpl.Task) (e e' : Env), e.now = e'.now →
        ProtoImpl.timer_wait_task e t = ProtoImpl.timer_wait_task e' t) ∧
     (∀ envs : List Env, envs.length < 2 →
        ∃ tr, run_steps_opt ProtoImpl.timer_wait_task envs tT = some tr ∧
          (last_state tT tr).status ≠ ProtoImpl.TaskStatus.TASK_FINISHED)) := by
  refine ⟨⟨SwitchImpl.task1_func_stage, SwitchImpl.task1_func_one_probe, ?_,
      fun e1 e2 e3 h2 h3 => SwitchImpl.task1_three_ready e1 e2 e3 tA hA h2 h3⟩,
    ⟨SwitchImpl.task2_func_stage, SwitchImpl.task2_func_clock_only, ?_⟩,
    ⟨?_, fun t a' b' h => ProtoImpl.file_wait_task_one_probe t a' b' h, ?_,
      fun e1 e2 e3 h2 h3 => ProtoImpl.file_three_ready e1 e2 e3 tF a b hF hFp h2 h3⟩,
    ⟨?_, ProtoImpl.timer_wait_task_clock_only, ?_⟩⟩
  · intro envs hlen hdone
    have hb := run_steps_stage_bound SwitchImpl.task1_func SwitchImpl.file_stage
      (fun _ => True) (fun e t _ => ⟨trivial, SwitchImpl.task1_func_stage e t⟩) envs tA trivial
    have h0 : SwitchImpl.file_stage tA = 0 := by simp [SwitchImpl.file_stage, hA]
    have h3 : SwitchImpl.file_stage
        (last_state tA (run_steps SwitchImpl.task1_func envs tA)) = 3 := by
      simp [SwitchImpl.file_stage, hdone]
    omega
  · intro envs hlen hdone
    have hb := run_steps_stage_bound SwitchImpl.task2_func
      (fun t => SwitchImpl.TaskStatus.rank t.status)
      (fun _ => True) (fun e t _ => ⟨trivial, SwitchImpl.task2_func_stage e t⟩) envs tA trivial
    simp only [hA, hdone, SwitchImpl.TaskStatus.rank] at hb
    omega
  · intro e t a' b' h
    obtain ⟨r, hr, -, hst⟩ := ProtoImpl.file_wait_task_stage e t a' b' h
    exact ⟨r, hr, hst⟩
  · intro envs hlen
    refine ⟨_, ProtoImpl.file_run_defined envs tF a b hFp, ?_⟩
    intro hdone
    have hb := run_steps_stage_bound
      (fun e t => (ProtoImpl.file_wait_task e t).getD (t, [])) ProtoImpl.file_stage
      (fun t => t.private_data = ProtoImpl.PrivateData.file_wait_info a b)
      (by
        intro e t ht
        obtain ⟨r, hr, hpd, hst⟩ := ProtoImpl.file_wait_task_stage e t a b ht
        simp only [hr, Option.getD_some]
        exact ⟨hpd, hst⟩) envs tF hFp
    have h0 : ProtoImpl.file_stage tF = 0 := by simp [ProtoImpl.file_stage, hF]
    have h3 : ProtoImpl.file_stage (last_state tF
        (run_steps (fun e t => (ProtoImpl.file_wait_task e t).getD (t, [])) envs tF)) = 3 := by
      simp [ProtoImpl.file_stage, hdone]
    omega
  · intro e t d' s' h
    obtain ⟨r, hr, -, hst⟩ := ProtoImpl.timer_wait_task_stage e t d' s' h
    exact ⟨r, hr, hst⟩
  · intro envs hlen
    refine ⟨_, ProtoImpl.timer_run_defined envs tT d s hTp, ?_⟩
    intro hdone
    have hb := run_steps_stage_bound
      (fun e t => (ProtoImpl.timer_wait_task e t).getD (t, []))
      (fun t => ProtoImpl.TaskStatus.rank t.status)
      (fun t => ∃ s', t.private_data = ProtoImpl.PrivateData.timer_info d s')
      (by
        intro e t ht
        obtain ⟨s', hs'⟩ := ht
        obtain ⟨r, hr, hpd, hst⟩ := ProtoImpl.timer_wait_task_stage e t d s' hs'
        simp only [hr, Option.getD_some]
        exact ⟨hpd, hst⟩) envs tT ⟨s, hTp⟩
    simp only [hT, hdone, ProtoImpl.TaskStatus.rank] at hb
    omega

theorem C18_one_stage_per_invocation_witness :
    SwitchImpl.task1_init.status = SwitchImpl.TaskStatus.TASK_STATUS_INIT ∧
    ProtoImpl.file_task_init.status = ProtoImpl.TaskStatus.TASK_INIT ∧
    (ProtoImpl.timer_task_init Double.minus_one).status = ProtoImpl.TaskStatus.TASK_INIT ∧
    (last_state SwitchImpl.task1_init
      (run_steps SwitchImpl.task1_func [env_ready 0, env_ready 1, env_ready 2]
        SwitchImpl.task1_init)).status = SwitchImpl.TaskStatus.TASK_STATUS_DONE ∧
    (last_state SwitchImpl.task1_init
      (run_steps SwitchImpl.task1_func [env_ready 0, env_ready 1]
        SwitchImpl.task1_init)).status ≠ SwitchImpl.TaskStatus.TASK_STATUS_DONE ∧
    (∃ tr, run_steps_opt ProtoImpl.file_wait_task [env_ready 0, env_ready 1, env_ready 2]
        ProtoImpl.file_task_init = some tr ∧
      (last_state ProtoImpl.file_task_init tr).status = ProtoImpl.TaskStatus.TASK_FINISHED) ∧
    (∃ tr, run_steps_opt ProtoImpl.timer_wait_task [env_ready 7]
        (ProtoImpl.timer_task_init Double.minus_one) = some tr ∧
      (last_state (ProtoImpl.timer_task_init Double.minus_one) tr).status ≠
        ProtoImpl.TaskStatus.TASK_FINISHED) := by
  have hr : ∀ (k : Int) (p : String), probe_ready (env_ready k) p := by
    intro k p
    simp [probe_ready, env_ready]
  obtain ⟨⟨-, -, hA2, hA3⟩, -, ⟨-, -, -, hF3⟩, ⟨-, -, hT1⟩⟩ :=
    C18_one_stage_per_invocation SwitchImpl.task1_init rfl
      ProtoImpl.file_task_init "/tmp/a.txt" "/tmp/b.txt" rfl rfl
      (ProtoImpl.timer_task_init Double.minus_one) Double.minus_one { tv_sec := 0, tv_nsec := 0 } rfl rfl
  exact ⟨rfl, rfl, rfl, hA3 (env_ready 0) (env_ready 1) (env_ready 2) (hr 1 _) (hr 2 _),
    hA2 [env_ready 0, env_ready 1] (by decide),
    hF3 (env_ready 0) (env_ready 1) (env_ready 2) (hr 1 _) (hr 2 _),
    hT1 [env_ready 7] (by decide)⟩
